import Mathlib

/-!
Verification of the ji-renamer document-extraction engine.

The JavaScript sources are shallowly embedded:
* JS strings are lists of UTF-16 code units (`JStr := List Nat`), so that
  lone surrogates and exotic whitespace behave exactly as in V8.
* Node `Buffer`s are lists of bytes (`Bytes := List Nat`).
* Machine-integer writes (`writeUInt16LE`/`writeUInt32LE`) are modelled with
  explicit `% 2^w`; theorems carry the fit hypotheses that correspond to
  Node's range assertions.
* Fallible code returns `Except`/`Option`.

Definitions are transcribed from:
* `src/binaryOfficeConversion.js` (ZIP writer, salvage scan, DOCX builder,
  conversion orchestrator),
* `src/processFile.js` (ZIP reader `parseZipEntries`, `extractDocxText`,
  `decodeXmlEntities`),
* `src/extractors/pdfExtractor.js` and its extended variant (PDF pipeline),
* `src/utils/fileDates.js` (`parsePdfDate`).
-/

set_option maxHeartbeats 1000000
set_option maxRecDepth 8000

namespace JiRenamer

/-- JS string: a list of UTF-16 code units (each `< 0x10000`). -/
abbrev JStr := List Nat

/-- Node buffer: a list of bytes (each `< 0x100`). -/
abbrev Bytes := List Nat

/-- Embed an ASCII Lean literal as a `JStr` of code units. -/
def asc (s : String) : JStr := s.data.map Char.toNat

/-- ECMAScript `\s` (WhiteSpace and LineTerminator) on code units. -/
def isJsWs (c : Nat) : Bool :=
  c = 0x9 || c = 0xA || c = 0xB || c = 0xC || c = 0xD || c = 0x20 ||
  c = 0xA0 || c = 0x1680 || (0x2000 ≤ c && c ≤ 0x200A) || c = 0x2028 ||
  c = 0x2029 || c = 0x202F || c = 0x205F || c = 0x3000 || c = 0xFEFF

/-- ASCII decimal digit. -/
def isDigit (c : Nat) : Bool := 0x30 ≤ c && c ≤ 0x39

/-- `String.prototype.trim`: strip JS whitespace from both ends. -/
def jsTrim (s : JStr) : JStr :=
  ((s.dropWhile (fun c => isJsWs c)).reverse.dropWhile (fun c => isJsWs c)).reverse

/-- `split('\n')` on code units. -/
def splitOnNl : JStr → List JStr
  | [] => [[]]
  | c :: rest =>
    if c = 0xA then [] :: splitOnNl rest
    else
      match splitOnNl rest with
      | h :: t => (c :: h) :: t
      | [] => [[c]]

theorem dropWhile_length_le (p : Nat → Bool) (l : List Nat) :
    (l.dropWhile p).length ≤ l.length := by
  induction l with
  | nil => simp
  | cons x xs ih =>
    by_cases h : p x
    · simpa [List.dropWhile_cons, h] using Nat.le_succ_of_le ih
    · simp [List.dropWhile_cons, h]

/-- `replace(/\s+/g, ' ')`: each maximal whitespace run becomes one space.
`prevWs` records whether the previous unit belonged to a run. -/
def collapseWsGo (prevWs : Bool) : JStr → JStr
  | [] => []
  | c :: rest =>
    if isJsWs c then
      if prevWs then collapseWsGo true rest
      else 0x20 :: collapseWsGo true rest
    else c :: collapseWsGo false rest

def collapseWs (s : JStr) : JStr := collapseWsGo false s

/-- `replace(/[\t ]+/g, ' ')`: collapse runs of tab/space to one space. -/
def collapseTabSpaceGo (prevRun : Bool) : JStr → JStr
  | [] => []
  | c :: rest =>
    if c = 0x9 || c = 0x20 then
      if prevRun then collapseTabSpaceGo true rest
      else 0x20 :: collapseTabSpaceGo true rest
    else c :: collapseTabSpaceGo false rest

def collapseTabSpace (s : JStr) : JStr := collapseTabSpaceGo false s

/-- `replace(/\r\n?/g, '\n')`. -/
def normCrLf : JStr → JStr
  | [] => []
  | 0xD :: 0xA :: rest => 0xA :: normCrLf rest
  | 0xD :: rest => 0xA :: normCrLf rest
  | c :: rest => c :: normCrLf rest

/-- `buffer.readUInt16LE(i)` as a total read (`getD 0`); in-range use only. -/
def readU16 (b : Bytes) (i : Nat) : Nat :=
  b.getD i 0 + 256 * b.getD (i + 1) 0

/-- `buffer.readUInt32LE(i)` as a total read (`getD 0`); in-range use only. -/
def readU32 (b : Bytes) (i : Nat) : Nat :=
  b.getD i 0 + 256 * b.getD (i + 1) 0 + 65536 * b.getD (i + 2) 0 +
    16777216 * b.getD (i + 3) 0

/-- `buffer.writeUInt16LE(n)`: little-endian bytes, values reduced `% 2^16`. -/
def writeU16 (n : Nat) : Bytes := [n % 256, n / 256 % 256]

/-- `buffer.writeUInt32LE(n)`: little-endian bytes, values reduced `% 2^32`. -/
def writeU32 (n : Nat) : Bytes :=
  [n % 256, n / 256 % 256, n / 65536 % 256, n / 16777216 % 256]

theorem writeU16_length (n : Nat) : (writeU16 n).length = 2 := rfl

theorem writeU32_length (n : Nat) : (writeU32 n).length = 4 := rfl

theorem readU16_writeU16 (n : Nat) (h : n < 65536) :
    readU16 (writeU16 n) 0 = n := by
  simp only [readU16, writeU16, List.getD_cons_zero, List.getD_cons_succ]
  omega

theorem readU32_writeU32 (n : Nat) (h : n < 4294967296) :
    readU32 (writeU32 n) 0 = n := by
  simp only [readU32, writeU32, List.getD_cons_zero, List.getD_cons_succ]
  omega

/-- One round of the CRC-32 table computation (`>>> 1` with reflected poly). -/
def crcRound (c : Nat) : Nat :=
  if c % 2 = 1 then 0xedb88320 ^^^ (c / 2) else c / 2

/-- Entry `i` of the 256-entry CRC-32 table from the source's generator. -/
def crc32Table (i : Nat) : Nat :=
  crcRound (crcRound (crcRound (crcRound
    (crcRound (crcRound (crcRound (crcRound i)))))))

/-- `crc32(buffer)` from `binaryOfficeConversion.js`. -/
def crc32 (b : Bytes) : Nat :=
  (b.foldl
    (fun crc byte => crc32Table ((crc ^^^ byte) % 256) ^^^ (crc / 256))
    0xffffffff) ^^^ 0xffffffff

theorem crcRound_lt (c : Nat) (h : c < 4294967296) : crcRound c < 4294967296 := by
  unfold crcRound
  split
  · have h1 : c / 2 < 2147483648 := by omega
    have := Nat.xor_lt_two_pow (n := 32) (show 0xedb88320 < 2 ^ 32 by norm_num)
      (by simpa using h1.trans (by norm_num))
    simpa using this
  · omega

theorem crc32Table_lt (i : Nat) (h : i < 4294967296) :
    crc32Table i < 4294967296 := by
  unfold crc32Table
  exact crcRound_lt _ (crcRound_lt _ (crcRound_lt _ (crcRound_lt _
    (crcRound_lt _ (crcRound_lt _ (crcRound_lt _ (crcRound_lt _ h)))))))

theorem crc32_lt (b : Bytes) : crc32 b < 4294967296 := by
  unfold crc32
  have hfold : ∀ (l : Bytes) (a : Nat), a < 4294967296 →
      l.foldl (fun crc byte => crc32Table ((crc ^^^ byte) % 256) ^^^ (crc / 256))
        a < 4294967296 := by
    intro l
    induction l with
    | nil => intro a ha; simpa using ha
    | cons x xs ih =>
      intro a ha
      simp only [List.foldl_cons]
      apply ih
      have h1 : crc32Table ((a ^^^ x) % 256) < 4294967296 :=
        crc32Table_lt _ (by omega)
      have h2 : a / 256 < 4294967296 := by omega
      have := Nat.xor_lt_two_pow (n := 32) (by simpa using h1) (by simpa using h2)
      simpa using this
  have := hfold b 0xffffffff (by norm_num)
  have hx := Nat.xor_lt_two_pow (n := 32) (by simpa using this)
    (show 0xffffffff < 2 ^ 32 by norm_num)
  simpa using hx

/-! ### UTF-8 transcoding (`Buffer.from(str, 'utf8')` / `buf.toString('utf8')`)

Both transcoders consume at least one unit per step, so they are written with
a structural fuel parameter equal to the input length (this keeps them
kernel-reducible); `utf8EncodeGo_fuel`/`utf8DecodeGo_fuel` show the fuel is
irrelevant once it covers the input. -/

/-- UTF-16 code units to UTF-8 bytes, WHATWG-style: well-formed surrogate
pairs become 4-byte sequences, lone surrogates become U+FFFD. -/
def utf8EncodeGo : Nat → JStr → Bytes
  | 0, _ => []
  | _ + 1, [] => []
  | fuel + 1, c :: rest =>
    if c < 0x80 then c :: utf8EncodeGo fuel rest
    else if c < 0x800 then
      (0xC0 + c / 64) :: (0x80 + c % 64) :: utf8EncodeGo fuel rest
    else if 0xD800 ≤ c ∧ c ≤ 0xDBFF then
      match rest with
      | c2 :: rest2 =>
        if 0xDC00 ≤ c2 ∧ c2 ≤ 0xDFFF then
          let cp := 0x10000 + (c - 0xD800) * 1024 + (c2 - 0xDC00)
          (0xF0 + cp / 262144) :: (0x80 + cp / 4096 % 64) ::
            (0x80 + cp / 64 % 64) :: (0x80 + cp % 64) :: utf8EncodeGo fuel rest2
        else 0xEF :: 0xBF :: 0xBD :: utf8EncodeGo fuel (c2 :: rest2)
      | [] => [0xEF, 0xBF, 0xBD]
    else if 0xDC00 ≤ c ∧ c ≤ 0xDFFF then
      0xEF :: 0xBF :: 0xBD :: utf8EncodeGo fuel rest
    else
      (0xE0 + c / 4096) :: (0x80 + c / 64 % 64) :: (0x80 + c % 64) ::
        utf8EncodeGo fuel rest

def utf8Encode (s : JStr) : Bytes := utf8EncodeGo s.length s

/-- UTF-8 continuation byte. -/
def isCont (b : Nat) : Bool := 0x80 ≤ b && b ≤ 0xBF

/-- Push a Unicode scalar value onto a `JStr` as UTF-16 code units. -/
def pushScalar (cp : Nat) (rest : JStr) : JStr :=
  if cp < 0x10000 then cp :: rest
  else (0xD800 + (cp - 0x10000) / 1024) :: (0xDC00 + (cp - 0x10000) % 1024) ::
    rest

/-- UTF-8 bytes to UTF-16 code units with U+FFFD replacement on invalid
sequences (resynchronising at the offending byte). -/
def utf8DecodeGo : Nat → Bytes → JStr
  | 0, _ => []
  | _ + 1, [] => []
  | fuel + 1, b :: rest =>
    if b < 0x80 then b :: utf8DecodeGo fuel rest
    else if 0xC2 ≤ b ∧ b ≤ 0xDF then
      match rest with
      | b2 :: rest2 =>
        if isCont b2 then
          ((b - 0xC0) * 64 + (b2 - 0x80)) :: utf8DecodeGo fuel rest2
        else 0xFFFD :: utf8DecodeGo fuel (b2 :: rest2)
      | [] => [0xFFFD]
    else if 0xE0 ≤ b ∧ b ≤ 0xEF then
      match rest with
      | b2 :: rest2 =>
        if (b = 0xE0 ∧ 0xA0 ≤ b2 ∧ b2 ≤ 0xBF) ∨
            (0xE1 ≤ b ∧ b ≤ 0xEC ∧ isCont b2) ∨
            (b = 0xED ∧ 0x80 ≤ b2 ∧ b2 ≤ 0x9F) ∨
            (0xEE ≤ b ∧ isCont b2) then
          match rest2 with
          | b3 :: rest3 =>
            if isCont b3 then
              ((b - 0xE0) * 4096 + (b2 - 0x80) * 64 + (b3 - 0x80)) ::
                utf8DecodeGo fuel rest3
            else 0xFFFD :: utf8DecodeGo fuel (b3 :: rest3)
          | [] => [0xFFFD]
        else 0xFFFD :: utf8DecodeGo fuel (b2 :: rest2)
      | [] => [0xFFFD]
    else if 0xF0 ≤ b ∧ b ≤ 0xF4 then
      match rest with
      | b2 :: rest2 =>
        if (b = 0xF0 ∧ 0x90 ≤ b2 ∧ b2 ≤ 0xBF) ∨
            (0xF1 ≤ b ∧ b ≤ 0xF3 ∧ isCont b2) ∨
            (b = 0xF4 ∧ 0x80 ≤ b2 ∧ b2 ≤ 0x8F) then
          match rest2 with
          | b3 :: rest3 =>
            if isCont b3 then
              match rest3 with
              | b4 :: rest4 =>
                if isCont b4 then
                  pushScalar ((b - 0xF0) * 262144 + (b2 - 0x80) * 4096 +
                    (b3 - 0x80) * 64 + (b4 - 0x80)) (utf8DecodeGo fuel rest4)
                else 0xFFFD :: utf8DecodeGo fuel (b4 :: rest4)
              | [] => [0xFFFD]
            else 0xFFFD :: utf8DecodeGo fuel (b3 :: rest3)
          | [] => [0xFFFD]
        else 0xFFFD :: utf8DecodeGo fuel (b2 :: rest2)
      | [] => [0xFFFD]
    else 0xFFFD :: utf8DecodeGo fuel rest

def utf8Decode (b : Bytes) : JStr := utf8DecodeGo b.length b

theorem utf8EncodeGo_fuel_aux :
    ∀ n : Nat, ∀ s : JStr, s.length ≤ n → ∀ f1 f2, s.length ≤ f1 →
      s.length ≤ f2 → utf8EncodeGo f1 s = utf8EncodeGo f2 s := by
  intro n
  induction n with
  | zero =>
    intro s hs f1 f2 _ _
    have : s = [] := by
      cases s with
      | nil => rfl
      | cons c r => simp at hs
    subst this
    cases f1 <;> cases f2 <;> rfl
  | succ n ih =>
    intro s hs f1 f2 h1f h2f
    cases s with
    | nil => cases f1 <;> cases f2 <;> rfl
    | cons c rest =>
      cases f1 with
      | zero => simp at h1f
      | succ k1 =>
        cases f2 with
        | zero => simp at h2f
        | succ k2 =>
          have hrn : rest.length ≤ n := by simpa using hs
          have hrk1 : rest.length ≤ k1 := by simpa using h1f
          have hrk2 : rest.length ≤ k2 := by simpa using h2f
          by_cases h1 : c < 0x80
          · simp only [utf8EncodeGo, if_pos h1, ih rest hrn k1 k2 hrk1 hrk2]
          · by_cases h2 : c < 0x800
            · simp only [utf8EncodeGo, if_neg h1, if_pos h2,
                ih rest hrn k1 k2 hrk1 hrk2]
            · by_cases h3 : 0xD800 ≤ c ∧ c ≤ 0xDBFF
              · cases rest with
                | nil => simp only [utf8EncodeGo, if_neg h1, if_neg h2,
                    if_pos h3]
                | cons c2 rest2 =>
                  have hr2n : rest2.length ≤ n := by
                    simp only [List.length_cons] at hrn; omega
                  have hr2k1 : rest2.length ≤ k1 := by
                    simp only [List.length_cons] at hrk1; omega
                  have hr2k2 : rest2.length ≤ k2 := by
                    simp only [List.length_cons] at hrk2; omega
                  by_cases h4 : 0xDC00 ≤ c2 ∧ c2 ≤ 0xDFFF
                  · simp only [utf8EncodeGo, if_neg h1, if_neg h2, if_pos h3,
                      if_pos h4, ih rest2 hr2n k1 k2 hr2k1 hr2k2]
                  · simp only [utf8EncodeGo, if_neg h1, if_neg h2, if_pos h3,
                      if_neg h4, ih (c2 :: rest2) hrn k1 k2 hrk1 hrk2]
              · by_cases h5 : 0xDC00 ≤ c ∧ c ≤ 0xDFFF
                · simp only [utf8EncodeGo, if_neg h1, if_neg h2, if_neg h3,
                    if_pos h5, ih rest hrn k1 k2 hrk1 hrk2]
                · simp only [utf8EncodeGo, if_neg h1, if_neg h2, if_neg h3,
                    if_neg h5, ih rest hrn k1 k2 hrk1 hrk2]

theorem utf8EncodeGo_fuel (fuel : Nat) (s : JStr) (h : s.length ≤ fuel) :
    utf8EncodeGo fuel s = utf8Encode s :=
  utf8EncodeGo_fuel_aux s.length s le_rfl fuel s.length h le_rfl

theorem utf8DecodeGo_fuel_aux :
    ∀ n : Nat, ∀ s : Bytes, s.length ≤ n → ∀ f1 f2, s.length ≤ f1 →
      s.length ≤ f2 → utf8DecodeGo f1 s = utf8DecodeGo f2 s := by
  intro n
  induction n with
  | zero =>
    intro s hs f1 f2 _ _
    have : s = [] := by
      cases s with
      | nil => rfl
      | cons c r => simp at hs
    subst this
    cases f1 <;> cases f2 <;> rfl
  | succ n ih =>
    intro s hs f1 f2 h1f h2f
    cases s with
    | nil => cases f1 <;> cases f2 <;> rfl
    | cons b rest =>
      cases f1 with
      | zero => simp at h1f
      | succ k1 =>
        cases f2 with
        | zero => simp at h2f
        | succ k2 =>
          have hrn : rest.length ≤ n := by simpa using hs
          have hrk1 : rest.length ≤ k1 := by simpa using h1f
          have hrk2 : rest.length ≤ k2 := by simpa using h2f
          by_cases h1 : b < 0x80
          · simp only [utf8DecodeGo, if_pos h1, ih rest hrn k1 k2 hrk1 hrk2]
          · by_cases h2 : 0xC2 ≤ b ∧ b ≤ 0xDF
            · cases rest with
              | nil => simp only [utf8DecodeGo, if_neg h1, if_pos h2]
              | cons b2 rest2 =>
                have hr2n : rest2.length ≤ n := by
                  simp only [List.length_cons] at hrn; omega
                have hr2k1 : rest2.length ≤ k1 := by
                  simp only [List.length_cons] at hrk1; omega
                have hr2k2 : rest2.length ≤ k2 := by
                  simp only [List.length_cons] at hrk2; omega
                by_cases hc : isCont b2
                · simp only [utf8DecodeGo, if_neg h1, if_pos h2, hc, if_pos,
                    ih rest2 hr2n k1 k2 hr2k1 hr2k2]
                · simp only [utf8DecodeGo, if_neg h1, if_pos h2, hc,
                    Bool.false_eq_true, if_false, if_true, if_neg,
                    ih (b2 :: rest2) hrn k1 k2 hrk1 hrk2]
            · by_cases h3 : 0xE0 ≤ b ∧ b ≤ 0xEF
              · cases rest with
                | nil => simp only [utf8DecodeGo, if_neg h1, if_neg h2,
                    if_pos h3]
                | cons b2 rest2 =>
                  have hr2n : rest2.length ≤ n := by
                    simp only [List.length_cons] at hrn; omega
                  have hr2k1 : rest2.length ≤ k1 := by
                    simp only [List.length_cons] at hrk1; omega
                  have hr2k2 : rest2.length ≤ k2 := by
                    simp only [List.length_cons] at hrk2; omega
                  by_cases hg : (b = 0xE0 ∧ 0xA0 ≤ b2 ∧ b2 ≤ 0xBF) ∨
                      (0xE1 ≤ b ∧ b ≤ 0xEC ∧ isCont b2) ∨
                      (b = 0xED ∧ 0x80 ≤ b2 ∧ b2 ≤ 0x9F) ∨
                      (0xEE ≤ b ∧ isCont b2)
                  · cases rest2 with
                    | nil => simp only [utf8DecodeGo, if_neg h1, if_neg h2,
                        if_pos h3, if_pos hg]
                    | cons b3 rest3 =>
                      have hr3n : rest3.length ≤ n := by
                        simp only [List.length_cons] at hrn; omega
                      have hr3k1 : rest3.length ≤ k1 := by
                        simp only [List.length_cons] at hrk1; omega
                      have hr3k2 : rest3.length ≤ k2 := by
                        simp only [List.length_cons] at hrk2; omega
                      by_cases hc3 : isCont b3
                      · simp only [utf8DecodeGo, if_neg h1, if_neg h2,
                          if_pos h3, if_pos hg, hc3, if_pos,
                          ih rest3 hr3n k1 k2 hr3k1 hr3k2]
                      · simp only [utf8DecodeGo, if_neg h1, if_neg h2,
                          if_pos h3, if_pos hg, hc3, Bool.false_eq_true, if_false, if_true,
                          if_neg, ih (b3 :: rest3) hr2n k1 k2 hr2k1 hr2k2]
                  · simp only [utf8DecodeGo, if_neg h1, if_neg h2, if_pos h3,
                      if_neg hg, ih (b2 :: rest2) hrn k1 k2 hrk1 hrk2]
              · by_cases h4 : 0xF0 ≤ b ∧ b ≤ 0xF4
                · cases rest with
                  | nil => simp only [utf8DecodeGo, if_neg h1, if_neg h2,
                      if_neg h3, if_pos h4]
                  | cons b2 rest2 =>
                    have hr2n : rest2.length ≤ n := by
                      simp only [List.length_cons] at hrn; omega
                    have hr2k1 : rest2.length ≤ k1 := by
                      simp only [List.length_cons] at hrk1; omega
                    have hr2k2 : rest2.length ≤ k2 := by
                      simp only [List.length_cons] at hrk2; omega
                    by_cases hg : (b = 0xF0 ∧ 0x90 ≤ b2 ∧ b2 ≤ 0xBF) ∨
                        (0xF1 ≤ b ∧ b ≤ 0xF3 ∧ isCont b2) ∨
                        (b = 0xF4 ∧ 0x80 ≤ b2 ∧ b2 ≤ 0x8F)
                    · cases rest2 with
                      | nil => simp only [utf8DecodeGo, if_neg h1, if_neg h2,
                          if_neg h3, if_pos h4, if_pos hg]
                      | cons b3 rest3 =>
                        have hr3n : rest3.length ≤ n := by
                          simp only [List.length_cons] at hrn; omega
                        have hr3k1 : rest3.length ≤ k1 := by
                          simp only [List.length_cons] at hrk1; omega
                        have hr3k2 : rest3.length ≤ k2 := by
                          simp only [List.length_cons] at hrk2; omega
                        by_cases hc3 : isCont b3
                        · cases rest3 with
                          | nil => simp only [utf8DecodeGo, if_neg h1,
                              if_neg h2, if_neg h3, if_pos h4, if_pos hg,
                              hc3, if_pos]
                          | cons b4 rest4 =>
                            have hr4n : rest4.length ≤ n := by
                              simp only [List.length_cons] at hrn; omega
                            have hr4k1 : rest4.length ≤ k1 := by
                              simp only [List.length_cons] at hrk1; omega
                            have hr4k2 : rest4.length ≤ k2 := by
                              simp only [List.length_cons] at hrk2; omega
                            by_cases hc4 : isCont b4
                            · simp only [utf8DecodeGo, if_neg h1, if_neg h2,
                                if_neg h3, if_pos h4, if_pos hg, hc3, hc4,
                                if_pos, ih rest4 hr4n k1 k2 hr4k1 hr4k2]
                            · simp only [utf8DecodeGo, if_neg h1, if_neg h2,
                                if_neg h3, if_pos h4, if_pos hg, hc3, hc4,
                                Bool.false_eq_true, if_false, if_true, if_pos, if_neg,
                                ih (b4 :: rest4) hr3n k1 k2 hr3k1 hr3k2]
                        · simp only [utf8DecodeGo, if_neg h1, if_neg h2,
                            if_neg h3, if_pos h4, if_pos hg, hc3,
                            Bool.false_eq_true, if_false, if_true, if_neg,
                            ih (b3 :: rest3) hr2n k1 k2 hr2k1 hr2k2]
                    · simp only [utf8DecodeGo, if_neg h1, if_neg h2,
                        if_neg h3, if_pos h4, if_neg hg,
                        ih (b2 :: rest2) hrn k1 k2 hrk1 hrk2]
                · simp only [utf8DecodeGo, if_neg h1, if_neg h2, if_neg h3,
                    if_neg h4, ih rest hrn k1 k2 hrk1 hrk2]

theorem utf8DecodeGo_fuel (fuel : Nat) (s : Bytes) (h : s.length ≤ fuel) :
    utf8DecodeGo fuel s = utf8Decode s :=
  utf8DecodeGo_fuel_aux s.length s le_rfl fuel s.length h le_rfl

/-- Code units that are scalar values (no surrogates), i.e. strings whose
UTF-8 encoding decodes back losslessly. -/
def scalarUnit (c : Nat) : Prop := c < 0x10000 ∧ ¬(0xD800 ≤ c ∧ c < 0xE000)

theorem utf8Encode_nil : utf8Encode [] = [] := rfl

theorem utf8Encode_ascii (c : Nat) (rest : JStr) (h : c < 0x80) :
    utf8Encode (c :: rest) = c :: utf8Encode rest := by
  show utf8EncodeGo (rest.length + 1) (c :: rest) = _
  simp only [utf8EncodeGo, if_pos h]
  rfl

theorem utf8Encode_two (c : Nat) (rest : JStr) (h1 : 0x80 ≤ c)
    (h2 : c < 0x800) :
    utf8Encode (c :: rest) =
      (0xC0 + c / 64) :: (0x80 + c % 64) :: utf8Encode rest := by
  show utf8EncodeGo (rest.length + 1) (c :: rest) = _
  have h1n : ¬ c < 0x80 := by omega
  simp only [utf8EncodeGo, if_neg h1n, if_pos h2]
  rfl

theorem utf8Encode_three (c : Nat) (rest : JStr) (h1 : 0x800 ≤ c)
    (h2 : ¬(0xD800 ≤ c ∧ c < 0xE000)) :
    utf8Encode (c :: rest) =
      (0xE0 + c / 4096) :: (0x80 + c / 64 % 64) :: (0x80 + c % 64) ::
        utf8Encode rest := by
  show utf8EncodeGo (rest.length + 1) (c :: rest) = _
  have ha : ¬ c < 0x80 := by omega
  have hb : ¬ c < 0x800 := by omega
  have hc : ¬ (0xD800 ≤ c ∧ c ≤ 0xDBFF) := by omega
  have hd : ¬ (0xDC00 ≤ c ∧ c ≤ 0xDFFF) := by omega
  simp only [utf8EncodeGo, if_neg ha, if_neg hb, if_neg hc, if_neg hd]
  rfl

theorem utf8Decode_nil : utf8Decode [] = [] := rfl

theorem utf8Decode_ascii (b : Nat) (rest : Bytes) (h : b < 0x80) :
    utf8Decode (b :: rest) = b :: utf8Decode rest := by
  show utf8DecodeGo (rest.length + 1) (b :: rest) = _
  simp only [utf8DecodeGo, if_pos h]
  rfl

theorem utf8Decode_two (b b2 : Nat) (rest : Bytes)
    (h1 : 0xC2 ≤ b) (h2 : b ≤ 0xDF) (h3 : 0x80 ≤ b2) (h4 : b2 ≤ 0xBF) :
    utf8Decode (b :: b2 :: rest) =
      ((b - 0xC0) * 64 + (b2 - 0x80)) :: utf8Decode rest := by
  show utf8DecodeGo (rest.length + 1 + 1) (b :: b2 :: rest) = _
  have ha : ¬ b < 0x80 := by omega
  have hc : isCont b2 = true := by simp [isCont]; omega
  simp only [utf8DecodeGo, if_neg ha, if_pos (show 0xC2 ≤ b ∧ b ≤ 0xDF from
    ⟨h1, h2⟩), hc, if_pos]
  rw [utf8DecodeGo_fuel (rest.length + 1) rest (by omega)]

theorem utf8Decode_three (b b2 b3 : Nat) (rest : Bytes)
    (h1 : 0xE0 ≤ b) (h2 : b ≤ 0xEF)
    (hg : (b = 0xE0 ∧ 0xA0 ≤ b2 ∧ b2 ≤ 0xBF) ∨
      (0xE1 ≤ b ∧ b ≤ 0xEC ∧ 0x80 ≤ b2 ∧ b2 ≤ 0xBF) ∨
      (b = 0xED ∧ 0x80 ≤ b2 ∧ b2 ≤ 0x9F) ∨
      (0xEE ≤ b ∧ 0x80 ≤ b2 ∧ b2 ≤ 0xBF))
    (h3 : 0x80 ≤ b3) (h4 : b3 ≤ 0xBF) :
    utf8Decode (b :: b2 :: b3 :: rest) =
      ((b - 0xE0) * 4096 + (b2 - 0x80) * 64 + (b3 - 0x80)) ::
        utf8Decode rest := by
  show utf8DecodeGo (rest.length + 1 + 1 + 1) (b :: b2 :: b3 :: rest) = _
  have ha : ¬ b < 0x80 := by omega
  have hb : ¬ (0xC2 ≤ b ∧ b ≤ 0xDF) := by omega
  have hcont3 : isCont b3 = true := by simp [isCont]; omega
  have hg2 : (b = 0xE0 ∧ 0xA0 ≤ b2 ∧ b2 ≤ 0xBF) ∨
      (0xE1 ≤ b ∧ b ≤ 0xEC ∧ isCont b2 = true) ∨
      (b = 0xED ∧ 0x80 ≤ b2 ∧ b2 ≤ 0x9F) ∨
      (0xEE ≤ b ∧ isCont b2 = true) := by
    simp only [isCont, Bool.and_eq_true, decide_eq_true_eq]
    omega
  have hg3 : (b = 0xE0 ∧ 0xA0 ≤ b2 ∧ b2 ≤ 0xBF) ∨
      (0xE1 ≤ b ∧ b ≤ 0xEC ∧ isCont b2) ∨
      (b = 0xED ∧ 0x80 ≤ b2 ∧ b2 ≤ 0x9F) ∨
      (0xEE ≤ b ∧ isCont b2) := by simpa using hg2
  simp only [utf8DecodeGo, if_neg ha, if_neg hb,
    if_pos (show 0xE0 ≤ b ∧ b ≤ 0xEF from ⟨h1, h2⟩), if_pos hg3, hcont3,
    if_pos]
  rw [utf8DecodeGo_fuel (rest.length + 1 + 1) rest (by omega)]

theorem utf8_roundtrip (s : JStr) (h : ∀ c ∈ s, scalarUnit c) :
    utf8Decode (utf8Encode s) = s := by
  induction s with
  | nil => simp [utf8Encode_nil, utf8Decode_nil]
  | cons c rest ih =>
    have hc : scalarUnit c := h c (by simp)
    have hrest : ∀ x ∈ rest, scalarUnit x := fun x hx => h x (by simp [hx])
    obtain ⟨hlt, hns⟩ := hc
    by_cases h1 : c < 0x80
    · rw [utf8Encode_ascii c rest h1, utf8Decode_ascii c _ h1, ih hrest]
    · by_cases h2 : c < 0x800
      · rw [utf8Encode_two c rest (by omega) h2]
        rw [utf8Decode_two _ _ _ (by omega) (by omega) (by omega) (by omega)]
        rw [ih hrest]
        congr 1
        omega
      · rw [utf8Encode_three c rest (by omega) hns]
        rw [utf8Decode_three _ _ _ _ (by omega) (by omega) ?_ (by omega)
          (by omega)]
        · rw [ih hrest]
          congr 1
          omega
        · omega

/-! ### `escapeXml` (binaryOfficeConversion.js lines 32-40) -/

/-- `str.replace(/c/g, rep)` for a single-character pattern. -/
def replaceChar (c : Nat) (rep : JStr) (s : JStr) : JStr :=
  s.flatMap (fun d => if d = c then rep else [d])

/-- XML entity strings (built without literal apostrophes). -/
def entAmp : JStr := 38 :: asc "amp;"
def entLt : JStr := 38 :: asc "lt;"
def entGt : JStr := 38 :: asc "gt;"
def entQuot : JStr := 38 :: asc "quot;"
def entApos : JStr := 38 :: asc "apos;"

/-- `escapeXml` performs five sequential global single-char replaces:
`&`, `<`, `>`, `"`, `'` in that order. -/
def escapeXml (s : JStr) : JStr :=
  replaceChar 39 entApos (replaceChar 34 entQuot (replaceChar 62 entGt
    (replaceChar 60 entLt (replaceChar 38 entAmp s))))

/-- The per-character expansion `escapeXml` amounts to. -/
def escPiece (c : Nat) : JStr :=
  if c = 38 then entAmp
  else if c = 60 then entLt
  else if c = 62 then entGt
  else if c = 34 then entQuot
  else if c = 39 then entApos
  else [c]

theorem replaceChar_nil (c : Nat) (rep : JStr) : replaceChar c rep [] = [] :=
  rfl

theorem replaceChar_cons (c : Nat) (rep : JStr) (d : Nat) (s : JStr) :
    replaceChar c rep (d :: s) =
      (if d = c then rep else [d]) ++ replaceChar c rep s := by
  simp [replaceChar]

theorem escapeXml_nil : escapeXml [] = [] := rfl

theorem escapeXml_cons (d : Nat) (s : JStr) :
    escapeXml (d :: s) = escPiece d ++ escapeXml s := by
  have happ : ∀ (c : Nat) (rep : JStr) (x y : JStr),
      replaceChar c rep (x ++ y) = replaceChar c rep x ++ replaceChar c rep y := by
    intro c rep x y
    simp [replaceChar]
  by_cases h38 : d = 38
  · subst h38
    simp [escapeXml, replaceChar_cons, happ, escPiece, entAmp, entLt, entGt,
      entQuot, entApos, asc, replaceChar]
  · by_cases h60 : d = 60
    · subst h60
      simp [escapeXml, replaceChar_cons, happ, escPiece, entAmp, entLt, entGt,
        entQuot, entApos, asc, replaceChar]
    · by_cases h62 : d = 62
      · subst h62
        simp [escapeXml, replaceChar_cons, happ, escPiece, entAmp, entLt,
          entGt, entQuot, entApos, asc, replaceChar]
      · by_cases h34 : d = 34
        · subst h34
          simp [escapeXml, replaceChar_cons, happ, escPiece, entAmp, entLt,
            entGt, entQuot, entApos, asc, replaceChar]
        · by_cases h39 : d = 39
          · subst h39
            simp [escapeXml, replaceChar_cons, happ, escPiece, entAmp, entLt,
              entGt, entQuot, entApos, asc, replaceChar]
          · simp [escapeXml, replaceChar_cons, happ, escPiece, h38, h60, h62,
              h34, h39]

theorem escapeXml_eq_flat (s : JStr) : escapeXml s = s.flatMap escPiece := by
  induction s with
  | nil => rfl
  | cons d rest ih => simp [escapeXml_cons, ih]

/-! ### `createStoredZip` (binaryOfficeConversion.js lines 70-137)

The writer's `new Date()` timestamp is passed in as the already-converted
`dosDate`/`dosTime` pair from `toDosDateTime`. -/

/-- A `{name, data}` pair handed to `createStoredZip`. -/
structure ZFile where
  name : JStr
  data : Bytes

def localSig : Nat := 0x04034b50
def centralSig : Nat := 0x02014b50
def eocdSig : Nat := 0x06054b50

/-- The 30-byte local file header (`Buffer.alloc(30)` with its writes). -/
def localHeaderBytes (dosDate dosTime : Nat) (f : ZFile) : Bytes :=
  writeU32 localSig ++ writeU16 20 ++ writeU16 0 ++ writeU16 0 ++
    writeU16 dosTime ++ writeU16 dosDate ++ writeU32 (crc32 f.data) ++
    writeU32 f.data.length ++ writeU32 f.data.length ++
    writeU16 (utf8Encode f.name).length ++ writeU16 0

/-- `Buffer.concat([localHeader, nameBuffer, dataBuffer])`. -/
def localEntry (dosDate dosTime : Nat) (f : ZFile) : Bytes :=
  localHeaderBytes dosDate dosTime f ++ utf8Encode f.name ++ f.data

/-- The 46-byte central directory header for one entry. -/
def centralHeaderBytes (dosDate dosTime : Nat) (f : ZFile) (offset : Nat) :
    Bytes :=
  writeU32 centralSig ++ writeU16 0x0314 ++ writeU16 20 ++ writeU16 0 ++
    writeU16 0 ++ writeU16 dosTime ++ writeU16 dosDate ++
    writeU32 (crc32 f.data) ++ writeU32 f.data.length ++
    writeU32 f.data.length ++ writeU16 (utf8Encode f.name).length ++
    writeU16 0 ++ writeU16 0 ++ writeU16 0 ++ writeU16 0 ++ writeU32 0 ++
    writeU32 offset

/-- `Buffer.concat([centralHeader, nameBuffer])`. -/
def centralEntry (dosDate dosTime : Nat) (f : ZFile) (offset : Nat) : Bytes :=
  centralHeaderBytes dosDate dosTime f offset ++ utf8Encode f.name

/-- Concatenated local entries. -/
def localSection (dosDate dosTime : Nat) : List ZFile → Bytes
  | [] => []
  | f :: fs => localEntry dosDate dosTime f ++ localSection dosDate dosTime fs

/-- Concatenated central records, with the running local offset. -/
def centralSection (dosDate dosTime : Nat) (offset : Nat) :
    List ZFile → Bytes
  | [] => []
  | f :: fs =>
    centralEntry dosDate dosTime f offset ++
      centralSection dosDate dosTime
        (offset + (localEntry dosDate dosTime f).length) fs

/-- End-of-central-directory trailer. -/
def eocdRecord (count centralLen localLen : Nat) : Bytes :=
  writeU32 eocdSig ++ writeU16 0 ++ writeU16 0 ++ writeU16 count ++
    writeU16 count ++ writeU32 centralLen ++ writeU32 localLen ++ writeU16 0

/-- `createStoredZip(files)`: Store-only archive. -/
def createStoredZip (dosDate dosTime : Nat) (files : List ZFile) : Bytes :=
  let localSec := localSection dosDate dosTime files
  let centralSec := centralSection dosDate dosTime 0 files
  localSec ++ centralSec ++
    eocdRecord files.length centralSec.length localSec.length

theorem localHeaderBytes_length (dosDate dosTime : Nat) (f : ZFile) :
    (localHeaderBytes dosDate dosTime f).length = 30 := by
  simp [localHeaderBytes, writeU16, writeU32]

theorem centralHeaderBytes_length (dosDate dosTime : Nat) (f : ZFile)
    (off : Nat) : (centralHeaderBytes dosDate dosTime f off).length = 46 := by
  simp [centralHeaderBytes, writeU16, writeU32]

theorem localEntry_length (dosDate dosTime : Nat) (f : ZFile) :
    (localEntry dosDate dosTime f).length =
      30 + (utf8Encode f.name).length + f.data.length := by
  simp [localEntry, localHeaderBytes, writeU16, writeU32]
  omega

theorem centralEntry_length (dosDate dosTime : Nat) (f : ZFile) (off : Nat) :
    (centralEntry dosDate dosTime f off).length =
      46 + (utf8Encode f.name).length := by
  simp [centralEntry, centralHeaderBytes, writeU16, writeU32]
  omega

theorem eocdRecord_length (count centralLen localLen : Nat) :
    (eocdRecord count centralLen localLen).length = 22 := by
  simp [eocdRecord, writeU16, writeU32]

/-! ### `buildDocxBuffer` (binaryOfficeConversion.js lines 180-217) -/

/-- One `<w:p>` paragraph wrapping an escaped salvaged line. -/
def paraXml (l : JStr) : JStr :=
  asc "<w:p><w:r><w:t xml:space=\"preserve\">" ++ escapeXml l ++
    asc "</w:t></w:r></w:p>"

/-- The paragraph list actually used (placeholder when no lines). -/
def docxParagraphs (lines : List JStr) : List JStr :=
  if lines.length > 0 then lines else [asc "Converted legacy Office document"]

/-- `documentXml` exactly as assembled by the template literal. -/
def documentXml (lines : List JStr) : JStr :=
  asc "<?xml version=\"1.0\" encoding=\"UTF-8\" standalone=\"yes\"?>\n<w:document xmlns:w=\"http://schemas.openxmlformats.org/wordprocessingml/2006/main\" xmlns:r=\"http://schemas.openxmlformats.org/officeDocument/2006/relationships\">\n  <w:body>" ++
    ((docxParagraphs lines).map paraXml).flatten ++
    asc "<w:sectPr><w:pgSz w:w=\"12240\" w:h=\"15840\"/><w:pgMar w:top=\"1440\" w:right=\"1440\" w:bottom=\"1440\" w:left=\"1440\" w:header=\"720\" w:footer=\"720\" w:gutter=\"0\"/></w:sectPr></w:body>\n</w:document>"

def contentTypesXml : JStr :=
  asc "<?xml version=\"1.0\" encoding=\"UTF-8\" standalone=\"yes\"?>\n<Types xmlns=\"http://schemas.openxmlformats.org/package/2006/content-types\">\n  <Default Extension=\"rels\" ContentType=\"application/vnd.openxmlformats-package.relationships+xml\"/>\n  <Default Extension=\"xml\" ContentType=\"application/xml\"/>\n  <Override PartName=\"/word/document.xml\" ContentType=\"application/vnd.openxmlformats-officedocument.wordprocessingml.document.main+xml\"/>\n  <Override PartName=\"/word/styles.xml\" ContentType=\"application/vnd.openxmlformats-officedocument.wordprocessingml.styles+xml\"/>\n</Types>"

def packageRelsXml : JStr :=
  asc "<?xml version=\"1.0\" encoding=\"UTF-8\" standalone=\"yes\"?>\n<Relationships xmlns=\"http://schemas.openxmlformats.org/package/2006/relationships\">\n  <Relationship Id=\"rId1\" Type=\"http://schemas.openxmlformats.org/officeDocument/2006/relationships/officeDocument\" Target=\"word/document.xml\"/>\n</Relationships>"

def stylesXml : JStr :=
  asc "<?xml version=\"1.0\" encoding=\"UTF-8\" standalone=\"yes\"?>\n<w:styles xmlns:w=\"http://schemas.openxmlformats.org/wordprocessingml/2006/main\">\n  <w:style w:type=\"paragraph\" w:default=\"1\" w:styleId=\"Normal\"><w:name w:val=\"Normal\"/><w:qFormat/></w:style>\n</w:styles>"

/-- The four package parts, in the order the source lists them. -/
def docxFiles (lines : List JStr) : List ZFile :=
  [⟨asc "[Content_Types].xml", utf8Encode contentTypesXml⟩,
   ⟨asc "_rels/.rels", utf8Encode packageRelsXml⟩,
   ⟨asc "word/document.xml", utf8Encode (documentXml lines)⟩,
   ⟨asc "word/styles.xml", utf8Encode stylesXml⟩]

/-- `buildDocxBuffer(lines)`. -/
def buildDocxBuffer (dosDate dosTime : Nat) (lines : List JStr) : Bytes :=
  createStoredZip dosDate dosTime (docxFiles lines)

/-! ### `parseZipEntries` (processFile.js lines 950-1016)

Failure modes: the explicit `Invalid archive` / `Unsupported compression`
throws, plus Node's `ERR_OUT_OF_RANGE` on `readUInt16LE`/`readUInt32LE`
beyond the buffer (`rangeError`) and `zlib.inflateRawSync` rejections
(`inflateError`). `inflateRawSync` itself is an external binding, passed in
as a function parameter. -/

inductive ZipErr where
  | malformedArchive
  | unsupportedCompression (method : Nat)
  | rangeError
  | inflateError
deriving DecidableEq

/-- `readUInt16LE` with Node's bounds assertion. -/
def readU16E (b : Bytes) (i : Nat) : Except ZipErr Nat :=
  if i + 2 ≤ b.length then .ok (readU16 b i) else .error .rangeError

/-- `readUInt32LE` with Node's bounds assertion. -/
def readU32E (b : Bytes) (i : Nat) : Except ZipErr Nat :=
  if i + 4 ≤ b.length then .ok (readU32 b i) else .error .rangeError

/-- `buffer.slice(start, stop)` (clamping, never failing). -/
def sliceB (b : Bytes) (start stop : Nat) : Bytes :=
  (b.take stop).drop start

/-- JS `Map.prototype.set`: update in place if present, else append. -/
def mapSet (m : List (JStr × Bytes)) (k : JStr) (v : Bytes) :
    List (JStr × Bytes) :=
  match m with
  | [] => [(k, v)]
  | (k', v') :: rest =>
    if k' = k then (k, v) :: rest else (k', v') :: mapSet rest k v

/-- JS `Map.prototype.get`. -/
def mapGet (m : List (JStr × Bytes)) (k : JStr) : Option Bytes :=
  (m.find? (fun p => p.1 = k)).map (·.2)

/-- Backward scan for the EOCD signature from index `i` down to 0. -/
def eocdFindAux (b : Bytes) : Nat → Option Nat
  | 0 => if readU32 b 0 = eocdSig then some 0 else none
  | i + 1 =>
    if readU32 b (i + 1) = eocdSig then some (i + 1) else eocdFindAux b i

/-- `for (let i = buffer.length - 22; i >= 0; i--)` signature scan. -/
def eocdFind (b : Bytes) : Option Nat :=
  if b.length < 22 then none else eocdFindAux b (b.length - 22)

/-- The central-directory walk (`for (let i = 0; i < totalEntries; i++)`),
with each fallible `readUIntNNLE` matched in source order. -/
def zipWalk (inflate : Bytes → Except Unit Bytes) (b : Bytes) :
    Nat → Nat → List (JStr × Bytes) → Except ZipErr (List (JStr × Bytes))
  | 0, _, acc => .ok acc
  | n + 1, offset, acc =>
    match readU32E b offset with
    | .error e => .error e
    | .ok signature =>
      if signature ≠ centralSig then .ok acc
      else
        match readU16E b (offset + 10) with
        | .error e => .error e
        | .ok compressionMethod =>
          match readU32E b (offset + 20) with
          | .error e => .error e
          | .ok compressedSize =>
            match readU16E b (offset + 28) with
            | .error e => .error e
            | .ok fileNameLength =>
              match readU16E b (offset + 30) with
              | .error e => .error e
              | .ok extraFieldLength =>
                match readU16E b (offset + 32) with
                | .error e => .error e
                | .ok commentLength =>
                  match readU32E b (offset + 42) with
                  | .error e => .error e
                  | .ok localHeaderOffset =>
                    let nameStart := offset + 46
                    let fileName := utf8Decode
                      (sliceB b nameStart (nameStart + fileNameLength))
                    let next := nameStart + fileNameLength +
                      extraFieldLength + commentLength
                    match readU32E b localHeaderOffset with
                    | .error e => .error e
                    | .ok localHeaderSignature =>
                      if localHeaderSignature ≠ localSig then
                        zipWalk inflate b n next acc
                      else
                        match readU16E b (localHeaderOffset + 26) with
                        | .error e => .error e
                        | .ok localFileNameLength =>
                          match readU16E b (localHeaderOffset + 28) with
                          | .error e => .error e
                          | .ok localExtraFieldLength =>
                            let dataStart := localHeaderOffset + 30 +
                              localFileNameLength + localExtraFieldLength
                            let fileData := sliceB b dataStart
                              (dataStart + compressedSize)
                            if compressionMethod = 0 then
                              zipWalk inflate b n next
                                (mapSet acc fileName fileData)
                            else if compressionMethod = 8 then
                              match inflate fileData with
                              | .ok d =>
                                zipWalk inflate b n next (mapSet acc fileName d)
                              | .error _ => .error ZipErr.inflateError
                            else
                              .error (ZipErr.unsupportedCompression
                                compressionMethod)

/-- `parseZipEntries(buffer)`. -/
def parseZipEntries (inflate : Bytes → Except Unit Bytes) (b : Bytes) :
    Except ZipErr (List (JStr × Bytes)) :=
  match eocdFind b with
  | none => .error .malformedArchive
  | some eocdOffset =>
    match readU32E b (eocdOffset + 16) with
    | .error e => .error e
    | .ok centralDirectoryOffset =>
      match readU16E b (eocdOffset + 10) with
      | .error e => .error e
      | .ok totalEntries =>
        zipWalk inflate b totalEntries centralDirectoryOffset []

/-! ### Index bookkeeping for reads over concatenations -/

theorem getD_shift (x y : Bytes) (i : Nat) :
    (x ++ y).getD (x.length + i) 0 = y.getD i 0 := by
  rw [List.getD_append_right _ _ _ _ (by omega)]
  congr 1
  omega

theorem readU16_shift (x y : Bytes) (i : Nat) :
    readU16 (x ++ y) (x.length + i) = readU16 y i := by
  unfold readU16
  have h1 := getD_shift x y i
  have h2 := getD_shift x y (i + 1)
  rw [show x.length + i + 1 = x.length + (i + 1) by omega] at *
  rw [h1, h2]

theorem readU32_shift (x y : Bytes) (i : Nat) :
    readU32 (x ++ y) (x.length + i) = readU32 y i := by
  unfold readU32
  have h1 := getD_shift x y i
  have h2 := getD_shift x y (i + 1)
  have h3 := getD_shift x y (i + 2)
  have h4 := getD_shift x y (i + 3)
  rw [show x.length + i + 1 = x.length + (i + 1) by omega,
    show x.length + i + 2 = x.length + (i + 2) by omega,
    show x.length + i + 3 = x.length + (i + 3) by omega]
  rw [h1, h2, h3, h4]

theorem readU16_take (x y : Bytes) (i : Nat) (h : i + 2 ≤ x.length) :
    readU16 (x ++ y) i = readU16 x i := by
  unfold readU16
  rw [List.getD_append _ _ _ _ (by omega), List.getD_append _ _ _ _ (by omega)]

theorem readU32_take (x y : Bytes) (i : Nat) (h : i + 4 ≤ x.length) :
    readU32 (x ++ y) i = readU32 x i := by
  unfold readU32
  rw [List.getD_append _ _ _ _ (by omega), List.getD_append _ _ _ _ (by omega),
    List.getD_append _ _ _ _ (by omega), List.getD_append _ _ _ _ (by omega)]

theorem sliceB_exact (x y z : Bytes) :
    sliceB (x ++ y ++ z) x.length (x.length + y.length) = y := by
  unfold sliceB
  rw [show x ++ y ++ z = (x ++ y) ++ z by simp]
  rw [List.take_append_eq_append_take]
  rw [List.take_of_length_le (by simp), show x.length + y.length -
    (x ++ y).length = 0 by simp, List.take_zero, List.append_nil]
  exact List.drop_left x y

/-! ### Field reads inside writer-produced headers -/

theorem readU32_write_head (n : Nat) (q : Bytes) :
    readU32 (writeU32 n ++ q) 0 = n % 4294967296 := by
  simp [writeU32, readU32, Nat.div_div_eq_div_mul]
  omega

section FieldReads

variable (dd dt : Nat) (f : ZFile) (off : Nat) (q : Bytes)

theorem ce_read_sig :
    readU32 (centralHeaderBytes dd dt f off ++ q) 0 = centralSig := by
  rw [show centralHeaderBytes dd dt f off ++ q =
    writeU32 centralSig ++ ((writeU16 0x0314 ++ writeU16 20 ++ writeU16 0 ++
      writeU16 0 ++ writeU16 dt ++ writeU16 dd ++ writeU32 (crc32 f.data) ++
      writeU32 f.data.length ++ writeU32 f.data.length ++
      writeU16 (utf8Encode f.name).length ++ writeU16 0 ++ writeU16 0 ++
      writeU16 0 ++ writeU16 0 ++ writeU32 0 ++ writeU32 off) ++ q) from by
    simp [centralHeaderBytes]]
  rw [readU32_write_head]
  norm_num [centralSig]

theorem ce_read_method :
    readU16 (centralHeaderBytes dd dt f off ++ q) 10 = 0 := by
  simp [centralHeaderBytes, writeU16, writeU32, readU16]

theorem ce_read_size :
    readU32 (centralHeaderBytes dd dt f off ++ q) 20 =
      f.data.length % 4294967296 := by
  simp [centralHeaderBytes, writeU16, writeU32, readU32,
    Nat.div_div_eq_div_mul]
  omega

theorem ce_read_nameLen :
    readU16 (centralHeaderBytes dd dt f off ++ q) 28 =
      (utf8Encode f.name).length % 65536 := by
  simp [centralHeaderBytes, writeU16, writeU32, readU16]
  omega

theorem ce_read_extra :
    readU16 (centralHeaderBytes dd dt f off ++ q) 30 = 0 := by
  simp [centralHeaderBytes, writeU16, writeU32, readU16]

theorem ce_read_comment :
    readU16 (centralHeaderBytes dd dt f off ++ q) 32 = 0 := by
  simp [centralHeaderBytes, writeU16, writeU32, readU16]

theorem ce_read_offset :
    readU32 (centralHeaderBytes dd dt f off ++ q) 42 = off % 4294967296 := by
  simp [centralHeaderBytes, writeU16, writeU32, readU32,
    Nat.div_div_eq_div_mul]
  omega

theorem le_read_sig :
    readU32 (localHeaderBytes dd dt f ++ q) 0 = localSig := by
  rw [show localHeaderBytes dd dt f ++ q =
    writeU32 localSig ++ ((writeU16 20 ++ writeU16 0 ++ writeU16 0 ++
      writeU16 dt ++ writeU16 dd ++ writeU32 (crc32 f.data) ++
      writeU32 f.data.length ++ writeU32 f.data.length ++
      writeU16 (utf8Encode f.name).length ++ writeU16 0) ++ q) from by
    simp [localHeaderBytes]]
  rw [readU32_write_head]
  norm_num [localSig]

theorem le_read_nameLen :
    readU16 (localHeaderBytes dd dt f ++ q) 26 =
      (utf8Encode f.name).length % 65536 := by
  simp [localHeaderBytes, writeU16, writeU32, readU16]
  omega

theorem le_read_extra :
    readU16 (localHeaderBytes dd dt f ++ q) 28 = 0 := by
  simp [localHeaderBytes, writeU16, writeU32, readU16]

end FieldReads

theorem eocd_read_sig (count centralLen localLen : Nat) :
    readU32 (eocdRecord count centralLen localLen) 0 = eocdSig := by
  rw [show eocdRecord count centralLen localLen =
    writeU32 eocdSig ++ ((writeU16 0 ++ writeU16 0 ++ writeU16 count ++
      writeU16 count ++ writeU32 centralLen ++ writeU32 localLen ++
      writeU16 0) ++ []) from by simp [eocdRecord]]
  rw [readU32_write_head]
  norm_num [eocdSig]

theorem eocd_read_count (count centralLen localLen : Nat) :
    readU16 (eocdRecord count centralLen localLen) 10 = count % 65536 := by
  simp [eocdRecord, writeU16, writeU32, readU16]
  omega

theorem eocd_read_cdOffset (count centralLen localLen : Nat) :
    readU32 (eocdRecord count centralLen localLen) 16 =
      localLen % 4294967296 := by
  simp [eocdRecord, writeU16, writeU32, readU32, Nat.div_div_eq_div_mul]
  omega

/-! ### Section decomposition -/

theorem localSection_append (dd dt : Nat) (xs ys : List ZFile) :
    localSection dd dt (xs ++ ys) =
      localSection dd dt xs ++ localSection dd dt ys := by
  induction xs with
  | nil => simp [localSection]
  | cons f fs ih => simp [localSection, ih]

theorem centralSection_append (dd dt : Nat) (off : Nat) (xs ys : List ZFile) :
    centralSection dd dt off (xs ++ ys) =
      centralSection dd dt off xs ++
        centralSection dd dt (off + (localSection dd dt xs).length) ys := by
  induction xs generalizing off with
  | nil => simp [centralSection, localSection]
  | cons f fs ih =>
    simp only [List.cons_append, centralSection, localSection,
      List.append_eq, List.length_append]
    rw [ih]
    simp [List.append_assoc, Nat.add_assoc]

theorem centralSection_length_indep (dd dt : Nat) (fs : List ZFile) :
    ∀ off off', (centralSection dd dt off fs).length =
      (centralSection dd dt off' fs).length := by
  induction fs with
  | nil => intro off off'; rfl
  | cons f fs ih =>
    intro off off'
    simp only [centralSection, List.length_append, centralEntry_length]
    rw [ih (off + (localEntry dd dt f).length)
      (off' + (localEntry dd dt f).length)]

/-- One successful central-directory iteration over a writer-produced entry:
the buffer holds `localEntry f` at offset `A.length` and the matching central
record at offset `X.length`, so the walk stores the entry and advances. -/
theorem zipWalk_step (inflate : Bytes → Except Unit Bytes) (b : Bytes)
    (n : Nat) (acc : List (JStr × Bytes)) (dd dt : Nat) (f : ZFile)
    (A B X Y : Bytes)
    (hname : (utf8Encode f.name).length < 65536)
    (hdata : f.data.length < 4294967296)
    (hoff : A.length < 4294967296)
    (hb : b = A ++ localEntry dd dt f ++ B)
    (hb2 : b = X ++ centralEntry dd dt f A.length ++ Y) :
    zipWalk inflate b (n + 1) X.length acc =
      zipWalk inflate b n (X.length + 46 + (utf8Encode f.name).length)
        (mapSet acc (utf8Decode (utf8Encode f.name)) f.data) := by
  have hb3 : b = X ++ (centralHeaderBytes dd dt f A.length ++
      (utf8Encode f.name ++ Y)) := by
    rw [hb2]; simp [centralEntry, List.append_assoc]
  have hb5 : b = A ++ (localHeaderBytes dd dt f ++
      (utf8Encode f.name ++ (f.data ++ B))) := by
    rw [hb]; simp [localEntry, List.append_assoc]
  have hblen : b.length = X.length + (46 + ((utf8Encode f.name).length +
      Y.length)) := by
    rw [hb3]
    simp [centralHeaderBytes_length]
  have hblen2 : b.length = A.length + (30 + ((utf8Encode f.name).length +
      (f.data.length + B.length))) := by
    rw [hb5]
    simp [localHeaderBytes_length]
  have hr0 : readU32E b X.length = .ok centralSig := by
    simp only [readU32E]
    rw [if_pos (by omega)]
    have hs := readU32_shift X (centralHeaderBytes dd dt f A.length ++
      (utf8Encode f.name ++ Y)) 0
    rw [← hb3] at hs
    rw [show X.length = X.length + 0 from rfl, hs, ce_read_sig]
  have hr10 : readU16E b (X.length + 10) = .ok 0 := by
    simp only [readU16E]
    rw [if_pos (by omega)]
    have hs := readU16_shift X (centralHeaderBytes dd dt f A.length ++
      (utf8Encode f.name ++ Y)) 10
    rw [← hb3] at hs
    rw [hs, ce_read_method]
  have hr20 : readU32E b (X.length + 20) = .ok f.data.length := by
    simp only [readU32E]
    rw [if_pos (by omega)]
    have hs := readU32_shift X (centralHeaderBytes dd dt f A.length ++
      (utf8Encode f.name ++ Y)) 20
    rw [← hb3] at hs
    rw [hs, ce_read_size]
    congr 1
    omega
  have hr28 : readU16E b (X.length + 28) = .ok (utf8Encode f.name).length := by
    simp only [readU16E]
    rw [if_pos (by omega)]
    have hs := readU16_shift X (centralHeaderBytes dd dt f A.length ++
      (utf8Encode f.name ++ Y)) 28
    rw [← hb3] at hs
    rw [hs, ce_read_nameLen]
    congr 1
    omega
  have hr30 : readU16E b (X.length + 30) = .ok 0 := by
    simp only [readU16E]
    rw [if_pos (by omega)]
    have hs := readU16_shift X (centralHeaderBytes dd dt f A.length ++
      (utf8Encode f.name ++ Y)) 30
    rw [← hb3] at hs
    rw [hs, ce_read_extra]
  have hr32 : readU16E b (X.length + 32) = .ok 0 := by
    simp only [readU16E]
    rw [if_pos (by omega)]
    have hs := readU16_shift X (centralHeaderBytes dd dt f A.length ++
      (utf8Encode f.name ++ Y)) 32
    rw [← hb3] at hs
    rw [hs, ce_read_comment]
  have hr42 : readU32E b (X.length + 42) = .ok A.length := by
    simp only [readU32E]
    rw [if_pos (by omega)]
    have hs := readU32_shift X (centralHeaderBytes dd dt f A.length ++
      (utf8Encode f.name ++ Y)) 42
    rw [← hb3] at hs
    rw [hs, ce_read_offset]
    congr 1
    omega
  have hrL : readU32E b A.length = .ok localSig := by
    simp only [readU32E]
    rw [if_pos (by omega)]
    have hs := readU32_shift A (localHeaderBytes dd dt f ++
      (utf8Encode f.name ++ (f.data ++ B))) 0
    rw [← hb5] at hs
    rw [show A.length = A.length + 0 from rfl, hs, le_read_sig]
  have hrL26 : readU16E b (A.length + 26) =
      .ok (utf8Encode f.name).length := by
    simp only [readU16E]
    rw [if_pos (by omega)]
    have hs := readU16_shift A (localHeaderBytes dd dt f ++
      (utf8Encode f.name ++ (f.data ++ B))) 26
    rw [← hb5] at hs
    rw [hs, le_read_nameLen]
    congr 1
    omega
  have hrL28 : readU16E b (A.length + 28) = .ok 0 := by
    simp only [readU16E]
    rw [if_pos (by omega)]
    have hs := readU16_shift A (localHeaderBytes dd dt f ++
      (utf8Encode f.name ++ (f.data ++ B))) 28
    rw [← hb5] at hs
    rw [hs, le_read_extra]
  have hsname : sliceB b (X.length + 46)
      (X.length + 46 + (utf8Encode f.name).length) = utf8Encode f.name := by
    have h1 := sliceB_exact (X ++ centralHeaderBytes dd dt f A.length)
      (utf8Encode f.name) Y
    have hxx : b = (X ++ centralHeaderBytes dd dt f A.length) ++
        utf8Encode f.name ++ Y := by
      rw [hb3]; simp [List.append_assoc]
    rw [← hxx] at h1
    simpa [List.length_append, centralHeaderBytes_length] using h1
  have hsdata : sliceB b (A.length + 30 + (utf8Encode f.name).length)
      (A.length + 30 + (utf8Encode f.name).length + f.data.length) =
      f.data := by
    have h1 := sliceB_exact (A ++ localHeaderBytes dd dt f ++
      utf8Encode f.name) f.data B
    have hxx : b = (A ++ localHeaderBytes dd dt f ++ utf8Encode f.name) ++
        f.data ++ B := by
      rw [hb5]; simp [List.append_assoc]
    rw [← hxx] at h1
    simpa [List.length_append, localHeaderBytes_length, Nat.add_assoc]
      using h1
  simp only [zipWalk, hr0, hr10, hr20, hr28, hr30, hr32, hr42, hrL, hrL26,
    hrL28, ne_eq, not_true_eq_false, if_false, ite_false, if_neg,
    not_false_eq_true, ite_true, Nat.add_zero]
  simp [hsname, hsdata]

/-- The whole walk over writer output, by induction on the remaining files. -/
theorem zipWalk_stored (dd dt : Nat) (inflate : Bytes → Except Unit Bytes)
    (files : List ZFile)
    (hname : ∀ f ∈ files, (utf8Encode f.name).length < 65536)
    (hdata : ∀ f ∈ files, f.data.length < 4294967296)
    (hlocal : (localSection dd dt files).length < 4294967296) :
    ∀ post pre acc, files = pre ++ post →
      zipWalk inflate (createStoredZip dd dt files) post.length
        ((localSection dd dt files).length +
          (centralSection dd dt 0 pre).length) acc =
      .ok (post.foldl
        (fun a f => mapSet a (utf8Decode (utf8Encode f.name)) f.data) acc) := by
  intro post
  induction post with
  | nil =>
    intro pre acc hsplit
    simp [zipWalk]
  | cons f post' ih =>
    intro pre acc hsplit
    have hfmem : f ∈ files := by rw [hsplit]; simp
    have hL : localSection dd dt files =
        localSection dd dt pre ++
          (localEntry dd dt f ++ localSection dd dt post') := by
      rw [hsplit, localSection_append]
      rfl
    have hC : centralSection dd dt 0 files =
        centralSection dd dt 0 pre ++
          (centralEntry dd dt f (localSection dd dt pre).length ++
            centralSection dd dt
              ((localSection dd dt pre).length +
                (localEntry dd dt f).length) post') := by
      rw [hsplit, centralSection_append]
      simp [centralSection, Nat.zero_add]
    have hb : createStoredZip dd dt files =
        localSection dd dt files ++
          (centralSection dd dt 0 files ++
            eocdRecord files.length (centralSection dd dt 0 files).length
              (localSection dd dt files).length) := by
      simp [createStoredZip]
    have hbA : createStoredZip dd dt files =
        localSection dd dt pre ++ localEntry dd dt f ++
          (localSection dd dt post' ++
            (centralSection dd dt 0 files ++
              eocdRecord files.length (centralSection dd dt 0 files).length
                (localSection dd dt files).length)) := by
      rw [hb]
      conv_lhs => rw [hL]
      simp [List.append_assoc]
      rw [hL]
      simp [Nat.add_assoc]
    have hbX : createStoredZip dd dt files =
        (localSection dd dt files ++ centralSection dd dt 0 pre) ++
          centralEntry dd dt f (localSection dd dt pre).length ++
          (centralSection dd dt
              ((localSection dd dt pre).length +
                (localEntry dd dt f).length) post' ++
            eocdRecord files.length (centralSection dd dt 0 files).length
              (localSection dd dt files).length) := by
      rw [hb]
      conv_lhs => rw [hC]
      simp [List.append_assoc]
      rw [hC]
      simp [Nat.add_assoc]
    have hoffA : (localSection dd dt pre).length < 4294967296 := by
      have : (localSection dd dt files).length =
          (localSection dd dt pre).length +
            ((localEntry dd dt f).length +
              (localSection dd dt post').length) := by
        rw [hL]; simp
      omega
    have hstep := zipWalk_step inflate (createStoredZip dd dt files)
      post'.length acc dd dt f
      (localSection dd dt pre)
      (localSection dd dt post' ++
        (centralSection dd dt 0 files ++
          eocdRecord files.length (centralSection dd dt 0 files).length
            (localSection dd dt files).length))
      (localSection dd dt files ++ centralSection dd dt 0 pre)
      (centralSection dd dt
          ((localSection dd dt pre).length +
            (localEntry dd dt f).length) post' ++
        eocdRecord files.length (centralSection dd dt 0 files).length
          (localSection dd dt files).length)
      (hname f hfmem) (hdata f hfmem) hoffA hbA hbX
    have hXlen : (localSection dd dt files ++
        centralSection dd dt 0 pre).length =
        (localSection dd dt files).length +
          (centralSection dd dt 0 pre).length := by simp
    rw [List.length_cons, ← hXlen, hstep]
    have hpre' : files = (pre ++ [f]) ++ post' := by
      rw [hsplit]; simp
    have hnext : (localSection dd dt files ++
        centralSection dd dt 0 pre).length + 46 +
          (utf8Encode f.name).length =
        (localSection dd dt files).length +
          (centralSection dd dt 0 (pre ++ [f])).length := by
      rw [centralSection_append]
      simp [centralSection, centralEntry_length]
      omega
    rw [hnext, ih (pre ++ [f])
      (mapSet acc (utf8Decode (utf8Encode f.name)) f.data) hpre']
    simp

instance {e a : Type} [DecidableEq e] [DecidableEq a] :
    DecidableEq (Except e a) := fun x y =>
  match x, y with
  | .ok u, .ok v =>
    if h : u = v then isTrue (by rw [h]) else isFalse (by simpa using h)
  | .error u, .error v =>
    if h : u = v then isTrue (by rw [h]) else isFalse (by simpa using h)
  | .ok _, .error _ => isFalse (by simp)
  | .error _, .ok _ => isFalse (by simp)

theorem mapSet_append (m : List (JStr × Bytes)) (k : JStr) (v : Bytes)
    (h : ∀ p ∈ m, p.1 ≠ k) : mapSet m k v = m ++ [(k, v)] := by
  induction m with
  | nil => rfl
  | cons p rest ih =>
    have hp : p.1 ≠ k := h p (by simp)
    obtain ⟨k0, v0⟩ := p
    simp only [mapSet, if_neg hp, List.cons_append, List.cons.injEq, true_and]
    exact ih (fun q hq => h q (by simp [hq]))

theorem foldl_mapSet_pairs (pairs : List (JStr × Bytes)) :
    ∀ acc : List (JStr × Bytes),
      ((acc ++ pairs).map Prod.fst).Nodup →
      pairs.foldl (fun a p => mapSet a p.1 p.2) acc = acc ++ pairs := by
  induction pairs with
  | nil => intro acc _; simp
  | cons p rest ih =>
    intro acc hnd
    simp only [List.foldl_cons]
    have h1 : ∀ q ∈ acc, q.1 ≠ p.1 := by
      intro q hq
      have := hnd
      rw [List.map_append, List.nodup_append] at this
      intro heq
      have hmem : q.1 ∈ acc.map Prod.fst := List.mem_map_of_mem _ hq
      exact this.2.2 hmem (by simp [heq])
    rw [mapSet_append acc p.1 p.2 h1]
    have hnd2 : (((acc ++ [p]) ++ rest).map Prod.fst).Nodup := by
      simpa using hnd
    rw [ih (acc ++ [p]) hnd2]
    simp

theorem eocdFindAux_hit (b : Bytes) (i : Nat) (h : readU32 b i = eocdSig) :
    eocdFindAux b i = some i := by
  cases i with
  | zero => simp [eocdFindAux, h]
  | succ n => simp [eocdFindAux, h]

/-- `parseZipEntries` inverts `createStoredZip`: every written entry comes
back (last-wins accumulation), with its UTF-8 round-tripped name. -/
theorem parseZip_createStoredZip (dd dt : Nat)
    (inflate : Bytes → Except Unit Bytes) (files : List ZFile)
    (hname : ∀ f ∈ files, (utf8Encode f.name).length < 65536)
    (hdata : ∀ f ∈ files, f.data.length < 4294967296)
    (hlocal : (localSection dd dt files).length < 4294967296)
    (hcount : files.length < 65536) :
    parseZipEntries inflate (createStoredZip dd dt files) =
      .ok (files.foldl
        (fun a f => mapSet a (utf8Decode (utf8Encode f.name)) f.data) []) := by
  have hb : createStoredZip dd dt files =
      (localSection dd dt files ++ centralSection dd dt 0 files) ++
        eocdRecord files.length (centralSection dd dt 0 files).length
          (localSection dd dt files).length := by
    simp [createStoredZip, List.append_assoc]
  have hblen : (createStoredZip dd dt files).length =
      (localSection dd dt files).length +
        (centralSection dd dt 0 files).length + 22 := by
    rw [hb]; simp [eocdRecord_length]; omega
  have hEread : readU32 (createStoredZip dd dt files)
      ((localSection dd dt files ++ centralSection dd dt 0 files).length) =
      eocdSig := by
    rw [hb]
    have hs := readU32_shift
      (localSection dd dt files ++ centralSection dd dt 0 files)
      (eocdRecord files.length (centralSection dd dt 0 files).length
        (localSection dd dt files).length) 0
    rw [show (localSection dd dt files ++
      centralSection dd dt 0 files).length = (localSection dd dt files ++
      centralSection dd dt 0 files).length + 0 from rfl, hs, eocd_read_sig]
  have hfind : eocdFind (createStoredZip dd dt files) =
      some ((localSection dd dt files).length +
        (centralSection dd dt 0 files).length) := by
    unfold eocdFind
    rw [if_neg (by omega)]
    rw [show (createStoredZip dd dt files).length - 22 =
      (localSection dd dt files).length +
        (centralSection dd dt 0 files).length by omega]
    have := eocdFindAux_hit (createStoredZip dd dt files)
      ((localSection dd dt files).length +
        (centralSection dd dt 0 files).length)
      (by simpa using hEread)
    simpa using this
  have h16 : readU32E (createStoredZip dd dt files)
      ((localSection dd dt files).length +
        (centralSection dd dt 0 files).length + 16) =
      .ok (localSection dd dt files).length := by
    simp only [readU32E]
    rw [if_pos (by omega)]
    rw [hb]
    have hs := readU32_shift
      (localSection dd dt files ++ centralSection dd dt 0 files)
      (eocdRecord files.length (centralSection dd dt 0 files).length
        (localSection dd dt files).length) 16
    simp only [List.length_append] at hs
    rw [hs, eocd_read_cdOffset]
    congr 1
    omega
  have h10 : readU16E (createStoredZip dd dt files)
      ((localSection dd dt files).length +
        (centralSection dd dt 0 files).length + 10) =
      .ok files.length := by
    simp only [readU16E]
    rw [if_pos (by omega)]
    rw [hb]
    have hs := readU16_shift
      (localSection dd dt files ++ centralSection dd dt 0 files)
      (eocdRecord files.length (centralSection dd dt 0 files).length
        (localSection dd dt files).length) 10
    simp only [List.length_append] at hs
    rw [hs, eocd_read_count]
    congr 1
    omega
  have hwalk := zipWalk_stored dd dt inflate files hname hdata hlocal files
    [] [] (by simp)
  simp only [centralSection, List.length_nil, Nat.add_zero] at hwalk
  simp only [parseZipEntries, hfind, h16, h10]
  exact hwalk

/-! ### `decodeXmlEntities` (processFile.js lines 924-940)

`String.fromCodePoint` throws a `RangeError` above U+10FFFF, so the decoder
is `Option`-valued; surrogate code points come back as lone UTF-16 units,
larger scalars as surrogate pairs. -/

def hexDigit (c : Nat) : Bool :=
  isDigit c || (0x61 ≤ c && c ≤ 0x66) || (0x41 ≤ c && c ≤ 0x46)

def hexVal1 (c : Nat) : Nat :=
  if c ≤ 0x39 then c - 0x30 else if c ≤ 0x46 then c - 55 else c - 87

def hexValue (ds : JStr) : Nat := ds.foldl (fun a c => a * 16 + hexVal1 c) 0

def decValue (ds : JStr) : Nat := ds.foldl (fun a c => a * 10 + (c - 0x30)) 0

/-- `String.fromCodePoint`. -/
def jsFromCodePoint (cp : Nat) : Option JStr :=
  if cp < 0x10000 then some [cp]
  else if cp ≤ 0x10FFFF then
    some [0xD800 + (cp - 0x10000) / 1024, 0xDC00 + (cp - 0x10000) % 1024]
  else none

/-- `replace(/&#x([0-9a-fA-F]+);/g, …)`: left-to-right, advancing one unit
when the pattern fails at a position. -/
def replaceHexEnts : JStr → Option JStr
  | [] => some []
  | 38 :: 35 :: 120 :: rest2 =>
    let ds := rest2.takeWhile hexDigit
    match hdw : rest2.dropWhile hexDigit with
    | 59 :: tail =>
      if ds.isEmpty then (replaceHexEnts (35 :: 120 :: rest2)).map (38 :: ·)
      else
        match jsFromCodePoint (hexValue ds) with
        | some piece => (replaceHexEnts tail).map (piece ++ ·)
        | none => none
    | _ => (replaceHexEnts (35 :: 120 :: rest2)).map (38 :: ·)
  | c :: rest => (replaceHexEnts rest).map (c :: ·)
termination_by s => s.length
decreasing_by
  · simp_arith
  · have h1 := dropWhile_length_le hexDigit rest2
    rw [hdw] at h1
    simp only [List.length_cons] at h1 ⊢
    omega
  · simp_arith
  · simp

/-- `replace(/&#([0-9]+);/g, …)`. -/
def replaceDecEnts : JStr → Option JStr
  | [] => some []
  | 38 :: 35 :: rest2 =>
    let ds := rest2.takeWhile isDigit
    match hdw : rest2.dropWhile isDigit with
    | 59 :: tail =>
      if ds.isEmpty then (replaceDecEnts (35 :: rest2)).map (38 :: ·)
      else
        match jsFromCodePoint (decValue ds) with
        | some piece => (replaceDecEnts tail).map (piece ++ ·)
        | none => none
    | _ => (replaceDecEnts (35 :: rest2)).map (38 :: ·)
  | c :: rest => (replaceDecEnts rest).map (c :: ·)
termination_by s => s.length
decreasing_by
  · simp_arith
  · have h1 := dropWhile_length_le isDigit rest2
    rw [hdw] at h1
    simp only [List.length_cons] at h1 ⊢
    omega
  · simp_arith
  · simp

/-- Global literal replace `replace(/pat/g, rep)` for a nonempty pattern
`p :: ps` (left-to-right, non-overlapping). -/
def replaceSub (p : Nat) (ps : List Nat) (rep : JStr) : JStr → JStr
  | [] => []
  | c :: rest =>
    if (p :: ps).isPrefixOf (c :: rest) then
      rep ++ replaceSub p ps rep (rest.drop ps.length)
    else c :: replaceSub p ps rep rest
termination_by s => s.length
decreasing_by
  all_goals simp only [List.length_drop, List.length_cons]
  all_goals omega

/-- `decodeXmlEntities(input)`: numeric entities, then the five named ones
in source order (`&lt;`, `&gt;`, `&quot;`, `&apos;`, `&amp;`). -/
def decodeXmlEntities (s : JStr) : Option JStr :=
  match replaceHexEnts s with
  | none => none
  | some s1 =>
    match replaceDecEnts s1 with
    | none => none
    | some s2 =>
      some (replaceSub 38 (asc "amp;") [38]
        (replaceSub 38 (asc "apos;") [39]
          (replaceSub 38 (asc "quot;") [34]
            (replaceSub 38 (asc "gt;") [62]
              (replaceSub 38 (asc "lt;") [60] s2)))))

/-! ### `extractDocxText` (processFile.js lines 1018-1074) -/

/-- Index of the first occurrence of `pat` (regex literal search). -/
def findSub (pat : JStr) : JStr → Option Nat
  | [] => if pat.isEmpty then some 0 else none
  | c :: rest =>
    if pat.isPrefixOf (c :: rest) then some 0
    else (findSub pat rest).map (· + 1)

def hasSub (pat s : JStr) : Bool := (findSub pat s).isSome

theorem findSub_le (pat : JStr) :
    ∀ (s : JStr) (k : Nat), findSub pat s = some k →
      k + pat.length ≤ s.length := by
  intro s
  induction s with
  | nil =>
    intro k h
    simp only [findSub] at h
    by_cases hp : pat.isEmpty
    · rw [if_pos hp] at h
      cases h
      simp [List.isEmpty_iff.mp hp]
    · rw [if_neg hp] at h
      cases h
  | cons c rest ih =>
    intro k h
    simp only [findSub] at h
    by_cases hp : pat.isPrefixOf (c :: rest)
    · rw [if_pos hp] at h
      cases h
      have := (List.isPrefixOf_iff_prefix.mp hp).length_le
      simpa using this
    · rw [if_neg hp] at h
      simp only [Option.map_eq_some'] at h
      obtain ⟨k0, hk0, rfl⟩ := h
      have := ih k0 hk0
      simp only [List.length_cons]
      omega

/-- The paragraph scan `/<w:p[\s\S]*?<\/w:p>/g`: for each leftmost
`<w:p` with a later `</w:p>`, the lazy match runs to the first close. -/
def paraScan (s : JStr) : List JStr :=
  match hj : findSub (asc "<w:p") s with
  | none => []
  | some j =>
    match hk : findSub (asc "</w:p>") (s.drop (j + 4)) with
    | none => []
    | some k =>
      (s.drop j).take (4 + k + 6) :: paraScan (s.drop (j + 4 + k + 6))
termination_by s.length
decreasing_by
  have h1 := findSub_le (asc "<w:p") s j hj
  have h2 : (asc "<w:p").length = 4 := rfl
  rw [h2] at h1
  simp only [List.length_drop]
  omega

/-- `<w:tab[^>]*/>`-shaped single match at the start of `u` (also used for
`<w:br`, `<w:cr`, `<w:pBreak`): the first `>` after the prefix must be
preceded by `/`. Returns the match length. -/
def selfClose (pat : JStr) (u : JStr) : Option Nat :=
  if pat.isPrefixOf u then
    match findSub [62] (u.drop pat.length) with
    | some q =>
      if 1 ≤ q ∧ (u.drop pat.length).getD (q - 1) 0 = 47 then
        some (pat.length + q + 1)
      else none
    | none => none
  else none

theorem selfClose_pos (pat u : JStr) (n : Nat) (h : selfClose pat u = some n) :
    1 ≤ n := by
  simp only [selfClose] at h
  split at h
  · split at h
    · split at h
      · cases h; omega
      · cases h
    · cases h
  · cases h

/-- `(<w:tab[^>]*/>)+`: greedy run of at least one tab match. -/
def tabRun (u : JStr) : Option Nat :=
  match h : selfClose (asc "<w:tab") u with
  | none => none
  | some n =>
    match tabRun (u.drop n) with
    | none => some n
    | some m => some (n + m)
termination_by u.length
decreasing_by
  have h1 := selfClose_pos _ _ _ h
  have h2 : u ≠ [] := by
    intro he
    rw [he] at h
    simp [selfClose, asc, List.isPrefixOf] at h
  have h3 : 1 ≤ u.length := by
    cases u with
    | nil => exact absurd rfl h2
    | cons a l => simp
  simp only [List.length_drop]
  omega

theorem tabRun_pos (u : JStr) (n : Nat) (h : tabRun u = some n) : 1 ≤ n := by
  rw [tabRun] at h
  split at h
  · cases h
  · split at h
    · cases h
      exact selfClose_pos _ _ _ (by assumption)
    · cases h
      have := selfClose_pos _ _ _ (by assumption)
      omega

/-- `<w:t[^>]*>[\s\S]*?</w:t>` at the start of `u`. -/
def wtMatch (u : JStr) : Option Nat :=
  if (asc "<w:t").isPrefixOf u then
    match findSub [62] (u.drop 4) with
    | some q =>
      match findSub (asc "</w:t>") (u.drop (4 + q + 1)) with
      | some r => some (4 + q + 1 + r + 6)
      | none => none
    | none => none
  else none

theorem wtMatch_pos (u : JStr) (n : Nat) (h : wtMatch u = some n) : 1 ≤ n := by
  simp only [wtMatch] at h
  split at h
  · split at h
    · split at h
      · cases h; omega
      · cases h
    · cases h
  · cases h

/-- `<w:tbl>[\s\S]*?</w:tbl>` at the start of `u`. -/
def tblMatch (u : JStr) : Option Nat :=
  if (asc "<w:tbl>").isPrefixOf u then
    match findSub (asc "</w:tbl>") (u.drop 7) with
    | some r => some (7 + r + 8)
    | none => none
  else none

theorem tblMatch_pos (u : JStr) (n : Nat) (h : tblMatch u = some n) :
    1 ≤ n := by
  simp only [tblMatch] at h
  split at h
  · split at h
    · cases h; omega
    · cases h
  · cases h

/-- The tokeniser regex of `extractParagraphText`, with its alternatives
tried in source order at every position. -/
def tokenScan : JStr → List JStr
  | [] => []
  | c :: rest =>
    match h1 : wtMatch (c :: rest) with
    | some n => (c :: rest).take n :: tokenScan ((c :: rest).drop n)
    | none =>
      match h2 : tabRun (c :: rest) with
      | some n => (c :: rest).take n :: tokenScan ((c :: rest).drop n)
      | none =>
        match h3 : selfClose (asc "<w:br") (c :: rest) with
        | some n => (c :: rest).take n :: tokenScan ((c :: rest).drop n)
        | none =>
          match h4 : selfClose (asc "<w:cr") (c :: rest) with
          | some n => (c :: rest).take n :: tokenScan ((c :: rest).drop n)
          | none =>
            match h5 : selfClose (asc "<w:pBreak") (c :: rest) with
            | some n => (c :: rest).take n :: tokenScan ((c :: rest).drop n)
            | none =>
              match h6 : tblMatch (c :: rest) with
              | some n => (c :: rest).take n :: tokenScan ((c :: rest).drop n)
              | none => tokenScan rest
termination_by s => s.length
decreasing_by
  · have := wtMatch_pos _ _ h1
    simp only [List.length_drop, List.length_cons]
    omega
  · have := tabRun_pos _ _ h2
    simp only [List.length_drop, List.length_cons]
    omega
  · have := selfClose_pos _ _ _ h3
    simp only [List.length_drop, List.length_cons]
    omega
  · have := selfClose_pos _ _ _ h4
    simp only [List.length_drop, List.length_cons]
    omega
  · have := selfClose_pos _ _ _ h5
    simp only [List.length_drop, List.length_cons]
    omega
  · have := tblMatch_pos _ _ h6
    simp only [List.length_drop, List.length_cons]
    omega
  · simp

/-- `token.replace(/<w:t[^>]*>/, '')` (first occurrence only). -/
def removeFirstOpenTag (s : JStr) : JStr :=
  match findSub (asc "<w:t") s with
  | none => s
  | some p =>
    match findSub [62] (s.drop (p + 4)) with
    | none => s
    | some q => s.take p ++ s.drop (p + 4 + q + 1)

/-- `token.replace(/<\/w:t>/, '')` (first occurrence only). -/
def removeFirstCloseTag (s : JStr) : JStr :=
  match findSub (asc "</w:t>") s with
  | none => s
  | some p => s.take p ++ s.drop (p + 6)

/-- `(token.match(/<w:tab[^>]*\/>/g) || ['']).length`. -/
def countTabMatches : JStr → Nat
  | [] => 0
  | c :: rest =>
    match h : selfClose (asc "<w:tab") (c :: rest) with
    | some n => 1 + countTabMatches ((c :: rest).drop n)
    | none => countTabMatches rest
termination_by s => s.length
decreasing_by
  · have := selfClose_pos _ _ _ h
    simp only [List.length_drop, List.length_cons]
    omega
  · simp

/-- Global `replace(/pat[^>]*>/g, rep)` (for `<w:tr`, `<w:tc`). -/
def replacePrefixGtAll (pat rep : JStr) : JStr → JStr
  | [] => []
  | c :: rest =>
    if pat.isPrefixOf (c :: rest) then
      match findSub [62] ((c :: rest).drop pat.length) with
      | some q =>
        rep ++ replacePrefixGtAll pat rep ((c :: rest).drop (pat.length + q + 1))
      | none => c :: replacePrefixGtAll pat rep rest
    else c :: replacePrefixGtAll pat rep rest
termination_by s => s.length
decreasing_by
  all_goals simp only [List.length_drop, List.length_cons]
  all_goals omega

/-- `replace(/<[^>]+>/g, '')`. -/
def stripTags : JStr → JStr
  | [] => []
  | c :: rest =>
    if c = 60 then
      match findSub [62] rest with
      | some q =>
        if 1 ≤ q then stripTags (rest.drop (q + 1)) else c :: stripTags rest
      | none => c :: stripTags rest
    else c :: stripTags rest
termination_by s => s.length
decreasing_by
  all_goals simp only [List.length_drop, List.length_cons]
  all_goals omega

/-- The per-token `if`/`else if` chain from `extractParagraphText`. Note the
source tests `startsWith('<w:t')` first, so `<w:tab`/`<w:tbl` tokens also
take the text branch. -/
def processToken (token : JStr) : Option JStr :=
  if (asc "<w:t").isPrefixOf token then
    decodeXmlEntities (removeFirstCloseTag (removeFirstOpenTag token))
  else if (asc "<w:tab").isPrefixOf token then
    let n := countTabMatches token
    some (List.replicate (if n = 0 then 1 else n) 9)
  else if (asc "<w:tbl").isPrefixOf token then
    let cellText :=
      replaceSub 60 (asc "/w:tc>") [9]
        (replacePrefixGtAll (asc "<w:tc") [9]
          (replaceSub 60 (asc "/w:tr>") [10]
            (replacePrefixGtAll (asc "<w:tr") [10] token)))
    decodeXmlEntities (stripTags cellText)
  else some [10]

/-- `extractParagraphText(paragraphXml)`. -/
def extractParagraphText (paragraphXml : JStr) : Option JStr :=
  match (tokenScan paragraphXml).mapM processToken with
  | none => none
  | some pieces =>
    let combined := pieces.flatten
    let lines := ((splitOnNl combined).map
      (fun line => jsTrim (collapseTabSpace line))).filter (fun l => l ≠ [])
    some (List.intercalate [10] lines)

/-- ASCII case folding for the `/…/i` filename test. -/
def lowerAscii (c : Nat) : Nat := if 0x41 ≤ c ∧ c ≤ 0x5A then c + 32 else c

/-- `/document|header|footer|footnotes|endnotes/i.test(file)`. -/
def relevantNameTest (file : JStr) : Bool :=
  let lower := file.map lowerAscii
  hasSub (asc "document") lower || hasSub (asc "header") lower ||
    hasSub (asc "footer") lower || hasSub (asc "footnotes") lower ||
    hasSub (asc "endnotes") lower

/-- The `relevantFiles` filter predicate. -/
def relevantName (file : JStr) : Bool :=
  ((asc "word/").isPrefixOf file && (asc ".xml").isSuffixOf file) &&
    relevantNameTest file

/-- JS default `Array.prototype.sort` comparison on strings (UTF-16
lexicographic). -/
def lexLtB : JStr → JStr → Bool
  | [], [] => false
  | [], _ :: _ => true
  | _ :: _, [] => false
  | a :: as, b :: bs =>
    if a < b then true else if b < a then false else lexLtB as bs

def insertSorted (x : JStr) : List JStr → List JStr
  | [] => [x]
  | y :: rest =>
    if lexLtB y x then y :: insertSorted x rest else x :: y :: rest

def sortStrs (l : List JStr) : List JStr := l.foldr insertSorted []

/-- `extractDocxText(entries)`. -/
def extractDocxText (entries : List (JStr × Bytes)) : Option JStr :=
  let relevantFiles := sortStrs ((entries.map Prod.fst).filter relevantName)
  let paraList := (relevantFiles.map (fun file =>
    paraScan (utf8Decode ((mapGet entries file).getD [])))).flatten
  match paraList.mapM extractParagraphText with
  | none => none
  | some texts =>
    some (jsTrim (List.intercalate [10, 10]
      (texts.filter (fun t => t ≠ []))))

/-! ### `decodeXmlEntities` inverts `escapeXml` -/

theorem replaceHexEnts_pass (u : JStr) (hu : ∀ x ∈ u, x ≠ 38) :
    ∀ t, replaceHexEnts (u ++ t) = (replaceHexEnts t).map (u ++ ·) := by
  induction u with
  | nil =>
    intro t
    cases h : replaceHexEnts t <;> simp [h]
  | cons d u' ih =>
    intro t
    have hd : d ≠ 38 := hu d (by simp)
    have hu' : ∀ x ∈ u', x ≠ 38 := fun x hx => hu x (by simp [hx])
    rw [List.cons_append, replaceHexEnts]
    · rw [ih hu' t]
      cases h : replaceHexEnts t <;> simp [h]
    · intro r h1 _
      exact hd h1

theorem replaceDecEnts_pass (u : JStr) (hu : ∀ x ∈ u, x ≠ 38) :
    ∀ t, replaceDecEnts (u ++ t) = (replaceDecEnts t).map (u ++ ·) := by
  induction u with
  | nil =>
    intro t
    cases h : replaceDecEnts t <;> simp [h]
  | cons d u' ih =>
    intro t
    have hd : d ≠ 38 := hu d (by simp)
    have hu' : ∀ x ∈ u', x ≠ 38 := fun x hx => hu x (by simp [hx])
    rw [List.cons_append, replaceDecEnts]
    · rw [ih hu' t]
      cases h : replaceDecEnts t <;> simp [h]
    · intro r h1 _
      exact hd h1

theorem hexEnts_escape (l : JStr) :
    replaceHexEnts (l.flatMap escPiece) = some (l.flatMap escPiece) := by
  induction l with
  | nil =>
    simp only [List.flatMap_nil]
    rw [replaceHexEnts]
  | cons c rest ih =>
    rw [List.flatMap_cons]
    by_cases h38 : c = 38
    · subst h38
      show replaceHexEnts ((38 :: asc "amp;") ++ rest.flatMap escPiece) = _
      rw [List.cons_append, replaceHexEnts]
      · rw [replaceHexEnts_pass (asc "amp;") (by decide), ih]
        rfl
      · intro r _ h2
        simp [asc] at h2
    · by_cases h60 : c = 60
      · subst h60
        show replaceHexEnts ((38 :: asc "lt;") ++ rest.flatMap escPiece) = _
        rw [List.cons_append, replaceHexEnts]
        · rw [replaceHexEnts_pass (asc "lt;") (by decide), ih]
          rfl
        · intro r _ h2
          simp [asc] at h2
      · by_cases h62 : c = 62
        · subst h62
          show replaceHexEnts ((38 :: asc "gt;") ++ rest.flatMap escPiece) = _
          rw [List.cons_append, replaceHexEnts]
          · rw [replaceHexEnts_pass (asc "gt;") (by decide), ih]
            rfl
          · intro r _ h2
            simp [asc] at h2
        · by_cases h34 : c = 34
          · subst h34
            show replaceHexEnts ((38 :: asc "quot;") ++ rest.flatMap escPiece) = _
            rw [List.cons_append, replaceHexEnts]
            · rw [replaceHexEnts_pass (asc "quot;") (by decide), ih]
              rfl
            · intro r _ h2
              simp [asc] at h2
          · by_cases h39 : c = 39
            · subst h39
              show replaceHexEnts ((38 :: asc "apos;") ++ rest.flatMap escPiece) = _
              rw [List.cons_append, replaceHexEnts]
              · rw [replaceHexEnts_pass (asc "apos;") (by decide), ih]
                rfl
              · intro r _ h2
                simp [asc] at h2
            · have hpiece : escPiece c = [c] := by
                simp [escPiece, h38, h60, h62, h34, h39]
              rw [hpiece]
              have := replaceHexEnts_pass [c]
                (by intro x hx; simp at hx; omega) (rest.flatMap escPiece)
              rw [this, ih]
              rfl

theorem decEnts_escape (l : JStr) :
    replaceDecEnts (l.flatMap escPiece) = some (l.flatMap escPiece) := by
  induction l with
  | nil =>
    simp only [List.flatMap_nil]
    rw [replaceDecEnts]
  | cons c rest ih =>
    rw [List.flatMap_cons]
    by_cases h38 : c = 38
    · subst h38
      show replaceDecEnts ((38 :: asc "amp;") ++ rest.flatMap escPiece) = _
      rw [List.cons_append, replaceDecEnts]
      · rw [replaceDecEnts_pass (asc "amp;") (by decide), ih]
        rfl
      · intro r _ h2
        simp [asc] at h2
    · by_cases h60 : c = 60
      · subst h60
        show replaceDecEnts ((38 :: asc "lt;") ++ rest.flatMap escPiece) = _
        rw [List.cons_append, replaceDecEnts]
        · rw [replaceDecEnts_pass (asc "lt;") (by decide), ih]
          rfl
        · intro r _ h2
          simp [asc] at h2
      · by_cases h62 : c = 62
        · subst h62
          show replaceDecEnts ((38 :: asc "gt;") ++ rest.flatMap escPiece) = _
          rw [List.cons_append, replaceDecEnts]
          · rw [replaceDecEnts_pass (asc "gt;") (by decide), ih]
            rfl
          · intro r _ h2
            simp [asc] at h2
        · by_cases h34 : c = 34
          · subst h34
            show replaceDecEnts ((38 :: asc "quot;") ++ rest.flatMap escPiece) = _
            rw [List.cons_append, replaceDecEnts]
            · rw [replaceDecEnts_pass (asc "quot;") (by decide), ih]
              rfl
            · intro r _ h2
              simp [asc] at h2
          · by_cases h39 : c = 39
            · subst h39
              show replaceDecEnts ((38 :: asc "apos;") ++ rest.flatMap escPiece) = _
              rw [List.cons_append, replaceDecEnts]
              · rw [replaceDecEnts_pass (asc "apos;") (by decide), ih]
                rfl
              · intro r _ h2
                simp [asc] at h2
            · have hpiece : escPiece c = [c] := by
                simp [escPiece, h38, h60, h62, h34, h39]
              rw [hpiece]
              have := replaceDecEnts_pass [c]
                (by intro x hx; simp at hx; omega) (rest.flatMap escPiece)
              rw [this, ih]
              rfl

theorem not_prefix_append (pat x t : JStr)
    (h : if x.length < pat.length then ¬ x.isPrefixOf pat
      else ¬ pat.isPrefixOf x) :
    ¬ pat.isPrefixOf (x ++ t) := by
  intro hpre
  have hp := List.isPrefixOf_iff_prefix.mp hpre
  by_cases hlen : x.length < pat.length
  · rw [if_pos hlen] at h
    apply h
    apply List.isPrefixOf_iff_prefix.mpr
    have hx : x <+: x ++ t := List.prefix_append x t
    exact List.prefix_of_prefix_length_le hx hp (by omega)
  · rw [if_neg hlen] at h
    apply h
    apply List.isPrefixOf_iff_prefix.mpr
    have hx : x <+: x ++ t := List.prefix_append x t
    exact List.prefix_of_prefix_length_le hp hx (by omega)

theorem replaceSub_pass (p : Nat) (ps rep : JStr) (u : JStr)
    (hu : ∀ x ∈ u, x ≠ p) :
    ∀ t, replaceSub p ps rep (u ++ t) = u ++ replaceSub p ps rep t := by
  induction u with
  | nil => intro t; simp
  | cons d u' ih =>
    intro t
    have hd : d ≠ p := hu d (by simp)
    have hu' : ∀ x ∈ u', x ≠ p := fun x hx => hu x (by simp [hx])
    rw [List.cons_append, replaceSub]
    have hnp : ¬ (p :: ps).isPrefixOf (d :: (u' ++ t)) := by
      intro hpre
      have := List.isPrefixOf_iff_prefix.mp hpre
      obtain ⟨w, hw⟩ := this
      have : p = d := by
        have := congrArg (fun l => l.headI) hw
        simpa using this
      exact hd this.symm
    rw [if_neg hnp, ih hu']
    simp

theorem replaceSub_skip (p : Nat) (ps rep : JStr) (e : JStr)
    (hcond : if e.length < ps.length + 1 then ¬ e.isPrefixOf (p :: ps)
      else ¬ (p :: ps).isPrefixOf e)
    (htail : ∀ x ∈ e.tail, x ≠ p) :
    ∀ t, replaceSub p ps rep (e ++ t) = e ++ replaceSub p ps rep t := by
  cases e with
  | nil => intro t; simp
  | cons d e' =>
    intro t
    rw [List.cons_append, replaceSub]
    have hnp : ¬ (p :: ps).isPrefixOf (d :: e' ++ t) := by
      have := not_prefix_append (p :: ps) (d :: e') t (by simpa using hcond)
      simpa using this
    rw [if_neg (by simpa using hnp)]
    rw [replaceSub_pass p ps rep e' (by simpa using htail) t]
    simp

theorem replaceSub_hit (p : Nat) (ps rep : JStr) (t : JStr) :
    replaceSub p ps rep ((p :: ps) ++ t) = rep ++ replaceSub p ps rep t := by
  rw [List.cons_append, replaceSub]
  have hpre : (p :: ps).isPrefixOf (p :: (ps ++ t)) := by
    apply List.isPrefixOf_iff_prefix.mpr
    simpa using List.prefix_append (p :: ps) t
  rw [if_pos hpre]
  congr 1
  congr 1
  exact List.drop_left ps t

/-- Partially decoded piece maps: after each named-entity pass another
special character is restored. -/
def decPiece1 (c : Nat) : JStr := if c = 60 then [60] else escPiece c

def decPiece2 (c : Nat) : JStr :=
  if c = 60 then [60] else if c = 62 then [62] else escPiece c

def decPiece3 (c : Nat) : JStr :=
  if c = 60 then [60] else if c = 62 then [62] else if c = 34 then [34]
  else escPiece c

def decPiece4 (c : Nat) : JStr :=
  if c = 60 then [60] else if c = 62 then [62] else if c = 34 then [34]
  else if c = 39 then [39] else escPiece c

theorem ltStep (l : JStr) :
    replaceSub 38 (asc "lt;") [60] (l.flatMap escPiece) =
      l.flatMap decPiece1 := by
  induction l with
  | nil =>
    simp only [List.flatMap_nil]
    rw [replaceSub]
  | cons c rest ih =>
    rw [List.flatMap_cons, List.flatMap_cons]
    by_cases h60 : c = 60
    · subst h60
      show replaceSub 38 (asc "lt;") [60] ((38 :: asc "lt;") ++ _) = _
      rw [replaceSub_hit, ih]
      rfl
    · by_cases h38 : c = 38
      · subst h38
        rw [show escPiece 38 = 38 :: asc "amp;" from rfl]
        rw [replaceSub_skip 38 (asc "lt;") [60] (38 :: asc "amp;")
          (by decide) (by decide), ih]
        rw [show decPiece1 38 = 38 :: asc "amp;" from rfl]
      · by_cases h62 : c = 62
        · subst h62
          rw [show escPiece 62 = 38 :: asc "gt;" from rfl]
          rw [replaceSub_skip 38 (asc "lt;") [60] (38 :: asc "gt;")
            (by decide) (by decide), ih]
          rw [show decPiece1 62 = 38 :: asc "gt;" from rfl]
        · by_cases h34 : c = 34
          · subst h34
            rw [show escPiece 34 = 38 :: asc "quot;" from rfl]
            rw [replaceSub_skip 38 (asc "lt;") [60] (38 :: asc "quot;")
              (by decide) (by decide), ih]
            rw [show decPiece1 34 = 38 :: asc "quot;" from rfl]
          · by_cases h39 : c = 39
            · subst h39
              rw [show escPiece 39 = 38 :: asc "apos;" from rfl]
              rw [replaceSub_skip 38 (asc "lt;") [60] (38 :: asc "apos;")
                (by decide) (by decide), ih]
              rw [show decPiece1 39 = 38 :: asc "apos;" from rfl]
            · have hp : escPiece c = [c] := by
                simp [escPiece, h38, h60, h62, h34, h39]
              have hq : decPiece1 c = [c] := by
                simp [decPiece1, escPiece, h38, h60, h62, h34, h39]
              rw [hp, hq]
              rw [replaceSub_skip 38 (asc "lt;") [60] [c]
                (by simp [List.isPrefixOf, asc]; omega) (by simp), ih]


theorem gtStep (l : JStr) :
    replaceSub 38 (asc "gt;") [62] (l.flatMap decPiece1) =
      l.flatMap decPiece2 := by
  induction l with
  | nil =>
    simp only [List.flatMap_nil]
    rw [replaceSub]
  | cons c rest ih =>
    rw [List.flatMap_cons, List.flatMap_cons]
    by_cases h62 : c = 62
    · subst h62
      show replaceSub 38 (asc "gt;") [62] ((38 :: asc "gt;") ++ _) = _
      rw [replaceSub_hit, ih]
      rfl
    ·
      by_cases h60 : c = 60
      · subst h60
        rw [show decPiece1 60 = [60] from rfl]
        rw [replaceSub_skip 38 (asc "gt;") [62] ([60])
          (by decide) (by decide), ih]
        rw [show decPiece2 60 = [60] from rfl]
      ·
        by_cases h34 : c = 34
        · subst h34
          rw [show decPiece1 34 = 38 :: asc "quot;" from rfl]
          rw [replaceSub_skip 38 (asc "gt;") [62] (38 :: asc "quot;")
            (by decide) (by decide), ih]
          rw [show decPiece2 34 = 38 :: asc "quot;" from rfl]
        ·
          by_cases h39 : c = 39
          · subst h39
            rw [show decPiece1 39 = 38 :: asc "apos;" from rfl]
            rw [replaceSub_skip 38 (asc "gt;") [62] (38 :: asc "apos;")
              (by decide) (by decide), ih]
            rw [show decPiece2 39 = 38 :: asc "apos;" from rfl]
          ·
            by_cases h38 : c = 38
            · subst h38
              rw [show decPiece1 38 = 38 :: asc "amp;" from rfl]
              rw [replaceSub_skip 38 (asc "gt;") [62] (38 :: asc "amp;")
                (by decide) (by decide), ih]
              rw [show decPiece2 38 = 38 :: asc "amp;" from rfl]
            · have hp : decPiece1 c = [c] := by
                simp [decPiece1, escPiece, h38, h60, h62, h34, h39]
              have hq : decPiece2 c = [c] := by
                simp [decPiece2, escPiece, h38, h60, h62, h34, h39]
              rw [hp, hq]
              rw [replaceSub_skip 38 (asc "gt;") [62] [c]
                (by simp [List.isPrefixOf, asc]; omega) (by simp), ih]

theorem quotStep (l : JStr) :
    replaceSub 38 (asc "quot;") [34] (l.flatMap decPiece2) =
      l.flatMap decPiece3 := by
  induction l with
  | nil =>
    simp only [List.flatMap_nil]
    rw [replaceSub]
  | cons c rest ih =>
    rw [List.flatMap_cons, List.flatMap_cons]
    by_cases h34 : c = 34
    · subst h34
      show replaceSub 38 (asc "quot;") [34] ((38 :: asc "quot;") ++ _) = _
      rw [replaceSub_hit, ih]
      rfl
    ·
      by_cases h60 : c = 60
      · subst h60
        rw [show decPiece2 60 = [60] from rfl]
        rw [replaceSub_skip 38 (asc "quot;") [34] ([60])
          (by decide) (by decide), ih]
        rw [show decPiece3 60 = [60] from rfl]
      ·
        by_cases h62 : c = 62
        · subst h62
          rw [show decPiece2 62 = [62] from rfl]
          rw [replaceSub_skip 38 (asc "quot;") [34] ([62])
            (by decide) (by decide), ih]
          rw [show decPiece3 62 = [62] from rfl]
        ·
          by_cases h39 : c = 39
          · subst h39
            rw [show decPiece2 39 = 38 :: asc "apos;" from rfl]
            rw [replaceSub_skip 38 (asc "quot;") [34] (38 :: asc "apos;")
              (by decide) (by decide), ih]
            rw [show decPiece3 39 = 38 :: asc "apos;" from rfl]
          ·
            by_cases h38 : c = 38
            · subst h38
              rw [show decPiece2 38 = 38 :: asc "amp;" from rfl]
              rw [replaceSub_skip 38 (asc "quot;") [34] (38 :: asc "amp;")
                (by decide) (by decide), ih]
              rw [show decPiece3 38 = 38 :: asc "amp;" from rfl]
            · have hp : decPiece2 c = [c] := by
                simp [decPiece2, escPiece, h38, h60, h62, h34, h39]
              have hq : decPiece3 c = [c] := by
                simp [decPiece3, escPiece, h38, h60, h62, h34, h39]
              rw [hp, hq]
              rw [replaceSub_skip 38 (asc "quot;") [34] [c]
                (by simp [List.isPrefixOf, asc]; omega) (by simp), ih]

theorem aposStep (l : JStr) :
    replaceSub 38 (asc "apos;") [39] (l.flatMap decPiece3) =
      l.flatMap decPiece4 := by
  induction l with
  | nil =>
    simp only [List.flatMap_nil]
    rw [replaceSub]
  | cons c rest ih =>
    rw [List.flatMap_cons, List.flatMap_cons]
    by_cases h39 : c = 39
    · subst h39
      show replaceSub 38 (asc "apos;") [39] ((38 :: asc "apos;") ++ _) = _
      rw [replaceSub_hit, ih]
      rfl
    ·
      by_cases h60 : c = 60
      · subst h60
        rw [show decPiece3 60 = [60] from rfl]
        rw [replaceSub_skip 38 (asc "apos;") [39] ([60])
          (by decide) (by decide), ih]
        rw [show decPiece4 60 = [60] from rfl]
      ·
        by_cases h62 : c = 62
        · subst h62
          rw [show decPiece3 62 = [62] from rfl]
          rw [replaceSub_skip 38 (asc "apos;") [39] ([62])
            (by decide) (by decide), ih]
          rw [show decPiece4 62 = [62] from rfl]
        ·
          by_cases h34 : c = 34
          · subst h34
            rw [show decPiece3 34 = [34] from rfl]
            rw [replaceSub_skip 38 (asc "apos;") [39] ([34])
              (by decide) (by decide), ih]
            rw [show decPiece4 34 = [34] from rfl]
          ·
            by_cases h38 : c = 38
            · subst h38
              rw [show decPiece3 38 = 38 :: asc "amp;" from rfl]
              rw [replaceSub_skip 38 (asc "apos;") [39] (38 :: asc "amp;")
                (by decide) (by decide), ih]
              rw [show decPiece4 38 = 38 :: asc "amp;" from rfl]
            · have hp : decPiece3 c = [c] := by
                simp [decPiece3, escPiece, h38, h60, h62, h34, h39]
              have hq : decPiece4 c = [c] := by
                simp [decPiece4, escPiece, h38, h60, h62, h34, h39]
              rw [hp, hq]
              rw [replaceSub_skip 38 (asc "apos;") [39] [c]
                (by simp [List.isPrefixOf, asc]; omega) (by simp), ih]

/-- After all five named-entity passes every character is restored. -/
def decPiece5 (c : Nat) : JStr := [c]

theorem ampStep2 (l : JStr) :
    replaceSub 38 (asc "amp;") [38] (l.flatMap decPiece4) =
      l.flatMap decPiece5 := by
  induction l with
  | nil =>
    simp only [List.flatMap_nil]
    rw [replaceSub]
  | cons c rest ih =>
    rw [List.flatMap_cons, List.flatMap_cons]
    by_cases h38 : c = 38
    · subst h38
      show replaceSub 38 (asc "amp;") [38] ((38 :: asc "amp;") ++ _) = _
      rw [replaceSub_hit, ih]
      rfl
    ·
      by_cases h60 : c = 60
      · subst h60
        rw [show decPiece4 60 = [60] from rfl]
        rw [replaceSub_skip 38 (asc "amp;") [38] ([60])
          (by decide) (by decide), ih]
        rw [show decPiece5 60 = [60] from rfl]
      ·
        by_cases h62 : c = 62
        · subst h62
          rw [show decPiece4 62 = [62] from rfl]
          rw [replaceSub_skip 38 (asc "amp;") [38] ([62])
            (by decide) (by decide), ih]
          rw [show decPiece5 62 = [62] from rfl]
        ·
          by_cases h34 : c = 34
          · subst h34
            rw [show decPiece4 34 = [34] from rfl]
            rw [replaceSub_skip 38 (asc "amp;") [38] ([34])
              (by decide) (by decide), ih]
            rw [show decPiece5 34 = [34] from rfl]
          ·
            by_cases h39 : c = 39
            · subst h39
              rw [show decPiece4 39 = [39] from rfl]
              rw [replaceSub_skip 38 (asc "amp;") [38] ([39])
                (by decide) (by decide), ih]
              rw [show decPiece5 39 = [39] from rfl]
            · have hp : decPiece4 c = [c] := by
                simp [decPiece4, escPiece, h38, h60, h62, h34, h39]
              have hq : decPiece5 c = [c] := by
                simp [decPiece5, escPiece, h38, h60, h62, h34, h39]
              rw [hp, hq]
              rw [replaceSub_skip 38 (asc "amp;") [38] [c]
                (by simp [List.isPrefixOf, asc]; omega) (by simp), ih]

theorem flatMap_decPiece5 (l : JStr) : l.flatMap decPiece5 = l := by
  induction l with
  | nil => rfl
  | cons c rest ih => simp [decPiece5, ih]

/-- `decodeXmlEntities` is a left inverse of `escapeXml`. -/
theorem decode_escape (l : JStr) :
    decodeXmlEntities (escapeXml l) = some l := by
  rw [escapeXml_eq_flat]
  unfold decodeXmlEntities
  simp only [hexEnts_escape, decEnts_escape, ltStep, gtStep, quotStep,
    aposStep, ampStep2, flatMap_decPiece5]

/-! ### Salvaged-line well-formedness and `findSub` infrastructure -/

/-- Characters that the binary salvage scan can put into a line: printable
per the scan classes, and no whitespace other than a plain space. -/
def salvagedUnit (c : Nat) : Bool :=
  ((0x20 ≤ c && c ≤ 0xD7FF) || (0xE000 ≤ c && c ≤ 0xFFFD)) &&
    (c = 0x20 || !isJsWs c)

/-- No two adjacent spaces. -/
def noDoubleSpace : JStr → Bool
  | [] => true
  | [_] => true
  | a :: b :: rest => !(a = 32 && b = 32) && noDoubleSpace (b :: rest)

/-- The shape of a line produced by the salvage scan: non-empty, printable,
whitespace collapsed to single interior spaces, trimmed. -/
def SalvagedLine (l : JStr) : Prop :=
  l ≠ [] ∧ (∀ c ∈ l, salvagedUnit c = true) ∧ l.head? ≠ some 0x20 ∧
    l.getLast? ≠ some 0x20 ∧ noDoubleSpace l = true

instance (l : JStr) : Decidable (SalvagedLine l) := by
  unfold SalvagedLine
  infer_instance

theorem salvagedUnit_scalar (c : Nat) (h : salvagedUnit c = true) :
    scalarUnit c := by
  simp only [salvagedUnit, Bool.and_eq_true, Bool.or_eq_true,
    decide_eq_true_eq, Bool.not_eq_true'] at h
  constructor
  · omega
  · omega

theorem salvagedUnit_not_nl (c : Nat) (h : salvagedUnit c = true) :
    c ≠ 0xA ∧ c ≠ 0x9 := by
  simp only [salvagedUnit, Bool.and_eq_true, Bool.or_eq_true,
    decide_eq_true_eq, Bool.not_eq_true'] at h
  obtain ⟨h1, h2⟩ := h
  rcases h2 with h2 | h2
  · omega
  · simp only [isJsWs, Bool.or_eq_true, decide_eq_true_eq,
      Bool.and_eq_true] at h2
    constructor <;> (intro he; subst he; simp at h2)

theorem salvagedUnit_not_ws (c : Nat) (h : salvagedUnit c = true)
    (hs : c ≠ 0x20) : isJsWs c = false := by
  simp only [salvagedUnit, Bool.and_eq_true, Bool.or_eq_true,
    decide_eq_true_eq, Bool.not_eq_true'] at h
  obtain ⟨h1, h2⟩ := h
  rcases h2 with h2 | h2
  · exact absurd h2 hs
  · exact h2

/-- `splitOnNl` on a newline-free string is the identity split. -/
theorem splitOnNl_no_nl (s : JStr) (h : ∀ c ∈ s, c ≠ 0xA) :
    splitOnNl s = [s] := by
  induction s with
  | nil => rfl
  | cons c rest ih =>
    have hc : c ≠ 0xA := h c (by simp)
    have hrest : ∀ x ∈ rest, x ≠ 0xA := fun x hx => h x (by simp [hx])
    simp only [splitOnNl, if_neg hc, ih hrest]

/-- With no pending run, a head that is not tab or space is passed through
with the same recursion as the pending case. -/
theorem collapseTabSpaceGo_flag (l : JStr)
    (h : ∀ d, l.head? = some d → d ≠ 0x9 ∧ d ≠ 0x20) :
    collapseTabSpaceGo true l = collapseTabSpaceGo false l := by
  cases l with
  | nil => rfl
  | cons d r =>
    obtain ⟨h1, h2⟩ := h d rfl
    simp [collapseTabSpaceGo, h1, h2]

/-- `collapseTabSpace` is the identity on tab-free strings with no two
adjacent spaces. -/
theorem collapseTabSpace_id (l : JStr) (h9 : ∀ c ∈ l, c ≠ 0x9)
    (hd : noDoubleSpace l = true) : collapseTabSpace l = l := by
  unfold collapseTabSpace
  induction l with
  | nil => rfl
  | cons c rest ih =>
    have hc9 : c ≠ 0x9 := h9 c (by simp)
    have h9r : ∀ x ∈ rest, x ≠ 0x9 := fun x hx => h9 x (by simp [hx])
    have hdr : noDoubleSpace rest = true := by
      cases rest with
      | nil => rfl
      | cons d r2 =>
        simp only [noDoubleSpace, Bool.and_eq_true] at hd
        exact hd.2
    by_cases hc : c = 0x20
    · subst hc
      have hstep : collapseTabSpaceGo true rest = rest := by
        rw [collapseTabSpaceGo_flag]
        · exact ih h9r hdr
        · intro d hdhead
          cases rest with
          | nil => simp at hdhead
          | cons d0 r2 =>
            simp only [List.head?_cons, Option.some_inj] at hdhead
            subst hdhead
            refine ⟨h9r _ (by simp), ?_⟩
            simp only [noDoubleSpace, Bool.and_eq_true, Bool.not_eq_true',
              Bool.and_eq_false_iff, decide_eq_false_iff_not] at hd
            rcases hd.1 with h | h
            · simp at h
            · exact h
      simp [collapseTabSpaceGo, hstep]
    · simp [collapseTabSpaceGo, hc, hc9, ih h9r hdr]

/-- `dropWhile` is the identity when the head fails the predicate. -/
theorem dropWhile_head_id (p : Nat → Bool) (l : List Nat)
    (h : ∀ c, l.head? = some c → p c = false) : l.dropWhile p = l := by
  cases l with
  | nil => rfl
  | cons c r => simp [List.dropWhile_cons, h c rfl]

/-- `jsTrim` is the identity when neither end is JS whitespace. -/
theorem jsTrim_id (s : JStr) (hh : ∀ c, s.head? = some c → isJsWs c = false)
    (hl : ∀ c, s.getLast? = some c → isJsWs c = false) : jsTrim s = s := by
  unfold jsTrim
  rw [dropWhile_head_id _ _ hh]
  rw [dropWhile_head_id, List.reverse_reverse]
  intro c hc
  rw [List.head?_reverse] at hc
  exact hl c hc

/-! ### Locating patterns in concatenations -/

/-- A mismatch between `pat` and `x` at some position covered by both. -/
def mismatchWithin : JStr → JStr → Bool
  | [], _ => false
  | _, [] => false
  | p :: ps, c :: cs => decide (c ≠ p) || mismatchWithin ps cs

/-- Every suffix position of `x` exhibits a mismatch with `pat` inside `x`
itself, so no occurrence of `pat` can start inside `x` whatever follows. -/
def noStartIn (pat : JStr) : JStr → Bool
  | [] => true
  | c :: x => mismatchWithin pat (c :: x) && noStartIn pat x

theorem isPrefixOf_append_left (pat x t : JStr)
    (h : pat.isPrefixOf x = true) : pat.isPrefixOf (x ++ t) = true := by
  rw [List.isPrefixOf_iff_prefix] at h ⊢
  exact h.trans (List.prefix_append x t)

theorem not_isPrefixOf_of_mismatch (pat x : JStr)
    (h : mismatchWithin pat x = true) :
    ∀ t, pat.isPrefixOf (x ++ t) = false := by
  induction pat generalizing x with
  | nil => simp [mismatchWithin] at h
  | cons p ps ih =>
    cases x with
    | nil => simp [mismatchWithin] at h
    | cons c cs =>
      intro t
      simp only [mismatchWithin, Bool.or_eq_true, decide_eq_true_eq] at h
      rcases h with h | h
      · simp [List.cons_append, List.isPrefixOf, Ne.symm h]
      · simp [List.cons_append, List.isPrefixOf, ih cs h t]

theorem findSub_nil_pat (s : JStr) : findSub [] s = some 0 := by
  cases s with
  | nil => rfl
  | cons c r => simp [findSub, List.isPrefixOf]

theorem findSub_zero (pat s : JStr) (hne : s ≠ [])
    (h : pat.isPrefixOf s = true) : findSub pat s = some 0 := by
  cases s with
  | nil => exact absurd rfl hne
  | cons c r => simp [findSub, h]

theorem isPrefixOf_of_append_of_le (pat x t : JStr)
    (h : pat.isPrefixOf (x ++ t) = true) (hl : pat.length ≤ x.length) :
    pat.isPrefixOf x = true := by
  rw [List.isPrefixOf_iff_prefix] at h ⊢
  rw [List.prefix_iff_eq_take] at h ⊢
  nth_rewrite 1 [h]
  rw [List.take_append_of_le_length hl]

/-- An occurrence of `pat` found strictly inside a concrete prefix `K`
persists (at the same index) when anything is appended after `K`. -/
theorem findSub_concrete (pat K t : JStr) (j : Nat)
    (h1 : findSub pat K = some j) (h2 : j + pat.length ≤ K.length) :
    findSub pat (K ++ t) = some j := by
  induction K generalizing j with
  | nil =>
    simp only [findSub] at h1
    by_cases hp : pat.isEmpty
    · rw [if_pos hp] at h1
      cases h1
      rw [List.isEmpty_iff.mp hp, List.nil_append]
      exact findSub_nil_pat t
    · rw [if_neg hp] at h1
      cases h1
  | cons c K ih =>
    simp only [findSub] at h1
    by_cases hp : pat.isPrefixOf (c :: K)
    · rw [if_pos hp] at h1
      cases h1
      exact findSub_zero pat _ (by simp) (isPrefixOf_append_left _ _ _ hp)
    · rw [if_neg hp] at h1
      simp only [Option.map_eq_some'] at h1
      obtain ⟨j0, hj0, rfl⟩ := h1
      have hlen : pat.length ≤ K.length := by
        simp only [List.length_cons] at h2
        omega
      have hnp : pat.isPrefixOf (c :: (K ++ t)) = false := by
        by_contra hcon
        rw [Bool.not_eq_false] at hcon
        refine hp (isPrefixOf_of_append_of_le pat (c :: K) t ?_ ?_)
        · rw [List.cons_append]
          exact hcon
        · simp only [List.length_cons]
          omega
      rw [List.cons_append, findSub, if_neg (by rw [hnp]; simp),
        ih j0 hj0 (by simp only [List.length_cons] at h2; omega)]
      rfl

/-- Scanning a concatenation whose left part certifies `noStartIn` reduces
to scanning the right part, with indices shifted. -/
theorem findSub_shift_noStart (pat x t : JStr)
    (h : noStartIn pat x = true) :
    findSub pat (x ++ t) = (findSub pat t).map (· + x.length) := by
  induction x with
  | nil =>
    cases hf : findSub pat t <;> simp [hf]
  | cons c x ih =>
    simp only [noStartIn, Bool.and_eq_true] at h
    have hm := not_isPrefixOf_of_mismatch pat (c :: x) h.1 t
    rw [List.cons_append] at hm
    rw [List.cons_append, findSub, if_neg (by rw [hm]; simp), ih h.2]
    cases hf : findSub pat t <;> simp [hf]
    omega

theorem noStartIn_of_nohead (p : Nat) (ps x : JStr)
    (h : ∀ c ∈ x, c ≠ p) : noStartIn (p :: ps) x = true := by
  induction x with
  | nil => rfl
  | cons c x ih =>
    simp only [noStartIn, Bool.and_eq_true]
    refine ⟨?_, ih (fun d hd => h d (by simp [hd]))⟩
    simp [mismatchWithin, h c (by simp)]

/-- Scanning a concatenation whose left part lacks the head character of the
pattern reduces to scanning the right part. -/
theorem findSub_shift_nohead (p : Nat) (ps x t : JStr)
    (h : ∀ c ∈ x, c ≠ p) :
    findSub (p :: ps) (x ++ t) = (findSub (p :: ps) t).map (· + x.length) :=
  findSub_shift_noStart (p :: ps) x t (noStartIn_of_nohead p ps x h)

/-! ### Segment structure of the generated `word/document.xml` -/

theorem escPiece_no60 (c : Nat) : ∀ x ∈ escPiece c, x ≠ 60 := by
  intro x hx
  unfold escPiece at hx
  split_ifs at hx with h1 h2 h3 h4 h5
  · exact (by decide : ∀ x ∈ entAmp, x ≠ 60) x hx
  · exact (by decide : ∀ x ∈ entLt, x ≠ 60) x hx
  · exact (by decide : ∀ x ∈ entGt, x ≠ 60) x hx
  · exact (by decide : ∀ x ∈ entQuot, x ≠ 60) x hx
  · exact (by decide : ∀ x ∈ entApos, x ≠ 60) x hx
  · simp only [List.mem_singleton] at hx
    subst hx
    exact h2

theorem escapeXml_no60 (l : JStr) : ∀ x ∈ escapeXml l, x ≠ 60 := by
  rw [escapeXml_eq_flat]
  intro x hx
  rw [List.mem_flatMap] at hx
  obtain ⟨c, _, hxc⟩ := hx
  exact escPiece_no60 c x hxc

/-- The scaffolding before the paragraphs in `documentXml`. -/
def dxHead : JStr :=
  asc "<?xml version=\"1.0\" encoding=\"UTF-8\" standalone=\"yes\"?>\n<w:document xmlns:w=\"http://schemas.openxmlformats.org/wordprocessingml/2006/main\" xmlns:r=\"http://schemas.openxmlformats.org/officeDocument/2006/relationships\">\n  <w:body>"

/-- The scaffolding after the paragraphs in `documentXml`. -/
def dxFoot : JStr :=
  asc "<w:sectPr><w:pgSz w:w=\"12240\" w:h=\"15840\"/><w:pgMar w:top=\"1440\" w:right=\"1440\" w:bottom=\"1440\" w:left=\"1440\" w:header=\"720\" w:footer=\"720\" w:gutter=\"0\"/></w:sectPr></w:body>\n</w:document>"

/-- `<w:p><w:r>` -/
def paraPre : JStr := asc "<w:p><w:r>"

/-- `<w:t xml:space="preserve">` -/
def wtPre : JStr := asc "<w:t xml:space=\"preserve\">"

/-- `</w:r></w:p>` -/
def paraTrail : JStr := asc "</w:r></w:p>"

/-- The single `<w:t>` token inside a generated paragraph. -/
def wtToken (l : JStr) : JStr := wtPre ++ escapeXml l ++ asc "</w:t>"

theorem documentXml_parts (lines : List JStr) :
    documentXml lines =
      dxHead ++ (((docxParagraphs lines).map paraXml).flatten ++ dxFoot) := by
  simp [documentXml, dxHead, dxFoot, List.append_assoc]

theorem paraXml_parts (l : JStr) :
    paraXml l =
      paraPre ++ (wtPre ++ (escapeXml l ++ (asc "</w:t>" ++ paraTrail))) := by
  have h1 : asc "<w:p><w:r><w:t xml:space=\"preserve\">" = paraPre ++ wtPre := by
    decide
  have h2 : asc "</w:t></w:r></w:p>" = asc "</w:t>" ++ paraTrail := by decide
  rw [paraXml, h1, h2]
  simp [List.append_assoc]

theorem drop_append_le (n : Nat) (x y : List Nat) (h : n ≤ x.length) :
    (x ++ y).drop n = x.drop n ++ y := by
  rw [List.drop_append_eq_append_drop, Nat.sub_eq_zero_of_le h,
    List.drop_zero]

theorem drop_append_plus (x y : List Nat) (m : Nat) :
    (x ++ y).drop (x.length + m) = y.drop m := by
  rw [List.drop_append_eq_append_drop,
    List.drop_eq_nil_of_le (by omega), Nat.add_sub_cancel_left,
    List.nil_append]

/-! ### Positions where no tokeniser alternative can match -/

theorem wtMatch_nomatch (u : JStr)
    (h : (asc "<w:t").isPrefixOf u = false) : wtMatch u = none := by
  unfold wtMatch
  rw [if_neg (by rw [h]; simp)]

theorem selfClose_nomatch (pat u : JStr)
    (h : pat.isPrefixOf u = false) : selfClose pat u = none := by
  simp [selfClose, h]

theorem tabRun_nomatch (u : JStr)
    (h : (asc "<w:tab").isPrefixOf u = false) : tabRun u = none := by
  rw [tabRun]
  split
  · rfl
  · exfalso
    rw [selfClose_nomatch _ _ h] at *
    simp_all

theorem tblMatch_nomatch (u : JStr)
    (h : (asc "<w:tbl>").isPrefixOf u = false) : tblMatch u = none := by
  unfold tblMatch
  rw [if_neg (by rw [h]; simp)]

theorem tokenScan_skip (c : Nat) (rest : JStr)
    (hwt : wtMatch (c :: rest) = none) (htab : tabRun (c :: rest) = none)
    (hbr : selfClose (asc "<w:br") (c :: rest) = none)
    (hcr : selfClose (asc "<w:cr") (c :: rest) = none)
    (hpb : selfClose (asc "<w:pBreak") (c :: rest) = none)
    (htbl : tblMatch (c :: rest) = none) :
    tokenScan (c :: rest) = tokenScan rest := by
  rw [tokenScan]
  split
  · exfalso; simp_all
  · split
    · exfalso; simp_all
    · split
      · exfalso; simp_all
      · split
        · exfalso; simp_all
        · split
          · exfalso; simp_all
          · split
            · exfalso; simp_all
            · rfl

/-- Every position of `x` exhibits, inside `x`, a mismatch against each of
the six tokeniser alternatives; so the scan passes straight over `x`. -/
def noTokStartIn : JStr → Bool
  | [] => true
  | c :: x =>
    (mismatchWithin (asc "<w:t") (c :: x) &&
     mismatchWithin (asc "<w:tab") (c :: x) &&
     mismatchWithin (asc "<w:br") (c :: x) &&
     mismatchWithin (asc "<w:cr") (c :: x) &&
     mismatchWithin (asc "<w:pBreak") (c :: x) &&
     mismatchWithin (asc "<w:tbl>") (c :: x)) &&
    noTokStartIn x

theorem tokenScan_skip_block (x t : JStr) (hx : noTokStartIn x = true) :
    tokenScan (x ++ t) = tokenScan t := by
  induction x with
  | nil => rfl
  | cons c x ih =>
    simp only [noTokStartIn, Bool.and_eq_true] at hx
    obtain ⟨⟨⟨⟨⟨⟨h1, h2⟩, h3⟩, h4⟩, h5⟩, h6⟩, hrest⟩ := hx
    have e1 := not_isPrefixOf_of_mismatch _ _ h1 t
    have e2 := not_isPrefixOf_of_mismatch _ _ h2 t
    have e3 := not_isPrefixOf_of_mismatch _ _ h3 t
    have e4 := not_isPrefixOf_of_mismatch _ _ h4 t
    have e5 := not_isPrefixOf_of_mismatch _ _ h5 t
    have e6 := not_isPrefixOf_of_mismatch _ _ h6 t
    rw [List.cons_append] at e1 e2 e3 e4 e5 e6
    rw [List.cons_append,
      tokenScan_skip c (x ++ t) (wtMatch_nomatch _ e1)
        (tabRun_nomatch _ e2)
        (selfClose_nomatch _ _ e3)
        (selfClose_nomatch _ _ e4)
        (selfClose_nomatch _ _ e5)
        (tblMatch_nomatch _ e6),
      ih hrest]

theorem noTokStartIn_paraPre : noTokStartIn paraPre = true := by decide

theorem noTokStartIn_paraTrail : noTokStartIn paraTrail = true := by decide

/-! ### The tokeniser on a generated paragraph -/

theorem wtToken_trail (l : JStr) :
    wtToken l ++ paraTrail =
      wtPre ++ (escapeXml l ++ (asc "</w:t>" ++ paraTrail)) := by
  simp [wtToken, List.append_assoc]

theorem wtToken_length (l : JStr) :
    (wtToken l).length = 32 + (escapeXml l).length := by
  simp only [wtToken, List.length_append]
  have h1 : wtPre.length = 26 := by decide
  have h2 : (asc "</w:t>").length = 6 := by decide
  omega

theorem findSub_close_esc (l : JStr) (t : JStr) :
    findSub (asc "</w:t>") (escapeXml l ++ (asc "</w:t>" ++ t)) =
      some (escapeXml l).length := by
  have hsplit : asc "</w:t>" = 60 :: asc "/w:t>" := by decide
  rw [hsplit, findSub_shift_nohead 60 (asc "/w:t>") _ _ (escapeXml_no60 l)]
  rw [findSub_zero _ _ (by simp [hsplit]) (by
    rw [← hsplit]
    exact isPrefixOf_append_left _ _ _ (by decide))]
  simp

theorem wtMatch_wtToken (l : JStr) :
    wtMatch (wtToken l ++ paraTrail) = some (32 + (escapeXml l).length) := by
  rw [wtToken_trail]
  have hpre : (asc "<w:t").isPrefixOf
      (wtPre ++ (escapeXml l ++ (asc "</w:t>" ++ paraTrail))) = true :=
    isPrefixOf_append_left _ _ _ (by decide)
  have hdrop4 : (wtPre ++ (escapeXml l ++ (asc "</w:t>" ++ paraTrail))).drop 4 =
      wtPre.drop 4 ++ (escapeXml l ++ (asc "</w:t>" ++ paraTrail)) :=
    drop_append_le 4 _ _ (by decide)
  have hfq : findSub [62]
      (wtPre.drop 4 ++ (escapeXml l ++ (asc "</w:t>" ++ paraTrail))) =
      some 21 :=
    findSub_concrete _ _ _ 21 (by decide) (by decide)
  have hdrop26 : (wtPre ++ (escapeXml l ++ (asc "</w:t>" ++ paraTrail))).drop
      (4 + 21 + 1) = escapeXml l ++ (asc "</w:t>" ++ paraTrail) := by
    have h26 : (4 + 21 + 1) = wtPre.length := by decide
    rw [h26, List.drop_left]
  unfold wtMatch
  rw [if_pos (by rw [hpre]), hdrop4, hfq]
  simp only [hdrop26, findSub_close_esc]
  congr 1
  omega

theorem tokenScan_paraXml (l : JStr) : tokenScan (paraXml l) = [wtToken l] := by
  rw [paraXml_parts, tokenScan_skip_block paraPre _ noTokStartIn_paraPre,
    ← wtToken_trail]
  have hcons : wtToken l ++ paraTrail =
      60 :: (asc "w:t xml:space=\"preserve\">" ++
        (escapeXml l ++ (asc "</w:t>" ++ paraTrail))) := by
    rw [wtToken_trail]
    have : wtPre = 60 :: asc "w:t xml:space=\"preserve\">" := by decide
    rw [this, List.cons_append]
  have hm := wtMatch_wtToken l
  rw [hcons] at hm ⊢
  rw [tokenScan]
  split
  · next n heq =>
    rw [hm] at heq
    cases heq
    rw [← hcons]
    have htake : (wtToken l ++ paraTrail).take (32 + (escapeXml l).length) =
        wtToken l := by
      rw [← wtToken_length l, List.take_left]
    have hdrop : (wtToken l ++ paraTrail).drop (32 + (escapeXml l).length) =
        paraTrail := by
      rw [← wtToken_length l, List.drop_left]
    rw [htake, hdrop]
    have htrail : tokenScan paraTrail = ([] : List JStr) := by
      rw [← List.append_nil paraTrail,
        tokenScan_skip_block paraTrail [] noTokStartIn_paraTrail,
        tokenScan]
    rw [htrail]
  · next heq =>
    rw [hm] at heq
    cases heq

/-! ### `processToken` on the generated `<w:t>` token -/

theorem wtToken_parts (l : JStr) :
    wtToken l = wtPre ++ (escapeXml l ++ asc "</w:t>") := by
  simp [wtToken, List.append_assoc]

theorem wtToken_ne_nil (l : JStr) : wtToken l ≠ [] := by
  intro h
  have := wtToken_length l
  rw [h] at this
  simp at this
  omega

theorem wtPrefix_wtToken (l : JStr) :
    (asc "<w:t").isPrefixOf (wtToken l) = true := by
  rw [wtToken_parts]
  exact isPrefixOf_append_left _ _ _ (by decide)

theorem removeOpen_wtToken (l : JStr) :
    removeFirstOpenTag (wtToken l) = escapeXml l ++ asc "</w:t>" := by
  have h0 : findSub (asc "<w:t") (wtToken l) = some 0 :=
    findSub_zero _ _ (wtToken_ne_nil l) (wtPrefix_wtToken l)
  have hdrop4 : (wtToken l).drop (0 + 4) =
      wtPre.drop 4 ++ (escapeXml l ++ asc "</w:t>") := by
    rw [wtToken_parts, Nat.zero_add]
    exact drop_append_le 4 _ _ (by decide)
  have hfq : findSub [62]
      (wtPre.drop 4 ++ (escapeXml l ++ asc "</w:t>")) = some 21 :=
    findSub_concrete _ _ _ 21 (by decide) (by decide)
  have hdrop26 : (wtToken l).drop (0 + 4 + 21 + 1) =
      escapeXml l ++ asc "</w:t>" := by
    rw [wtToken_parts]
    have h26 : (0 + 4 + 21 + 1) = wtPre.length := by decide
    rw [h26, List.drop_left]
  unfold removeFirstOpenTag
  rw [h0]
  simp only [hdrop4, hfq, hdrop26, List.take_zero, List.nil_append]

theorem removeClose_esc (l : JStr) :
    removeFirstCloseTag (escapeXml l ++ asc "</w:t>") = escapeXml l := by
  have hf : findSub (asc "</w:t>") (escapeXml l ++ asc "</w:t>") =
      some (escapeXml l).length := by
    have h := findSub_close_esc l []
    rw [List.append_nil] at h
    exact h
  unfold removeFirstCloseTag
  rw [hf]
  simp only [List.take_left, drop_append_plus]
  have : (asc "</w:t>").drop 6 = [] := by decide
  rw [this, List.append_nil]

theorem processToken_wtToken (l : JStr) : processToken (wtToken l) = some l := by
  unfold processToken
  rw [if_pos (by rw [wtPrefix_wtToken]), removeOpen_wtToken, removeClose_esc,
    decode_escape]

/-! ### `extractParagraphText` on a generated paragraph -/

theorem salvaged_head_not_ws (l : JStr) (h : SalvagedLine l) :
    ∀ c, l.head? = some c → isJsWs c = false := by
  obtain ⟨_, hunit, hhead, _, _⟩ := h
  intro c hc
  have hmem : c ∈ l := List.mem_of_mem_head? (by rw [hc]; simp)
  refine salvagedUnit_not_ws c (hunit c hmem) ?_
  intro he
  subst he
  exact hhead hc

theorem salvaged_last_not_ws (l : JStr) (h : SalvagedLine l) :
    ∀ c, l.getLast? = some c → isJsWs c = false := by
  obtain ⟨_, hunit, _, hlast, _⟩ := h
  intro c hc
  have hrev : l.reverse.head? = some c := by rw [List.head?_reverse]; exact hc
  have hmem : c ∈ l := by
    rw [← List.mem_reverse]
    exact List.mem_of_mem_head? (by rw [hrev]; simp)
  refine salvagedUnit_not_ws c (hunit c hmem) ?_
  intro he
  subst he
  exact hlast hc

theorem extractParagraphText_salvaged (l : JStr) (h : SalvagedLine l) :
    extractParagraphText (paraXml l) = some l := by
  unfold extractParagraphText
  rw [tokenScan_paraXml]
  have hm : List.mapM processToken [wtToken l] = some [l] := by
    rw [List.mapM_cons, processToken_wtToken, List.mapM_nil]
    rfl
  obtain ⟨hne, hunit, hhead, hlast, hnds⟩ := h
  have h10 : ∀ c ∈ l, c ≠ 0xA := fun c hc =>
    (salvagedUnit_not_nl c (hunit c hc)).1
  have h9 : ∀ c ∈ l, c ≠ 0x9 := fun c hc =>
    (salvagedUnit_not_nl c (hunit c hc)).2
  simp only [hm, List.flatten_cons, List.flatten_nil, List.append_nil]
  rw [splitOnNl_no_nl l h10]
  simp only [List.map_cons, List.map_nil]
  rw [collapseTabSpace_id l h9 hnds,
    jsTrim_id l (salvaged_head_not_ws l ⟨hne, hunit, hhead, hlast, hnds⟩)
      (salvaged_last_not_ws l ⟨hne, hunit, hhead, hlast, hnds⟩)]
  simp [hne, List.intercalate]

/-! ### The paragraph scan on the generated document -/

theorem paraXml_length (l : JStr) :
    (paraXml l).length = 54 + (escapeXml l).length := by
  rw [paraXml_parts]
  simp only [List.length_append]
  have h1 : paraPre.length = 10 := by decide
  have h2 : wtPre.length = 26 := by decide
  have h3 : (asc "</w:t>").length = 6 := by decide
  have h4 : paraTrail.length = 12 := by decide
  omega

theorem paraScan_step (l R : JStr) :
    paraScan (paraXml l ++ R) = paraXml l :: paraScan R := by
  have hshape : paraXml l ++ R =
      paraPre ++ (wtPre ++ (escapeXml l ++
        (asc "</w:t>" ++ (paraTrail ++ R)))) := by
    rw [paraXml_parts]
    simp [List.append_assoc]
  have hne : paraXml l ++ R ≠ [] := by
    refine List.ne_nil_of_length_pos ?_
    rw [List.length_append, paraXml_length]
    omega
  have hopen : findSub (asc "<w:p") (paraXml l ++ R) = some 0 :=
    findSub_zero _ _ hne (by
      rw [hshape]
      exact isPrefixOf_append_left _ _ _ (by decide))
  have hdrop4 : (paraXml l ++ R).drop (0 + 4) =
      (paraPre.drop 4 ++ wtPre) ++ (escapeXml l ++
        ((asc "</w:t>" ++ paraTrail) ++ R)) := by
    rw [hshape, Nat.zero_add, drop_append_le 4 _ _ (by decide)]
    simp [List.append_assoc]
  have hinner : findSub (asc "</w:p>") ((asc "</w:t>" ++ paraTrail) ++ R) =
      some 12 :=
    findSub_concrete _ _ _ 12 (by decide) (by decide)
  have hsplitp : asc "</w:p>" = 60 :: asc "/w:p>" := by decide
  have hK1 : (paraPre.drop 4 ++ wtPre).length = 32 := by decide
  have hclose : findSub (asc "</w:p>") ((paraXml l ++ R).drop (0 + 4)) =
      some (12 + (escapeXml l).length + 32) := by
    rw [hdrop4, findSub_shift_noStart _ _ _ (by decide), hsplitp,
      findSub_shift_nohead 60 _ _ _ (escapeXml_no60 l), ← hsplitp, hinner,
      hK1]
    rfl
  rw [paraScan]
  split
  · next heq =>
    rw [hopen] at heq
    cases heq
  · next j heq =>
    rw [hopen] at heq
    injection heq with hj
    subst hj
    split
    · next heq2 =>
      rw [hclose] at heq2
      cases heq2
    · next k heq2 =>
      rw [hclose] at heq2
      injection heq2 with hk
      subst hk
      rw [List.drop_zero]
      have h54 : 4 + (12 + (escapeXml l).length + 32) + 6 =
          (paraXml l).length := by
        rw [paraXml_length]
        omega
      have h54b : 0 + 4 + (12 + (escapeXml l).length + 32) + 6 =
          (paraXml l).length := by
        rw [paraXml_length]
        omega
      rw [h54, List.take_left]
      rw [List.drop_left]

theorem paraScan_dxFoot : paraScan dxFoot = [] := by
  rw [paraScan]
  split
  · rfl
  · next j heq =>
    rw [(by decide : findSub (asc "<w:p") dxFoot = some 10)] at heq
    injection heq with hj
    subst hj
    split
    · rfl
    · next k heq2 =>
      rw [(by decide :
        findSub (asc "</w:p>") (dxFoot.drop (10 + 4)) = none)] at heq2
      cases heq2

theorem paraScan_paras (ls : List JStr) :
    paraScan ((ls.map paraXml).flatten ++ dxFoot) = ls.map paraXml := by
  induction ls with
  | nil => simpa using paraScan_dxFoot
  | cons l ls ih =>
    simp only [List.map_cons, List.flatten_cons, List.append_assoc]
    rw [paraScan_step, ih]

theorem paraScan_skip_pre (x t : JStr)
    (hx : noStartIn (asc "<w:p") x = true) :
    paraScan (x ++ t) = paraScan t := by
  have hL := findSub_shift_noStart (asc "<w:p") x t hx
  rw [paraScan]
  conv_rhs => rw [paraScan]
  split
  · next heq =>
    rw [heq] at hL
    have hf : findSub (asc "<w:p") t = none := by
      cases hfc : findSub (asc "<w:p") t with
      | none => rfl
      | some j =>
        rw [hfc] at hL
        simp at hL
    split
    · rfl
    · next j heq2 =>
      rw [hf] at heq2
      cases heq2
  · next J heq =>
    rw [heq] at hL
    cases hfc : findSub (asc "<w:p") t with
    | none =>
      rw [hfc] at hL
      simp at hL
    | some j =>
      rw [hfc] at hL
      simp only [Option.map_some'] at hL
      injection hL with hJ
      subst hJ
      have hdropEq : (x ++ t).drop (j + x.length + 4) = t.drop (j + 4) := by
        rw [show j + x.length + 4 = x.length + (j + 4) from by omega,
          drop_append_plus]
      rw [hdropEq]
      split
      · next heq3 =>
        split
        · rfl
        · next k heq4 =>
          rw [heq3] at heq4
          cases heq4
      · next k heq3 =>
        split
        · next heq4 =>
          rw [heq3] at heq4
          cases heq4
        · next k2 heq4 =>
          rw [heq3] at heq4
          injection heq4 with hk2
          subst hk2
          congr 1
          · rw [show j + x.length = x.length + j from by omega,
              drop_append_plus]
          · rw [show j + x.length + 4 + k + 6 =
              x.length + (j + 4 + k + 6) from by omega, drop_append_plus]

theorem paraScan_documentXml (lines : List JStr) (hne : lines ≠ []) :
    paraScan (documentXml lines) = lines.map paraXml := by
  rw [documentXml_parts]
  have hd : docxParagraphs lines = lines := by
    unfold docxParagraphs
    rw [if_pos (List.length_pos.mpr hne)]
  rw [hd, paraScan_skip_pre dxHead _ (by decide), paraScan_paras]

/-! ### Assembling the full round trip -/

/-- The entry map `parseZipEntries` produces for a generated DOCX. -/
def docxEntries (lines : List JStr) : List (JStr × Bytes) :=
  [(asc "[Content_Types].xml", utf8Encode contentTypesXml),
   (asc "_rels/.rels", utf8Encode packageRelsXml),
   (asc "word/document.xml", utf8Encode (documentXml lines)),
   (asc "word/styles.xml", utf8Encode stylesXml)]

theorem docxFiles_fold (lines : List JStr) :
    (docxFiles lines).foldl
      (fun a f => mapSet a (utf8Decode (utf8Encode f.name)) f.data) [] =
      docxEntries lines := rfl

instance (c : Nat) : Decidable (scalarUnit c) := by
  unfold scalarUnit
  infer_instance

theorem escapeXml_scalar (l : JStr) (h : ∀ c ∈ l, salvagedUnit c = true) :
    ∀ x ∈ escapeXml l, scalarUnit x := by
  rw [escapeXml_eq_flat]
  intro x hx
  rw [List.mem_flatMap] at hx
  obtain ⟨c, hc, hxc⟩ := hx
  unfold escPiece at hxc
  split_ifs at hxc with h1 h2 h3 h4 h5
  · exact (by decide : ∀ x ∈ entAmp, scalarUnit x) x hxc
  · exact (by decide : ∀ x ∈ entLt, scalarUnit x) x hxc
  · exact (by decide : ∀ x ∈ entGt, scalarUnit x) x hxc
  · exact (by decide : ∀ x ∈ entQuot, scalarUnit x) x hxc
  · exact (by decide : ∀ x ∈ entApos, scalarUnit x) x hxc
  · simp only [List.mem_singleton] at hxc
    subst hxc
    exact salvagedUnit_scalar _ (h _ hc)

theorem paraXml_scalar (l : JStr) (h : ∀ c ∈ l, salvagedUnit c = true) :
    ∀ x ∈ paraXml l, scalarUnit x := by
  rw [paraXml_parts]
  intro x hx
  simp only [List.mem_append] at hx
  rcases hx with hx | hx | hx | hx | hx
  · exact (by decide : ∀ x ∈ paraPre, scalarUnit x) x hx
  · exact (by decide : ∀ x ∈ wtPre, scalarUnit x) x hx
  · exact escapeXml_scalar l h x hx
  · exact (by decide : ∀ x ∈ asc "</w:t>", scalarUnit x) x hx
  · exact (by decide : ∀ x ∈ paraTrail, scalarUnit x) x hx

theorem documentXml_scalar (lines : List JStr) (hne : lines ≠ [])
    (h : ∀ l ∈ lines, ∀ c ∈ l, salvagedUnit c = true) :
    ∀ x ∈ documentXml lines, scalarUnit x := by
  rw [documentXml_parts]
  have hd : docxParagraphs lines = lines := by
    unfold docxParagraphs
    rw [if_pos (List.length_pos.mpr hne)]
  rw [hd]
  intro x hx
  simp only [List.mem_append] at hx
  rcases hx with hx | hx | hx
  · exact (by decide : ∀ x ∈ dxHead, scalarUnit x) x hx
  · rw [List.mem_flatten] at hx
    obtain ⟨para, hpara, hxp⟩ := hx
    rw [List.mem_map] at hpara
    obtain ⟨l, hl, rfl⟩ := hpara
    exact paraXml_scalar l (h l hl) x hxp
  · exact (by decide : ∀ x ∈ dxFoot, scalarUnit x) x hx

theorem mapM_extractPara (lines : List JStr)
    (h : ∀ l ∈ lines, SalvagedLine l) :
    (lines.map paraXml).mapM extractParagraphText = some lines := by
  induction lines with
  | nil => rfl
  | cons l ls ih =>
    rw [List.map_cons, List.mapM_cons,
      extractParagraphText_salvaged l (h l (by simp)),
      ih (fun x hx => h x (by simp [hx]))]
    rfl

theorem intercalate_cons2 (sep x y : List Nat) (ys : List (List Nat)) :
    List.intercalate sep (x :: y :: ys) =
      x ++ (sep ++ List.intercalate sep (y :: ys)) := by
  simp [List.intercalate, List.intersperse]

theorem intercalate_head (sep : List Nat) (l : JStr) (ls : List JStr)
    (hl : l ≠ []) :
    (List.intercalate sep (l :: ls)).head? = l.head? := by
  cases ls with
  | nil => simp [List.intercalate]
  | cons y ys =>
    rw [intercalate_cons2]
    cases l with
    | nil => exact absurd rfl hl
    | cons c cs => simp

theorem getLast_append_right (x y : List Nat) (hy : y ≠ []) :
    (x ++ y).getLast? = y.getLast? := by
  rw [← List.head?_reverse, List.reverse_append, ← List.head?_reverse]
  cases hr : y.reverse with
  | nil =>
    exact absurd (by simpa using congrArg List.reverse hr) hy
  | cons c cs => simp [hr]

theorem ne_nil_getLast (l : JStr) (h : l ≠ []) : ∃ c, l.getLast? = some c := by
  rw [← List.head?_reverse]
  cases hr : l.reverse with
  | nil => exact absurd (by simpa using congrArg List.reverse hr) h
  | cons c cs => exact ⟨c, rfl⟩

theorem intercalate_getLast (sep : List Nat) :
    ∀ (ls : List JStr) (l : JStr), l ≠ [] →
      (List.intercalate sep (ls ++ [l])).getLast? = l.getLast? := by
  intro ls
  induction ls with
  | nil =>
    intro l hl
    simp [List.intercalate]
  | cons x ls ih =>
    intro l hl
    rw [List.cons_append]
    cases hls : ls ++ [l] with
    | nil => exact absurd hls (by simp)
    | cons y ys =>
      rw [intercalate_cons2, ← hls]
      have hic : List.intercalate sep (ls ++ [l]) ≠ [] := by
        intro hbad
        obtain ⟨c, hc⟩ := ne_nil_getLast l hl
        rw [← ih l hl, hbad] at hc
        cases hc
      rw [getLast_append_right _ _ (by
        intro hbad
        rw [List.append_eq_nil] at hbad
        exact hic hbad.2)]
      rw [getLast_append_right _ _ hic]
      exact ih l hl

theorem jsTrim_intercalate (lines : List JStr) (hne : lines ≠ [])
    (hsal : ∀ l ∈ lines, SalvagedLine l) :
    jsTrim (List.intercalate [10, 10] lines) =
      List.intercalate [10, 10] lines := by
  apply jsTrim_id
  · intro c hc
    cases lines with
    | nil => exact absurd rfl hne
    | cons l0 rest =>
      rw [intercalate_head [10, 10] l0 rest
        (hsal l0 (by simp)).1] at hc
      exact salvaged_head_not_ws l0 (hsal l0 (by simp)) c hc
  · intro c hc
    rcases List.eq_nil_or_concat lines with h | ⟨L, b, rfl⟩
    · exact absurd h hne
    · rw [List.concat_eq_append] at hc
      rw [intercalate_getLast [10, 10] L b
        (hsal b (by simp)).1] at hc
      exact salvaged_last_not_ws b (hsal b (by simp)) c hc

theorem extractDocxText_docxEntries (lines : List JStr) (hne : lines ≠ [])
    (hsal : ∀ l ∈ lines, SalvagedLine l) :
    extractDocxText (docxEntries lines) =
      some (List.intercalate [10, 10] lines) := by
  have hrel : sortStrs (((docxEntries lines).map Prod.fst).filter
      relevantName) = [asc "word/document.xml"] := rfl
  have hget : mapGet (docxEntries lines) (asc "word/document.xml") =
      some (utf8Encode (documentXml lines)) := rfl
  have hsalU : ∀ l ∈ lines, ∀ c ∈ l, salvagedUnit c = true :=
    fun l hl => (hsal l hl).2.1
  have hrt : utf8Decode (utf8Encode (documentXml lines)) = documentXml lines :=
    utf8_roundtrip _ (documentXml_scalar lines hne hsalU)
  unfold extractDocxText
  rw [hrel]
  simp only [List.map_cons, List.map_nil, hget, Option.getD_some, hrt,
    paraScan_documentXml lines hne, List.flatten_cons, List.flatten_nil,
    List.append_nil, mapM_extractPara lines hsal]
  have hfil : lines.filter (fun t => decide (t ≠ [])) = lines := by
    rw [List.filter_eq_self]
    intro a ha
    simp [(hsal a ha).1]
  rw [hfil, jsTrim_intercalate lines hne hsal]

theorem localSection_length (dd dt : Nat) : ∀ fs : List ZFile,
    (localSection dd dt fs).length =
      (fs.map (fun f => 30 + (utf8Encode f.name).length + f.data.length)).sum := by
  intro fs
  induction fs with
  | nil => rfl
  | cons f fs ih =>
    simp only [localSection, List.length_append, localEntry_length, ih,
      List.map_cons, List.sum_cons]

/-- C1: Round-trip through the synthetic-DOCX writer and the Word
extractor: for every non-empty list of salvaged lines (non-empty strings of
printable units whose whitespace is already collapsed to single interior
spaces), building a DOCX buffer with `buildDocxBuffer`, parsing it back with
`parseZipEntries` and extracting with `extractDocxText` yields exactly those
lines in order (joined by the extractor's blank-line separator), for any
archive timestamp and any inflate callback, provided the document part and
the local section fit in the writer's 32-bit size fields. -/
theorem c1_docx_roundtrip (dd dt : Nat) (inflate : Bytes → Except Unit Bytes)
    (lines : List JStr) (hne : lines ≠ [])
    (hsal : ∀ l ∈ lines, SalvagedLine l)
    (hdoc : (utf8Encode (documentXml lines)).length < 4294967296)
    (hlocal : (localSection dd dt (docxFiles lines)).length < 4294967296) :
    parseZipEntries inflate (buildDocxBuffer dd dt lines) =
      .ok (docxEntries lines) ∧
    extractDocxText (docxEntries lines) =
      some (List.intercalate [10, 10] lines) := by
  constructor
  · rw [buildDocxBuffer,
      parseZip_createStoredZip dd dt inflate (docxFiles lines) ?hn ?hd
        hlocal ?hc,
      docxFiles_fold]
    case hn =>
      intro f hf
      simp only [docxFiles, List.mem_cons, List.not_mem_nil, or_false] at hf
      rcases hf with rfl | rfl | rfl | rfl
      · exact (by decide :
          (utf8Encode (asc "[Content_Types].xml")).length < 65536)
      · exact (by decide : (utf8Encode (asc "_rels/.rels")).length < 65536)
      · exact (by decide :
          (utf8Encode (asc "word/document.xml")).length < 65536)
      · exact (by decide : (utf8Encode (asc "word/styles.xml")).length < 65536)
    case hd =>
      intro f hf
      simp only [docxFiles, List.mem_cons, List.not_mem_nil, or_false] at hf
      rcases hf with rfl | rfl | rfl | rfl
      · exact (by decide : (utf8Encode contentTypesXml).length < 4294967296)
      · exact (by decide : (utf8Encode packageRelsXml).length < 4294967296)
      · exact hdoc
      · exact (by decide : (utf8Encode stylesXml).length < 4294967296)
    case hc => exact (by decide : (4 : Nat) < 65536)
  · exact extractDocxText_docxEntries lines hne hsal

theorem c1_docx_roundtrip_witness :
    (∀ l ∈ [asc "Hello", asc "world 123"], SalvagedLine l) ∧
    (parseZipEntries (fun _ => .error ())
        (buildDocxBuffer 0 0 [asc "Hello", asc "world 123"]) =
      .ok (docxEntries [asc "Hello", asc "world 123"]) ∧
    extractDocxText (docxEntries [asc "Hello", asc "world 123"]) =
      some (List.intercalate [10, 10] [asc "Hello", asc "world 123"])) :=
  ⟨by decide,
   c1_docx_roundtrip 0 0 (fun _ => .error ()) [asc "Hello", asc "world 123"]
     (by decide) (by decide) (by decide)
     (by rw [localSection_length]; decide)⟩

/-! ### Error classification for `parseZipEntries` -/

theorem readU32E_error (b : Bytes) (i : Nat) (e : ZipErr)
    (h : readU32E b i = .error e) : e = .rangeError := by
  unfold readU32E at h
  split at h
  · cases h
  · cases h
    rfl

theorem readU16E_error (b : Bytes) (i : Nat) (e : ZipErr)
    (h : readU16E b i = .error e) : e = .rangeError := by
  unfold readU16E at h
  split at h
  · cases h
  · cases h
    rfl

theorem zipWalk_errors (inflate : Bytes → Except Unit Bytes) (b : Bytes) :
    ∀ (n offset : Nat) (acc : List (JStr × Bytes)) (e : ZipErr),
      zipWalk inflate b n offset acc = .error e →
        e ≠ .malformedArchive ∧
        (∀ m, e = .unsupportedCompression m → m ≠ 0 ∧ m ≠ 8) := by
  intro n
  induction n with
  | zero =>
    intro off acc e h
    rw [zipWalk] at h
    cases h
  | succ n ih =>
    intro off acc e h
    rw [zipWalk] at h
    cases h1 : readU32E b off with
    | error e1 =>
      rw [h1] at h
      simp only [] at h
      cases h
      have he := readU32E_error _ _ _ h1
      subst he
      exact ⟨by simp, by intro m hm; cases hm⟩
    | ok sig =>
      rw [h1] at h
      simp only [] at h
      split at h
      · cases h
      · cases h2 : readU16E b (off + 10) with
        | error e2 =>
          rw [h2] at h
          simp only [] at h
          cases h
          have he := readU16E_error _ _ _ h2
          subst he
          exact ⟨by simp, by intro m hm; cases hm⟩
        | ok cm =>
          rw [h2] at h
          simp only [] at h
          cases h3 : readU32E b (off + 20) with
          | error e3 =>
            rw [h3] at h
            simp only [] at h
            cases h
            have he := readU32E_error _ _ _ h3
            subst he
            exact ⟨by simp, by intro m hm; cases hm⟩
          | ok cs =>
            rw [h3] at h
            simp only [] at h
            cases h4 : readU16E b (off + 28) with
            | error e4 =>
              rw [h4] at h
              simp only [] at h
              cases h
              have he := readU16E_error _ _ _ h4
              subst he
              exact ⟨by simp, by intro m hm; cases hm⟩
            | ok fn =>
              rw [h4] at h
              simp only [] at h
              cases h5 : readU16E b (off + 30) with
              | error e5 =>
                rw [h5] at h
                simp only [] at h
                cases h
                have he := readU16E_error _ _ _ h5
                subst he
                exact ⟨by simp, by intro m hm; cases hm⟩
              | ok ef =>
                rw [h5] at h
                simp only [] at h
                cases h6 : readU16E b (off + 32) with
                | error e6 =>
                  rw [h6] at h
                  simp only [] at h
                  cases h
                  have he := readU16E_error _ _ _ h6
                  subst he
                  exact ⟨by simp, by intro m hm; cases hm⟩
                | ok cl =>
                  rw [h6] at h
                  simp only [] at h
                  cases h7 : readU32E b (off + 42) with
                  | error e7 =>
                    rw [h7] at h
                    simp only [] at h
                    cases h
                    have he := readU32E_error _ _ _ h7
                    subst he
                    exact ⟨by simp, by intro m hm; cases hm⟩
                  | ok lo =>
                    rw [h7] at h
                    simp only [] at h
                    cases h8 : readU32E b lo with
                    | error e8 =>
                      rw [h8] at h
                      simp only [] at h
                      cases h
                      have he := readU32E_error _ _ _ h8
                      subst he
                      exact ⟨by simp, by intro m hm; cases hm⟩
                    | ok ls =>
                      rw [h8] at h
                      simp only [] at h
                      split at h
                      · exact ih _ _ _ h
                      · cases h9 : readU16E b (lo + 26) with
                        | error e9 =>
                          rw [h9] at h
                          simp only [] at h
                          cases h
                          have he := readU16E_error _ _ _ h9
                          subst he
                          exact ⟨by simp, by intro m hm; cases hm⟩
                        | ok lfn =>
                          rw [h9] at h
                          simp only [] at h
                          cases h10 : readU16E b (lo + 28) with
                          | error e10 =>
                            rw [h10] at h
                            simp only [] at h
                            cases h
                            have he := readU16E_error _ _ _ h10
                            subst he
                            exact ⟨by simp, by intro m hm; cases hm⟩
                          | ok lef =>
                            rw [h10] at h
                            simp only [] at h
                            split at h
                            · exact ih _ _ _ h
                            · split at h
                              · cases h11 : inflate (sliceB b
                                  (lo + 30 + lfn + lef)
                                  (lo + 30 + lfn + lef + cs)) with
                                | ok d =>
                                  rw [h11] at h
                                  simp only [] at h
                                  exact ih _ _ _ h
                                | error u =>
                                  rw [h11] at h
                                  simp only [] at h
                                  cases h
                                  exact ⟨by simp, by intro m hm; cases hm⟩
                              · next hc0 hc8 =>
                                cases h
                                refine ⟨by simp, ?_⟩
                                intro m hm
                                cases hm
                                exact ⟨hc0, hc8⟩

/-- A handwritten central-directory record declaring compression method 5
for a one-byte-named entry whose local header sits at offset 0. -/
def c2unsupCentral : Bytes :=
  writeU32 centralSig ++ writeU16 0x0314 ++ writeU16 20 ++ writeU16 0 ++
    writeU16 5 ++ writeU16 0 ++ writeU16 0 ++ writeU32 0 ++ writeU32 0 ++
    writeU32 0 ++ writeU16 1 ++ writeU16 0 ++ writeU16 0 ++ writeU16 0 ++
    writeU16 0 ++ writeU32 0 ++ writeU32 0 ++ [97]

/-- A ZIP whose single entry has a valid local header but declares
compression method 5. -/
def c2unsupBuf : Bytes :=
  localEntry 0 0 ⟨[97], []⟩ ++ c2unsupCentral ++ eocdRecord 1 47 31

/-- C2 (corrected): the reader's failure contract. `MalformedArchive` is
raised exactly when no EOCD signature is found, and an
`UnsupportedCompression m` failure implies `m` is neither Store (0) nor
Deflate (8); but contrary to the claim, a located EOCD does not guarantee a
mapping is returned: out-of-range header reads raise Node's range error and
Deflate failures raise an inflate error. -/
theorem c2_error_contract (inflate : Bytes → Except Unit Bytes) (b : Bytes) :
    (parseZipEntries inflate b = .error .malformedArchive ↔
      eocdFind b = none) ∧
    (∀ m, parseZipEntries inflate b = .error (.unsupportedCompression m) →
      m ≠ 0 ∧ m ≠ 8) := by
  unfold parseZipEntries
  cases hf : eocdFind b with
  | none =>
    constructor
    · simp
    · intro m hm
      cases hm
  | some off =>
    simp only []
    constructor
    · constructor
      · intro h
        exfalso
        cases hA : readU32E b (off + 16) with
        | error eA =>
          rw [hA] at h
          simp only [] at h
          injection h with h2
          rw [h2] at hA
          have := readU32E_error _ _ _ hA
          cases this
        | ok cdo =>
          rw [hA] at h
          simp only [] at h
          cases hB : readU16E b (off + 10) with
          | error eB =>
            rw [hB] at h
            simp only [] at h
            injection h with h2
            rw [h2] at hB
            have := readU16E_error _ _ _ hB
            cases this
          | ok te =>
            rw [hB] at h
            simp only [] at h
            exact (zipWalk_errors inflate b te cdo [] _ h).1 rfl
      · intro h
        cases h
    · intro m h
      cases hA : readU32E b (off + 16) with
      | error eA =>
        rw [hA] at h
        simp only [] at h
        injection h with h2
        rw [h2] at hA
        have := readU32E_error _ _ _ hA
        cases this
      | ok cdo =>
        rw [hA] at h
        simp only [] at h
        cases hB : readU16E b (off + 10) with
        | error eB =>
          rw [hB] at h
          simp only [] at h
          injection h with h2
          rw [h2] at hB
          have := readU16E_error _ _ _ hB
          cases this
        | ok te =>
          rw [hB] at h
          simp only [] at h
          exact (zipWalk_errors inflate b te cdo [] _ h).2 m rfl

/-- C2, counterexample to the claimed contract: this buffer has a locatable
EOCD record (at offset 0) and declares no compression method at all, yet
the reader fails — with a range error, not one of the claim's two errors —
because the recorded central-directory offset lies beyond the buffer. -/
theorem c2_counterexample :
    eocdFind (eocdRecord 1 0 100) = some 0 ∧
    parseZipEntries (fun _ => .error ()) (eocdRecord 1 0 100) =
      .error .rangeError := by decide

theorem c2_error_contract_witness :
    parseZipEntries (fun _ => .error ()) c2unsupBuf =
      .error (.unsupportedCompression 5) ∧ ((5 : Nat) ≠ 0 ∧ (5 : Nat) ≠ 8) :=
  ⟨by decide,
   (c2_error_contract (fun _ => .error ()) c2unsupBuf).2 5 (by decide)⟩

/-- A ZIP whose single central record points at local offset 500 — beyond
the end of the 69-byte buffer. -/
def c3badBuf : Bytes :=
  centralEntry 0 0 ⟨[97], []⟩ 500 ++ eocdRecord 1 47 0

/-- A ZIP whose single central record points at local offset 0, where the
bytes hold the central (not local) signature. -/
def c3skipBuf : Bytes :=
  centralEntry 0 0 ⟨[97], []⟩ 0 ++ eocdRecord 1 47 0

/-- C3 (corrected): an entry whose recorded local-header offset is readable
but does not hold the local-header signature is silently skipped — the walk
moves to the next central record with the accumulated mapping unchanged. -/
theorem c3_skip_bad_local_sig (inflate : Bytes → Except Unit Bytes)
    (b : Bytes) (n offset : Nat) (acc : List (JStr × Bytes))
    (cm cs fn ef cl lo s : Nat)
    (h1 : readU32E b offset = .ok centralSig)
    (h2 : readU16E b (offset + 10) = .ok cm)
    (h3 : readU32E b (offset + 20) = .ok cs)
    (h4 : readU16E b (offset + 28) = .ok fn)
    (h5 : readU16E b (offset + 30) = .ok ef)
    (h6 : readU16E b (offset + 32) = .ok cl)
    (h7 : readU32E b (offset + 42) = .ok lo)
    (h8 : readU32E b lo = .ok s) (hs : s ≠ localSig) :
    zipWalk inflate b (n + 1) offset acc =
      zipWalk inflate b n (offset + 46 + fn + ef + cl) acc := by
  rw [zipWalk]
  simp only [h1, h2, h3, h4, h5, h6, h7, h8]
  rw [if_neg (by simp), if_pos hs]

/-- C3, counterexample to "never cause the reader to fail": a central
record whose local-header offset lies outside the buffer makes the reader
fail with a range error instead of skipping the entry. -/
theorem c3_counterexample :
    eocdFind c3badBuf = some 47 ∧
    parseZipEntries (fun _ => .error ()) c3badBuf = .error .rangeError := by
  decide

theorem c3_skip_bad_local_sig_witness :
    (zipWalk (fun _ => .error ()) c3skipBuf 1 0 [] =
      zipWalk (fun _ => .error ()) c3skipBuf 0 (0 + 46 + 1 + 0 + 0) []) ∧
    parseZipEntries (fun _ => .error ()) c3skipBuf = .ok [] :=
  ⟨c3_skip_bad_local_sig (fun _ => .error ()) c3skipBuf 0 0 [] 0 0 1 0 0 0
      centralSig (by decide) (by decide) (by decide) (by decide) (by decide)
      (by decide) (by decide) (by decide) (by decide),
   by decide⟩

/-! ### `extractBinaryLines` (binaryOfficeConversion.js lines 139-178) -/

/-- `MIN_LINE_LENGTH` from binaryOfficeConversion.js line 13. -/
def MIN_LINE_LENGTH : Nat := 3

/-- `[\x20-\x7E\s]` — the latin1 printable-run class. -/
def latin1Class (c : Nat) : Bool :=
  (0x20 ≤ c && c ≤ 0x7E) || isJsWs c

/-- `[\u0020-\uD7FF\uE000-\uFFFD\s]` — the Unicode printable-run class. -/
def uniClass (c : Nat) : Bool :=
  (0x20 ≤ c && c ≤ 0xD7FF) || (0xE000 ≤ c && c ≤ 0xFFFD) || isJsWs c

/-- Maximal runs of class members (`cur` holds the current run reversed). -/
def runsGo (p : Nat → Bool) (cur : JStr) : JStr → List JStr
  | [] => if cur = [] then [] else [cur.reverse]
  | c :: rest =>
    if p c then runsGo p (c :: cur) rest
    else if cur = [] then runsGo p [] rest
    else cur.reverse :: runsGo p [] rest

/-- `text.match(/[class]{4,}/g) || []`: maximal class runs of length ≥ 4. -/
def matchRuns (p : Nat → Bool) (text : JStr) : List JStr :=
  (runsGo p [] text).filter (fun m => 4 ≤ m.length)

/-- `collectSegments(text, matchRegex, stripRegex)`: the strip regex is the
complement class, replaced by a space per character. -/
def collectSegments (p : Nat → Bool) (text : JStr) : List JStr :=
  (matchRuns p text).flatMap (fun m =>
    ((splitOnNl (normCrLf (m.map (fun c => if p c then c else 32)))).map
      (fun line => jsTrim (collapseWs line))).filter (fun l => l ≠ []))

/-- `buffer.toString('latin1')`: one code unit per byte. -/
def latin1Decode (b : Bytes) : JStr := b

/-- `buffer.toString('utf16le')`: little-endian pairs, odd tail dropped. -/
def utf16leDecode : Bytes → JStr
  | b0 :: b1 :: rest => (b0 + 256 * b1) :: utf16leDecode rest
  | _ => []

/-- The `pushLines` closure: skip empty/short/seen candidates, append the
rest (the `seen` set always equals the pushed list). -/
def pushLines (acc : List JStr) : List JStr → List JStr
  | [] => acc
  | c :: rest =>
    if c = [] ∨ c.length < MIN_LINE_LENGTH then pushLines acc rest
    else if c ∈ acc then pushLines acc rest
    else pushLines (acc ++ [c]) rest

/-- `extractBinaryLines(buffer)`: three decodings, pushed in order. -/
def extractBinaryLines (buffer : Bytes) : List JStr :=
  let l1 := pushLines [] (collectSegments latin1Class (latin1Decode buffer))
  let l2 := pushLines l1 (collectSegments uniClass (utf16leDecode buffer))
  pushLines l2 (collectSegments uniClass (utf8Decode buffer))

theorem pushLines_min : ∀ (cs acc : List JStr),
    (∀ x ∈ acc, MIN_LINE_LENGTH ≤ x.length) →
    ∀ l ∈ pushLines acc cs, MIN_LINE_LENGTH ≤ l.length := by
  intro cs
  induction cs with
  | nil =>
    intro acc hacc l hl
    exact hacc l hl
  | cons c rest ih =>
    intro acc hacc l hl
    by_cases h1 : c = [] ∨ c.length < MIN_LINE_LENGTH
    · rw [pushLines, if_pos h1] at hl
      exact ih acc hacc l hl
    · by_cases h2 : c ∈ acc
      · rw [pushLines, if_neg h1, if_pos h2] at hl
        exact ih acc hacc l hl
      · rw [pushLines, if_neg h1, if_neg h2] at hl
        refine ih (acc ++ [c]) ?_ l hl
        intro x hx
        rcases List.mem_append.mp hx with hx | hx
        · exact hacc x hx
        · simp only [List.mem_singleton] at hx
          subst hx
          have := (not_or.mp h1).2
          omega

/-- C4 (corrected): every line produced by the binary salvage scan has at
least `MIN_LINE_LENGTH` = 3 characters — not 4 as claimed: the `{4,}` run
quantifier applies to raw runs before they are split and trimmed, while the
per-line guard only enforces `MIN_LINE_LENGTH`. -/
theorem c4_min_line_length (buffer : Bytes) :
    ∀ l ∈ extractBinaryLines buffer, MIN_LINE_LENGTH ≤ l.length := by
  intro l hl
  unfold extractBinaryLines at hl
  refine pushLines_min _ _ (pushLines_min _ _ (pushLines_min _ _ ?_)) l hl
  intro x hx
  cases hx

/-- C4, counterexample to "at least 4 printable characters": the buffer
`"abc\nabc\n"` salvages the three-character line `"abc"`. -/
theorem c4_counterexample :
    [97, 98, 99] ∈ extractBinaryLines [97, 98, 99, 10, 97, 98, 99, 10] ∧
    ([97, 98, 99] : JStr).length < 4 := by decide

theorem c4_min_line_length_witness :
    [97, 98, 99] ∈ extractBinaryLines [97, 98, 99, 10, 97, 98, 99, 10] ∧
    MIN_LINE_LENGTH ≤ ([97, 98, 99] : JStr).length :=
  ⟨by decide,
   c4_min_line_length [97, 98, 99, 10, 97, 98, 99, 10] [97, 98, 99]
     (by decide)⟩

/-! ### `convertBinaryOfficeToDocx` (binaryOfficeConversion.js lines 438-519) -/

/-- `BINARY_OFFICE_KINDS[ext]`. -/
def binaryOfficeKind (ext : JStr) : Option JStr :=
  if ext = asc ".doc" ∨ ext = asc ".dot" then some (asc "word")
  else if ext = asc ".ppt" ∨ ext = asc ".pps" ∨ ext = asc ".pot" then
    some (asc "presentation")
  else if ext = asc ".xls" ∨ ext = asc ".xlt" then some (asc "spreadsheet")
  else none

/-- The environment of one `convertBinaryOfficeToDocx` call: the extension,
the base name of the source file, the scratch directory the call creates,
the outcomes of the external doc2docx module/CLI attempts, and the raw file
bytes. -/
structure ConvEnv where
  ext : JStr
  baseName : JStr
  tempDir : JStr
  moduleAvailable : Bool
  moduleConverts : Bool
  cliConverts : Bool
  buffer : Bytes
deriving DecidableEq

/-- Outcome of the orchestrator: a returned temp path or a thrown message,
together with whether `cleanup()` ran before control returned. -/
inductive ConvResult where
  | ok (tempPath : JStr) (cleaned : Bool)
  | error (msg : JStr) (cleaned : Bool)
deriving DecidableEq

/-- The zero-lines failure message. -/
def noContentMsg (baseName : JStr) : JStr :=
  asc "No textual content could be extracted from " ++ baseName ++
    asc ". The file may require manual conversion."

/-- `convertBinaryOfficeToDocx` as a function of its environment. -/
def convertBinaryOfficeToDocx (env : ConvEnv) : ConvResult :=
  match binaryOfficeKind env.ext with
  | none => .error (asc "Unsupported binary Office extension: " ++ env.ext)
      false
  | some kind =>
    let tempPath := env.tempDir ++ [47] ++ env.baseName ++ asc ".docx"
    if kind = asc "word" ∧
        ((env.moduleAvailable ∧ env.moduleConverts) ∨ env.cliConverts) then
      .ok tempPath false
    else
      let lines := extractBinaryLines env.buffer
      if lines.length = 0 then .error (noContentMsg env.baseName) true
      else .ok tempPath false

/-- C5: when the salvage path runs (the extension maps to a binary Office
kind, and no doc2docx attempt succeeded for Word kinds), zero salvaged
lines make the orchestrator clean up its scratch directory and throw the
message naming the source file, never returning a result; one or more
salvaged lines make it return the temp DOCX path without failing. -/
theorem c5_salvage_contract (env : ConvEnv) (kind : JStr)
    (hk : binaryOfficeKind env.ext = some kind)
    (hno : ¬(kind = asc "word" ∧
      ((env.moduleAvailable ∧ env.moduleConverts) ∨ env.cliConverts))) :
    (extractBinaryLines env.buffer = [] →
      convertBinaryOfficeToDocx env =
        .error (noContentMsg env.baseName) true) ∧
    (extractBinaryLines env.buffer ≠ [] →
      convertBinaryOfficeToDocx env =
        .ok (env.tempDir ++ [47] ++ env.baseName ++ asc ".docx") false) := by
  unfold convertBinaryOfficeToDocx
  rw [hk]
  simp only []
  rw [if_neg hno]
  constructor
  · intro h
    rw [if_pos (by rw [h]; rfl)]
  · intro h
    rw [if_neg (by
      intro hlen
      exact h (List.eq_nil_of_length_eq_zero hlen))]

theorem c5_salvage_contract_witness :
    (convertBinaryOfficeToDocx
        ⟨asc ".xls", asc "budget", asc "/tmp/s1", false, false, false, []⟩ =
      .error (noContentMsg (asc "budget")) true) ∧
    (convertBinaryOfficeToDocx
        ⟨asc ".doc", asc "memo", asc "/tmp/s2", true, false, false,
          [97, 98, 99, 10]⟩ =
      .ok (asc "/tmp/s2" ++ [47] ++ asc "memo" ++ asc ".docx") false) :=
  ⟨(c5_salvage_contract
      ⟨asc ".xls", asc "budget", asc "/tmp/s1", false, false, false, []⟩
      (asc "spreadsheet") (by decide) (by decide)).1 (by decide),
   (c5_salvage_contract
      ⟨asc ".doc", asc "memo", asc "/tmp/s2", true, false, false,
        [97, 98, 99, 10]⟩
      (asc "word") (by decide) (by decide)).2 (by decide)⟩

/-! ### The PDF extractor (unnamed/part_007) -/

/-- Outcome of invoking an external tool: the binary is absent (`ENOENT`),
it ran and failed for another reason, or it produced a value. -/
inductive ToolOutcome (α : Type) where
  | missing
  | failed
  | ok (a : α)
deriving DecidableEq

/-- The four module-level `…WarningIssued` flags. -/
structure WarnState where
  tesseract : Bool
  pdftoppm : Bool
  pdftotext : Bool
  pdfinfo : Bool
deriving DecidableEq

/-- All flags start `false` when the module loads. -/
def initWarnState : WarnState := ⟨false, false, false, false⟩

/-- The distinct `logger.warn` messages relevant to missing tools, plus the
per-file / per-image failure warnings (which are never deduplicated). -/
inductive Warning where
  | pdftotextMissing
  | pdftotextFailed
  | pdfinfoMissing
  | pdfinfoFailed
  | pdftoppmMissing
  | pdftoppmFailed
  | tesseractMissing
  | tesseractImageFailed
deriving DecidableEq

/-- `runPdftotext` (part_007 lines 34-61), with a logger attached: returns
the trimmed stdout or `null`, warning once per process on `ENOENT`. -/
def runPdftotext (out : ToolOutcome JStr) (w : WarnState) :
    Option JStr × WarnState × List Warning :=
  match out with
  | .ok s => (some (jsTrim s), w, [])
  | .missing =>
    (none, { w with pdftotext := true },
     if w.pdftotext then [] else [.pdftotextMissing])
  | .failed => (none, w, [.pdftotextFailed])

/-- `runPdfinfo` (part_007 lines 63-84). -/
def runPdfinfo (out : ToolOutcome JStr) (w : WarnState) :
    Option JStr × WarnState × List Warning :=
  match out with
  | .ok s => (some s, w, [])
  | .missing =>
    (none, { w with pdfinfo := true },
     if w.pdfinfo then [] else [.pdfinfoMissing])
  | .failed => (none, w, [.pdfinfoFailed])

/-- `Number.parseInt(s, 10)` as an `Option Int` (`none` = `NaN`). -/
def jsParseInt (s : JStr) : Option Int :=
  let t := s.dropWhile (fun c => isJsWs c)
  match t with
  | 43 :: rest =>
    let d := rest.takeWhile isDigit
    if d = [] then none
    else some (Int.ofNat (d.foldl (fun a c => a * 10 + (c - 48)) 0))
  | 45 :: rest =>
    let d := rest.takeWhile isDigit
    if d = [] then none
    else some (-(Int.ofNat (d.foldl (fun a c => a * 10 + (c - 48)) 0)))
  | rest =>
    let d := rest.takeWhile isDigit
    if d = [] then none
    else some (Int.ofNat (d.foldl (fun a c => a * 10 + (c - 48)) 0))

/-- `parsePdfinfoOutput` followed by `buildMetadataFromPdfinfo(...).totalPages`:
the `Pages` key is looked up (last assignment wins) and parsed as a decimal
integer. -/
def pdfinfoPages (output : JStr) : Option Int :=
  let lines := splitOnNl (normCrLf output)
  let entries := lines.filterMap (fun line =>
    if hasSub [58] line then
      let rawKey := line.takeWhile (fun c => c ≠ 58)
      if rawKey = [] then none
      else
        let key := jsTrim rawKey
        let value := jsTrim ((line.dropWhile (fun c => c ≠ 58)).drop 1)
        if key = [] then none else some (key, value)
    else none)
  match entries.reverse.find? (fun e => e.1 = asc "Pages") with
  | none => none
  | some e => jsParseInt e.2

/-- `runTesseractOcr` on a `.pdf` path (part_007 lines 204-292): `pdftoppm`
renders page images, then tesseract runs per image with the per-image
`try`/`catch` swallowing every error — including tesseract's own `ENOENT` —
so the once-only tesseract warning is never reached from this flow. -/
def runTesseractOcr (render : ToolOutcome (List (ToolOutcome JStr)))
    (w : WarnState) : Option (JStr × Nat) × WarnState × List Warning :=
  match render with
  | .missing =>
    (none, { w with pdftoppm := true },
     if w.pdftoppm then [] else [.pdftoppmMissing])
  | .failed => (none, w, [.pdftoppmFailed])
  | .ok pages =>
    if pages = [] then (none, w, [])
    else
      let pageTexts := pages.filterMap (fun p =>
        match p with
        | .ok t => if jsTrim t = [] then none else some (jsTrim t)
        | _ => none)
      let warns := pages.flatMap (fun p =>
        match p with
        | .ok _ => ([] : List Warning)
        | _ => [.tesseractImageFailed])
      if pageTexts = [] then (none, w, warns)
      else (some (List.intercalate [10, 10] pageTexts, pageTexts.length),
        w, warns)

/-- What `pdfParse` resolves with. -/
structure PdfParseData where
  text : JStr
  numpages : Option Int
  numrender : Option Int

/-- The collaborator outcomes one `extractPdf` call observes. -/
structure PdfEnv where
  sizeBytes : Option Int
  pdftotext : ToolOutcome JStr
  pdfinfo : ToolOutcome JStr
  pdfParse : Except Unit PdfParseData
  ocrRender : ToolOutcome (List (ToolOutcome JStr))

/-- The numeric options of `extractPdf` (`none` = not a finite number). -/
structure PdfOpts where
  pageLimit : Option Int
  largeFileThresholdBytes : Option Int
  largeFilePageLimit : Option Int
  textCharBudget : Option Int

/-- The `extraction` record returned to the caller. -/
structure Extraction where
  totalPages : Option Int
  processedPages : Option Int
  pageLimit : Option Int
  autoLimited : Bool
  truncatedByPageLimit : Bool
  truncatedByCharacterLimit : Bool
  characterLimit : Option Int
  usedPoppler : Bool
deriving DecidableEq

/-- The observable result of one call, with two trace fields: the raw text
before character truncation (`rawText`) and before the OCR stage
(`preOcrText`), and whether the OCR engine was invoked at all. -/
structure PdfResult where
  text : JStr
  rawText : JStr
  preOcrText : JStr
  ocrInvoked : Bool
  ocrUsed : Bool
  extraction : Extraction
  warnings : List Warning

/-- `option > 0 ? floor(option) : 0` for the three limit options. -/
def posOr0 : Option Int → Int
  | some v => if 0 < v then v else 0
  | none => 0

/-- The poppler fast path of `extractPdf` (part_007 lines 372-419): returns
`(rawText, totalPages, processedPages, usedPoppler, warnState, warnings)`. -/
def popplerPhase (ptx pinfoOut : ToolOutcome JStr) (appliedPageLimit : Int)
    (shouldAttemptPoppler : Bool) (w0 : WarnState) :
    JStr × Option Int × Option Int × Bool × WarnState × List Warning :=
  if shouldAttemptPoppler then
    match runPdftotext ptx w0 with
    | (popplerText, w1, warns1) =>
      match popplerText with
      | some s =>
        if s = [] then ([], none, none, false, w1, warns1)
        else
          let rawText := jsTrim s
          let processedPages0 : Option Int :=
            if 0 < appliedPageLimit then some appliedPageLimit else none
          match runPdfinfo pinfoOut w1 with
          | (infoOut, w2, warns2) =>
            let totalPages : Option Int :=
              match infoOut with
              | some out => if out = [] then none else pdfinfoPages out
              | none => none
            let processedPages1 : Option Int :=
              match totalPages with
              | some tp =>
                match processedPages0 with
                | some pp => some pp
                | none =>
                  if 0 < appliedPageLimit then some (min appliedPageLimit tp)
                  else some tp
              | none => processedPages0
            let processedPages2 : Option Int :=
              match totalPages, processedPages1 with
              | some tp, some pp => some (min pp tp)
              | _, _ => processedPages1
            (rawText, totalPages, processedPages2, true, w2,
              warns1 ++ warns2)
      | none => ([], none, none, false, w1, warns1)
  else ([], none, none, false, w0, [])

/-- The OCR fallback stage of `extractPdf` (part_007 lines 448-456): runs
only on empty raw text; returns `(rawText, ocrUsed, warnState, warnings)`. -/
def ocrPhase (render : ToolOutcome (List (ToolOutcome JStr))) (raw2 : JStr)
    (w2 : WarnState) : JStr × Bool × WarnState × List Warning :=
  if raw2 = [] then
    match runTesseractOcr render w2 with
    | (some (t, _), w3, warns3) => (t, true, w3, warns3)
    | (none, w3, warns3) => ([], false, w3, warns3)
  else (raw2, false, w2, [])

/-- `Number.isFinite(pageLimit) && pageLimit > 0 ? Math.floor(pageLimit) : 0`. -/
def explicitLimitOf (opts : PdfOpts) : Int := posOr0 opts.pageLimit

/-- The auto-limit trigger: a finite size at or above a configured
threshold, with a configured auto page limit. -/
def sizeLargeOf (opts : PdfOpts) (sz : Option Int) : Bool :=
  match sz with
  | some v => posOr0 opts.largeFileThresholdBytes ≠ 0 &&
      posOr0 opts.largeFilePageLimit ≠ 0 &&
      posOr0 opts.largeFileThresholdBytes ≤ v
  | none => false

/-- `appliedPageLimit` after the explicit/auto resolution. -/
def appliedLimitOf (opts : PdfOpts) (sz : Option Int) : Int :=
  if explicitLimitOf opts = 0 ∧ sizeLargeOf opts sz then
    posOr0 opts.largeFilePageLimit
  else explicitLimitOf opts

/-- `shouldAttemptPoppler`. -/
def shouldAttemptOf (opts : PdfOpts) (sz : Option Int) : Bool :=
  0 < appliedLimitOf opts sz ||
    (match sz with
     | some v =>
       (if posOr0 opts.largeFileThresholdBytes ≠ 0 then
          posOr0 opts.largeFileThresholdBytes
        else 20971520) ≤ v
     | none => false)

/-- The character budget: `finite ? max(0, floor(budget)) : 20000`. -/
def budgetOf (opts : PdfOpts) : Int :=
  match opts.textCharBudget with
  | some v => max 0 v
  | none => 20000

/-- `extractPdf` (part_007 lines 315-560, vision mode off), threading the
module warning flags explicitly. -/
def extractPdf (env : PdfEnv) (opts : PdfOpts) (w0 : WarnState) :
    Except Unit (PdfResult × WarnState) :=
  match popplerPhase env.pdftotext env.pdfinfo
      (appliedLimitOf opts env.sizeBytes)
      (shouldAttemptOf opts env.sizeBytes) w0 with
  | (raw1, total1, processed1, usedPoppler, w2, warnsA) =>
    let step2 : Except Unit (JStr × Option Int × Option Int) :=
      if raw1 = [] then
        match env.pdfParse with
        | .error _ => .error ()
        | .ok data => .ok (jsTrim data.text, data.numpages, data.numrender)
      else
        .ok (raw1, total1,
          if processed1 = none ∧ 0 < appliedLimitOf opts env.sizeBytes then
            some (appliedLimitOf opts env.sizeBytes)
          else processed1)
    match step2 with
    | .error _ => .error ()
    | .ok (raw2, total2, processed2) =>
      match ocrPhase env.ocrRender raw2 w2 with
      | (rawText, ocrUsed, w3, warnsB) =>
        .ok ({ text := if 0 < budgetOf opts then
                 rawText.take (budgetOf opts).toNat
               else rawText
               rawText := rawText
               preOcrText := raw2
               ocrInvoked := raw2 = []
               ocrUsed := ocrUsed
               extraction :=
                 { totalPages := total2
                   processedPages := processed2
                   pageLimit := if appliedLimitOf opts env.sizeBytes ≠ 0 then
                       some (appliedLimitOf opts env.sizeBytes)
                     else none
                   autoLimited := explicitLimitOf opts = 0 &&
                     sizeLargeOf opts env.sizeBytes
                   truncatedByPageLimit :=
                     appliedLimitOf opts env.sizeBytes ≠ 0 &&
                       (match total2, processed2 with
                        | some tp, some pp => pp < tp
                        | _, _ => false)
                   truncatedByCharacterLimit := 0 < budgetOf opts &&
                     budgetOf opts < (rawText.length : Int)
                   characterLimit := if 0 < budgetOf opts then
                       some (budgetOf opts)
                     else none
                   usedPoppler := usedPoppler }
               warnings := warnsA ++ warnsB }, w3)

/-! ### Warning bookkeeping across the PDF toolchain -/

/-- One step of warning emission: each missing-tool warning for pdftotext /
pdfinfo / pdftoppm appears exactly when its process-wide flag flips from
`false` to `true`, flags are monotone, and the tesseract missing-tool
warning is never emitted (nor its flag ever set). -/
def WarnStep (w w2 : WarnState) (warns : List Warning) : Prop :=
  (w.pdftotext = true → w2.pdftotext = true) ∧
  warns.count Warning.pdftotextMissing =
    (if w2.pdftotext && !w.pdftotext then 1 else 0) ∧
  (w.pdfinfo = true → w2.pdfinfo = true) ∧
  warns.count Warning.pdfinfoMissing =
    (if w2.pdfinfo && !w.pdfinfo then 1 else 0) ∧
  (w.pdftoppm = true → w2.pdftoppm = true) ∧
  warns.count Warning.pdftoppmMissing =
    (if w2.pdftoppm && !w.pdftoppm then 1 else 0) ∧
  w2.tesseract = w.tesseract ∧
  warns.count Warning.tesseractMissing = 0

theorem warnStep_nil (w : WarnState) : WarnStep w w [] := by
  simp [WarnStep]

theorem warnStep_trans (w w2 w3 : WarnState) (a b : List Warning)
    (h1 : WarnStep w w2 a) (h2 : WarnStep w2 w3 b) :
    WarnStep w w3 (a ++ b) := by
  obtain ⟨m1, c1, m2, c2, m3, c3, t1, ct1⟩ := h1
  obtain ⟨n1, d1, n2, d2, n3, d3, t2, ct2⟩ := h2
  refine ⟨fun h => n1 (m1 h), ?_, fun h => n2 (m2 h), ?_,
    fun h => n3 (m3 h), ?_, t2.trans t1, ?_⟩
  · rw [List.count_append, c1, d1]
    cases hx : w.pdftotext <;> cases hy : w2.pdftotext <;>
      cases hz : w3.pdftotext <;> simp_all
  · rw [List.count_append, c2, d2]
    cases hx : w.pdfinfo <;> cases hy : w2.pdfinfo <;>
      cases hz : w3.pdfinfo <;> simp_all
  · rw [List.count_append, c3, d3]
    cases hx : w.pdftoppm <;> cases hy : w2.pdftoppm <;>
      cases hz : w3.pdftoppm <;> simp_all
  · rw [List.count_append, ct1, ct2]

theorem runPdftotext_warnStep (out : ToolOutcome JStr) (w : WarnState) :
    WarnStep w (runPdftotext out w).2.1 (runPdftotext out w).2.2 := by
  cases out with
  | ok s => simp [runPdftotext, WarnStep]
  | failed => simp [runPdftotext, WarnStep, List.count_cons, List.count_nil]
  | missing =>
    cases hw : w.pdftotext <;>
      simp [runPdftotext, WarnStep, hw, List.count_cons, List.count_nil]

theorem runPdfinfo_warnStep (out : ToolOutcome JStr) (w : WarnState) :
    WarnStep w (runPdfinfo out w).2.1 (runPdfinfo out w).2.2 := by
  cases out with
  | ok s => simp [runPdfinfo, WarnStep]
  | failed => simp [runPdfinfo, WarnStep, List.count_cons, List.count_nil]
  | missing =>
    cases hw : w.pdfinfo <;>
      simp [runPdfinfo, WarnStep, hw, List.count_cons, List.count_nil]

theorem ocrImageWarns_count (pages : List (ToolOutcome JStr)) (k : Warning)
    (hk : k ≠ Warning.tesseractImageFailed) :
    (pages.flatMap (fun p =>
      match p with
      | .ok _ => ([] : List Warning)
      | _ => [.tesseractImageFailed])).count k = 0 := by
  rw [List.count_eq_zero]
  intro hmem
  rw [List.mem_flatMap] at hmem
  obtain ⟨p, _, hkp⟩ := hmem
  cases p <;> simp_all

theorem runTesseractOcr_warnStep
    (render : ToolOutcome (List (ToolOutcome JStr))) (w : WarnState) :
    WarnStep w (runTesseractOcr render w).2.1
      (runTesseractOcr render w).2.2 := by
  cases render with
  | missing =>
    cases hw : w.pdftoppm <;>
      simp [runTesseractOcr, WarnStep, hw, List.count_cons, List.count_nil]
  | failed =>
    simp [runTesseractOcr, WarnStep, List.count_cons, List.count_nil]
  | ok pages =>
    by_cases hp : pages = []
    · simp [runTesseractOcr, hp, WarnStep]
    · by_cases ht : (pages.filterMap (fun p =>
        match p with
        | ToolOutcome.ok t => if jsTrim t = [] then none else some (jsTrim t)
        | _ => none)) = []
      · simp only [runTesseractOcr, if_neg hp, ht, if_pos rfl]
        refine ⟨fun h => h, ?_, fun h => h, ?_, fun h => h, ?_, rfl, ?_⟩ <;>
          simp [ocrImageWarns_count]
      · simp only [runTesseractOcr, if_neg hp, if_neg ht]
        refine ⟨fun h => h, ?_, fun h => h, ?_, fun h => h, ?_, rfl, ?_⟩ <;>
          simp [ocrImageWarns_count]

theorem popplerPhase_warnStep (ptx pinfoOut : ToolOutcome JStr) (al : Int)
    (sa : Bool) (w0 : WarnState) (raw1 : JStr) (total1 processed1 : Option Int)
    (u : Bool) (w2 : WarnState) (warns : List Warning)
    (h : popplerPhase ptx pinfoOut al sa w0 =
      (raw1, total1, processed1, u, w2, warns)) :
    WarnStep w0 w2 warns := by
  unfold popplerPhase at h
  by_cases hsa : sa = true
  · rw [if_pos hsa] at h
    have hstep1 := runPdftotext_warnStep ptx w0
    rcases hr : runPdftotext ptx w0 with ⟨pt, w1, warns1⟩
    rw [hr] at h hstep1
    simp only [] at h hstep1
    cases pt with
    | none =>
      simp only [] at h
      simp only [Prod.mk.injEq] at h
      obtain ⟨_, _, _, _, hw, hwar⟩ := h
      subst hw
      subst hwar
      exact hstep1
    | some s =>
      simp only [] at h
      by_cases hs : s = []
      · rw [if_pos hs] at h
        simp only [Prod.mk.injEq] at h
        obtain ⟨_, _, _, _, hw, hwar⟩ := h
        subst hw
        subst hwar
        exact hstep1
      · rw [if_neg hs] at h
        have hstep2 := runPdfinfo_warnStep pinfoOut w1
        rcases hi : runPdfinfo pinfoOut w1 with ⟨io, w2x, warns2⟩
        rw [hi] at h hstep2
        simp only [] at h hstep2
        simp only [Prod.mk.injEq] at h
        obtain ⟨_, _, _, _, hw, hwar⟩ := h
        subst hw
        subst hwar
        exact warnStep_trans _ _ _ _ _ hstep1 hstep2
  · rw [if_neg hsa] at h
    simp only [Prod.mk.injEq] at h
    obtain ⟨_, _, _, _, hw, hwar⟩ := h
    subst hw
    subst hwar
    exact warnStep_nil w0

theorem ocrPhase_warnStep (render : ToolOutcome (List (ToolOutcome JStr)))
    (raw2 : JStr) (w2 : WarnState) (rawText : JStr) (ocrUsed : Bool)
    (w3 : WarnState) (warns : List Warning)
    (h : ocrPhase render raw2 w2 = (rawText, ocrUsed, w3, warns)) :
    WarnStep w2 w3 warns := by
  unfold ocrPhase at h
  by_cases hr : raw2 = []
  · rw [if_pos hr] at h
    have hstep := runTesseractOcr_warnStep render w2
    rcases ho : runTesseractOcr render w2 with ⟨ores, w3x, warns3⟩
    rw [ho] at h hstep
    simp only [] at h hstep
    cases ores with
    | none =>
      simp only [] at h
      simp only [Prod.mk.injEq] at h
      obtain ⟨_, _, hw, hwar⟩ := h
      subst hw
      subst hwar
      exact hstep
    | some tp =>
      rcases tp with ⟨t, n⟩
      simp only [] at h
      simp only [Prod.mk.injEq] at h
      obtain ⟨_, _, hw, hwar⟩ := h
      subst hw
      subst hwar
      exact hstep
  · rw [if_neg hr] at h
    simp only [Prod.mk.injEq] at h
    obtain ⟨_, _, hw, hwar⟩ := h
    subst hw
    subst hwar
    exact warnStep_nil w2

/-! ### C6-C9: the extractor's budget, page-limit, OCR and warning claims -/

theorem posOr0_nonneg (o : Option Int) : 0 ≤ posOr0 o := by
  cases o with
  | none => simp [posOr0]
  | some v =>
    simp only [posOr0]
    split <;> omega

theorem appliedLimitOf_nonneg (opts : PdfOpts) (sz : Option Int) :
    0 ≤ appliedLimitOf opts sz := by
  unfold appliedLimitOf
  split
  · exact posOr0_nonneg _
  · exact posOr0_nonneg _

theorem popplerPhase_processed_le (ptx pinfoOut : ToolOutcome JStr)
    (al : Int) (sa : Bool) (w0 : WarnState) (raw1 : JStr)
    (total1 processed1 : Option Int) (u : Bool) (w2 : WarnState)
    (warns : List Warning)
    (h : popplerPhase ptx pinfoOut al sa w0 =
      (raw1, total1, processed1, u, w2, warns))
    (hal : 0 < al) : ∀ pp, processed1 = some pp → pp ≤ al := by
  unfold popplerPhase at h
  by_cases hsa : sa = true
  · rw [if_pos hsa] at h
    rcases hr : runPdftotext ptx w0 with ⟨pt, w1, warns1⟩
    rw [hr] at h
    simp only [] at h
    cases pt with
    | none =>
      simp only [] at h
      simp only [Prod.mk.injEq] at h
      obtain ⟨_, _, hproc, _⟩ := h
      intro pp hpp
      rw [← hproc] at hpp
      cases hpp
    | some s =>
      simp only [] at h
      by_cases hs : s = []
      · rw [if_pos hs] at h
        simp only [Prod.mk.injEq] at h
        obtain ⟨_, _, hproc, _⟩ := h
        intro pp hpp
        rw [← hproc] at hpp
        cases hpp
      · rw [if_neg hs] at h
        rcases hi : runPdfinfo pinfoOut w1 with ⟨io, w2x, warns2⟩
        rw [hi] at h
        simp only [] at h
        simp only [Prod.mk.injEq] at h
        obtain ⟨_, _, hproc, _⟩ := h
        intro pp hpp
        rw [← hproc] at hpp
        rw [if_pos hal] at hpp
        cases hTP : (match io with
          | some out => if out = [] then none else pdfinfoPages out
          | none => none) with
        | none =>
          rw [hTP] at hpp
          simp only [] at hpp
          injection hpp with he
          omega
        | some tp =>
          rw [hTP] at hpp
          simp only [] at hpp
          injection hpp with he
          rw [← he]
          exact min_le_left _ _
  · rw [if_neg hsa] at h
    simp only [Prod.mk.injEq] at h
    obtain ⟨_, _, hproc, _⟩ := h
    intro pp hpp
    rw [← hproc] at hpp
    cases hpp

theorem ocrPhase_not_invoked (render : ToolOutcome (List (ToolOutcome JStr)))
    (raw2 : JStr) (w2 : WarnState) (hr : raw2 ≠ []) :
    ocrPhase render raw2 w2 = (raw2, false, w2, []) := by
  unfold ocrPhase
  rw [if_neg hr]

/-- C6: for every character budget `b > 0`, the returned text is at most
`b` units long, and the character-truncation flag is set exactly when the
pre-truncation raw text exceeded `b`. -/
theorem c6_char_budget (env : PdfEnv) (opts : PdfOpts) (w0 : WarnState)
    (res : PdfResult) (w1 : WarnState)
    (h : extractPdf env opts w0 = .ok (res, w1)) (b : Int)
    (hb : opts.textCharBudget = some b) (hpos : 0 < b) :
    (res.text.length : Int) ≤ b ∧
    (res.extraction.truncatedByCharacterLimit = true ↔
      b < (res.rawText.length : Int)) := by
  have hbud : budgetOf opts = b := by
    simp [budgetOf, hb]
    omega
  unfold extractPdf at h
  rcases hp : popplerPhase env.pdftotext env.pdfinfo
      (appliedLimitOf opts env.sizeBytes)
      (shouldAttemptOf opts env.sizeBytes) w0 with
    ⟨raw1, total1, processed1, usedPoppler, w2, warnsA⟩
  rw [hp] at h
  simp only [] at h
  split at h
  · cases h
  · rename_i raw2 total2 processed2 heq
    rcases ho : ocrPhase env.ocrRender raw2 w2 with
      ⟨rawText, ocrUsed, w3, warnsB⟩
    rw [ho] at h
    simp only [Except.ok.injEq, Prod.mk.injEq] at h
    obtain ⟨hres, hw⟩ := h
    subst hres
    simp only [hbud]
    rw [if_pos hpos]
    constructor
    · simp only [List.length_take]
      omega
    · simp only [Bool.and_eq_true, decide_eq_true_eq]
      constructor
      · intro hx
        exact hx.2
      · intro hx
        exact ⟨hpos, hx⟩

/-- C7: whenever a positive page limit `p` was applied (explicitly or by
the large-file trigger, as recorded in `extraction.pageLimit`), the
reported processed-page count is at most `p`, and the page-truncation flag
is set exactly when both counts are known and the total exceeds the
processed count. The bound relies on pdf-parse's contract that `numrender`
never exceeds the requested `max` pages, taken as a hypothesis. -/
theorem c7_page_limit (env : PdfEnv) (opts : PdfOpts) (w0 : WarnState)
    (res : PdfResult) (w1 : WarnState)
    (h : extractPdf env opts w0 = .ok (res, w1)) (p : Int)
    (hp : res.extraction.pageLimit = some p)
    (hnr : ∀ d, env.pdfParse = .ok d → ∀ r, d.numrender = some r → r ≤ p) :
    (∀ pp, res.extraction.processedPages = some pp → pp ≤ p) ∧
    (res.extraction.truncatedByPageLimit = true ↔
      ∃ tp pp, res.extraction.totalPages = some tp ∧
        res.extraction.processedPages = some pp ∧ pp < tp) := by
  unfold extractPdf at h
  rcases hpp : popplerPhase env.pdftotext env.pdfinfo
      (appliedLimitOf opts env.sizeBytes)
      (shouldAttemptOf opts env.sizeBytes) w0 with
    ⟨raw1, total1, processed1, usedPoppler, w2, warnsA⟩
  rw [hpp] at h
  simp only [] at h
  split at h
  · cases h
  · rename_i raw2 total2 processed2 heq
    rcases ho : ocrPhase env.ocrRender raw2 w2 with
      ⟨rawText, ocrUsed, w3, warnsB⟩
    rw [ho] at h
    simp only [Except.ok.injEq, Prod.mk.injEq] at h
    obtain ⟨hres, hw⟩ := h
    subst hres
    simp only [] at hp ⊢
    by_cases hAL : appliedLimitOf opts env.sizeBytes ≠ 0
    · rw [if_pos hAL] at hp
      injection hp with hALp
      have hALpos : 0 < appliedLimitOf opts env.sizeBytes := by
        have := appliedLimitOf_nonneg opts env.sizeBytes
        omega
      constructor
      · intro pp hpp2
        subst hALp
        split at heq
        · split at heq
          · cases heq
          · rename_i data hdata
            simp only [Except.ok.injEq, Prod.mk.injEq] at heq
            obtain ⟨_, _, hproc⟩ := heq
            rw [← hproc] at hpp2
            exact hnr data hdata pp hpp2
        · simp only [Except.ok.injEq, Prod.mk.injEq] at heq
          obtain ⟨_, _, hproc⟩ := heq
          rw [← hproc] at hpp2
          split at hpp2
          · injection hpp2 with he
            omega
          · exact popplerPhase_processed_le _ _ _ _ _ _ _ _ _ _ _ hpp
              hALpos pp hpp2
      · cases total2 with
        | none => simp [hAL]
        | some tp =>
          cases processed2 with
          | none => simp [hAL]
          | some pp => simp [hAL]
    · rw [if_neg hAL] at hp
      cases hp

/-- C8: the OCR engine is invoked exactly when the raw text after the
fast-path CLI attempt and the embedded-parser attempt is empty; when that
text is non-empty it is returned untouched and no OCR payload appears. -/
theorem c8_ocr_gating (env : PdfEnv) (opts : PdfOpts) (w0 : WarnState)
    (res : PdfResult) (w1 : WarnState)
    (h : extractPdf env opts w0 = .ok (res, w1)) :
    (res.ocrInvoked = true ↔ res.preOcrText = []) ∧
    (res.preOcrText ≠ [] →
      res.ocrUsed = false ∧ res.rawText = res.preOcrText) := by
  unfold extractPdf at h
  rcases hp : popplerPhase env.pdftotext env.pdfinfo
      (appliedLimitOf opts env.sizeBytes)
      (shouldAttemptOf opts env.sizeBytes) w0 with
    ⟨raw1, total1, processed1, usedPoppler, w2, warnsA⟩
  rw [hp] at h
  simp only [] at h
  split at h
  · cases h
  · rename_i raw2 total2 processed2 heq
    by_cases hr : raw2 = []
    · rcases ho : ocrPhase env.ocrRender raw2 w2 with
        ⟨rawText, ocrUsed, w3, warnsB⟩
      rw [ho] at h
      simp only [Except.ok.injEq, Prod.mk.injEq] at h
      obtain ⟨hres, hw⟩ := h
      subst hres
      constructor
      · simp [hr]
      · intro hcon
        exact absurd hr hcon
    · rw [ocrPhase_not_invoked env.ocrRender raw2 w2 hr] at h
      simp only [Except.ok.injEq, Prod.mk.injEq] at h
      obtain ⟨hres, hw⟩ := h
      subst hres
      constructor
      · simp [hr]
      · intro _
        exact ⟨rfl, rfl⟩

/-- C9 (corrected): per call, the missing-tool warnings for pdftotext,
pdfinfo and pdftoppm are emitted exactly when their process-wide flag flips
from unset to set, and the flags are monotone — so across any sequence of
calls each of those warnings appears at most once, on the first `ENOENT`.
The tesseract missing-tool warning, however, is never emitted from the PDF
flow and its flag never set: the per-image `try`/`catch` swallows
tesseract's `ENOENT`, contradicting the claimed once-only tesseract
warning. -/
theorem c9_warn_once (env : PdfEnv) (opts : PdfOpts) (w0 : WarnState)
    (res : PdfResult) (w1 : WarnState)
    (h : extractPdf env opts w0 = .ok (res, w1)) :
    WarnStep w0 w1 res.warnings := by
  unfold extractPdf at h
  rcases hp : popplerPhase env.pdftotext env.pdfinfo
      (appliedLimitOf opts env.sizeBytes)
      (shouldAttemptOf opts env.sizeBytes) w0 with
    ⟨raw1, total1, processed1, usedPoppler, w2, warnsA⟩
  rw [hp] at h
  simp only [] at h
  split at h
  · cases h
  · rename_i raw2 total2 processed2 heq
    rcases ho : ocrPhase env.ocrRender raw2 w2 with
      ⟨rawText, ocrUsed, w3, warnsB⟩
    rw [ho] at h
    simp only [Except.ok.injEq, Prod.mk.injEq] at h
    obtain ⟨hres, hw⟩ := h
    subst hres
    subst hw
    exact warnStep_trans _ _ _ _ _
      (popplerPhase_warnStep _ _ _ _ _ _ _ _ _ _ _ hp)
      (ocrPhase_warnStep _ _ _ _ _ _ _ ho)

/-- Concrete environments for the C6-C9 witnesses and counterexample. -/
def c6env : PdfEnv :=
  ⟨none, .failed, .failed, .ok ⟨asc "Hello world", some 3, some 3⟩, .missing⟩

def c6opts : PdfOpts := ⟨none, none, none, some 5⟩

def c6res : PdfResult :=
  ⟨asc "Hello", asc "Hello world", asc "Hello world", false, false,
   ⟨some 3, some 3, none, false, false, true, some 5, false⟩, []⟩

theorem c6_char_budget_witness :
    ((c6res.text.length : Int) ≤ 5) ∧
    (c6res.extraction.truncatedByCharacterLimit = true ↔
      5 < (c6res.rawText.length : Int)) :=
  c6_char_budget c6env c6opts initWarnState c6res initWarnState rfl 5 rfl
    (by decide)

def c7env : PdfEnv :=
  ⟨none, .failed, .failed, .ok ⟨asc "Text", some 10, some 2⟩, .missing⟩

def c7opts : PdfOpts := ⟨some 2, none, none, none⟩

def c7res : PdfResult :=
  ⟨asc "Text", asc "Text", asc "Text", false, false,
   ⟨some 10, some 2, some 2, false, true, false, some 20000, false⟩,
   [.pdftotextFailed]⟩

theorem c7_page_limit_witness :
    (∀ pp, c7res.extraction.processedPages = some pp → pp ≤ 2) ∧
    (c7res.extraction.truncatedByPageLimit = true ↔
      ∃ tp pp, c7res.extraction.totalPages = some tp ∧
        c7res.extraction.processedPages = some pp ∧ pp < tp) :=
  c7_page_limit c7env c7opts initWarnState c7res initWarnState rfl 2 rfl
    (by
      intro d hd r hr
      cases hd
      cases hr
      omega)

theorem c8_ocr_gating_witness :
    (c6res.ocrInvoked = true ↔ c6res.preOcrText = []) ∧
    (c6res.preOcrText ≠ [] →
      c6res.ocrUsed = false ∧ c6res.rawText = c6res.preOcrText) :=
  c8_ocr_gating c6env c6opts initWarnState c6res initWarnState rfl

def c9wenv : PdfEnv :=
  ⟨some 30000000, .missing, .missing, .ok ⟨asc "x", none, none⟩, .missing⟩

def c9opts : PdfOpts := ⟨none, none, none, none⟩

def c9wres : PdfResult :=
  ⟨asc "x", asc "x", asc "x", false, false,
   ⟨none, none, none, false, false, false, some 20000, false⟩,
   [.pdftotextMissing]⟩

theorem c9_warn_once_witness :
    WarnStep initWarnState ⟨false, false, true, false⟩ c9wres.warnings :=
  c9_warn_once c9wenv c9opts initWarnState c9wres
    ⟨false, false, true, false⟩ rfl

/-- C9, counterexample to the tesseract part of the claim: with tesseract
absent (every per-image OCR invocation failing with `ENOENT`), a full call
emits only per-image failure warnings — the once-per-process tesseract
warning is never issued and its flag stays unset, so later calls repeat
identical warnings instead of being deduplicated. -/
def c9env : PdfEnv :=
  ⟨none, .failed, .failed, .ok ⟨[], none, none⟩, .ok [.missing, .missing]⟩

def c9res : PdfResult :=
  ⟨[], [], [], true, false,
   ⟨none, none, none, false, false, false, some 20000, false⟩,
   [.tesseractImageFailed, .tesseractImageFailed]⟩

theorem c9_counterexample :
    extractPdf c9env c9opts initWarnState = .ok (c9res, initWarnState) ∧
    c9res.warnings.count Warning.tesseractMissing = 0 ∧
    c9res.warnings.count Warning.tesseractImageFailed = 2 :=
  ⟨rfl, by decide, by decide⟩

/-! ### `parsePdfDate` (unnamed/part_002 lines 251-293) -/

/-- Strip an optional `D:` prefix. -/
def stripD (s : JStr) : JStr :=
  if (asc "D:").isPrefixOf s then s.drop 2 else s

/-- `(\d{2})`: two ASCII digits and the remainder. -/
def digits2 : JStr → Option (Nat × JStr)
  | a :: b :: rest =>
    if isDigit a ∧ isDigit b then some ((a - 48) * 10 + (b - 48), rest)
    else none
  | _ => none

/-- `(\d{4})`. -/
def digits4 (s : JStr) : Option (Nat × JStr) :=
  match digits2 s with
  | some (a, r) =>
    match digits2 r with
    | some (b, r2) => some (a * 100 + b, r2)
    | none => none
  | none => none

/-- The tail of the timezone group after the sign: `\d{2}'?\d{2}'?`. -/
def tzTail (s : JStr) : Option (Nat × Nat) :=
  match digits2 s with
  | none => none
  | some (hh, r) =>
    let r2 := match r with
      | 39 :: rr => rr
      | _ => r
    match digits2 r2 with
    | none => none
    | some (mm, _) => some (hh, mm)

/-- Gregorian leap year. -/
def isLeap (y : Nat) : Bool := (y % 4 = 0 && y % 100 ≠ 0) || y % 400 = 0

def daysInMonth (y : Nat) : Nat → Nat
  | 1 => 31
  | 2 => if isLeap y then 29 else 28
  | 3 => 31
  | 4 => 30
  | 5 => 31
  | 6 => 30
  | 7 => 31
  | 8 => 31
  | 9 => 30
  | 10 => 31
  | 11 => 30
  | 12 => 31
  | _ => 0

/-- Days since 1970-01-01 for a civil date (Howard Hinnant's algorithm,
with C-style truncated division exactly as the reference). -/
def daysFromCivil (y mo d : Nat) : Int :=
  let yy : Int := if mo ≤ 2 then (y : Int) - 1 else (y : Int)
  let era : Int := (if 0 ≤ yy then yy else yy - 399) / 400
  let yoe : Int := yy - era * 400
  let mp : Int := ((mo : Int) + 9) % 12
  let doy : Int := (153 * mp + 2) / 5 + (d : Int) - 1
  let doe : Int := yoe * 365 + yoe / 4 - yoe / 100 + doy
  era * 146097 + doe - 719468

/-- `new Date(\`${y}-${mo}-${d}T${h}:${mi}:${s}${tz}\`).getTime()` for the
ISO strings `parsePdfDate` builds: ECMA Date-Time-String validity, with
`none` for `NaN` (invalid date). `tz = none` means `Z`. -/
def pdfDateFromParts (y mo d h mi s : Nat)
    (tz : Option (Bool × Nat × Nat)) : Option Int :=
  let offMin : Int := match tz with
    | none => 0
    | some (neg, hh, mm) =>
      (if neg then -1 else 1) * ((hh : Int) * 60 + (mm : Int))
  let tzValid : Bool := match tz with
    | none => true
    | some (_, hh, mm) => hh ≤ 23 && mm ≤ 59
  if (1 ≤ mo && mo ≤ 12) && (1 ≤ d && d ≤ daysInMonth y mo) &&
      (h < 24 || (h = 24 && mi = 0 && s = 0)) && mi ≤ 59 && s ≤ 59 &&
      tzValid then
    some ((daysFromCivil y mo d * 86400 +
      (h : Int) * 3600 + (mi : Int) * 60 + (s : Int)) * 1000 -
      offMin * 60000)
  else none

/-- The parse after the mandatory year group: the five optional `(\d{2})?`
groups with their defaults, then the optional timezone group with its
normalisation, fed into the Date construction. -/
def pdfTail (year : Nat) (r1 : JStr) : Option Int :=
  let g2 := match digits2 r1 with
    | some (m, r) => (m, r)
    | none => (1, r1)
  let g3 := match digits2 g2.2 with
    | some (d, r) => (d, r)
    | none => (1, g2.2)
  let g4 := match digits2 g3.2 with
    | some (h, r) => (h, r)
    | none => (0, g3.2)
  let g5 := match digits2 g4.2 with
    | some (mi, r) => (mi, r)
    | none => (0, g4.2)
  let g6 := match digits2 g5.2 with
    | some (s, r) => (s, r)
    | none => (0, g5.2)
  let tz : Option (Bool × Nat × Nat) := match g6.2 with
    | c :: rest =>
      if c = 43 ∨ c = 45 then
        match tzTail rest with
        | some (hh, mm) => some (c = 45, hh, mm)
        | none => none
      else none
    | [] => none
  pdfDateFromParts year g2.1 g3.1 g4.1 g5.1 g6.1 tz

/-- `parsePdfDate(value)` — `none` input models a non-string argument; the
returned `Int` is the date's epoch-milliseconds value. -/
def parsePdfDate (value : Option JStr) : Option Int :=
  match value with
  | none => none
  | some v =>
    if v = [] then none
    else
      let trimmed := jsTrim v
      if trimmed = [] then none
      else
        match digits4 (stripD trimmed) with
        | none => none
        | some (year, r1) => pdfTail year r1

/-- As soon as the trimmed, `D:`-stripped input yields a year, the result
is the tail parse of the remainder. -/
theorem parsePdfDate_year (v : JStr) (y : Nat) (r1 : JStr)
    (h : digits4 (stripD (jsTrim v)) = some (y, r1)) :
    parsePdfDate (some v) = pdfTail y r1 := by
  have hv : v ≠ [] := by
    intro he
    rw [he] at h
    simp [jsTrim, stripD, digits4, digits2, asc, List.isPrefixOf] at h
  have ht : jsTrim v ≠ [] := by
    intro he
    rw [he] at h
    simp [stripD, digits4, digits2, asc, List.isPrefixOf] at h
  simp only [parsePdfDate]
  rw [if_neg hv, if_neg ht]
  simp only [h]

theorem pdfDateFromParts_bad_date (y mo d h mi s : Nat)
    (tz : Option (Bool × Nat × Nat))
    (hbad : ¬(1 ≤ mo ∧ mo ≤ 12 ∧ 1 ≤ d ∧ d ≤ daysInMonth y mo)) :
    pdfDateFromParts y mo d h mi s tz = none := by
  unfold pdfDateFromParts
  rw [if_neg]
  intro hcon
  simp only [Bool.and_eq_true, Bool.or_eq_true, decide_eq_true_eq] at hcon
  exact hbad (by tauto)

/-- C10 (corrected): `parsePdfDate` is total; it returns `null` for
non-string input and exactly when, after trimming and stripping an
optional `D:` prefix, no 4-digit year prefix exists (the trimming is the
correction: inputs with leading whitespace do not themselves begin with a
year, yet still parse). With a year present: truncated forms default the
month and day to 01 and the time to 00:00:00; a string ending after the
seconds has its missing timezone default to UTC; a well-formed
`[+-]dd'?dd'?` timezone is applied as a `±hh:mm` offset; a remainder that
is not such a timezone (including `Z` itself and malformed offsets) leaves
the offset at UTC; and a component assembly naming an invalid calendar
date yields `null`. -/
theorem c10_parse_contract :
    (parsePdfDate none = none) ∧
    (∀ v, digits4 (stripD (jsTrim v)) = none →
      parsePdfDate (some v) = none) ∧
    (∀ v y, digits4 (stripD (jsTrim v)) = some (y, []) →
      parsePdfDate (some v) = pdfDateFromParts y 1 1 0 0 0 none ∧
      (parsePdfDate (some v)).isSome = true) ∧
    (∀ v y mo d r1 r2, digits4 (stripD (jsTrim v)) = some (y, r1) →
      digits2 r1 = some (mo, r2) → digits2 r2 = some (d, []) →
      parsePdfDate (some v) = pdfDateFromParts y mo d 0 0 0 none) ∧
    (∀ v y mo d h mi s r1 r2 r3 r4 r5,
      digits4 (stripD (jsTrim v)) = some (y, r1) →
      digits2 r1 = some (mo, r2) → digits2 r2 = some (d, r3) →
      digits2 r3 = some (h, r4) → digits2 r4 = some (mi, r5) →
      digits2 r5 = some (s, []) →
      parsePdfDate (some v) = pdfDateFromParts y mo d h mi s none) ∧
    (∀ v y mo d h mi s r1 r2 r3 r4 r5 c rest hh mm,
      digits4 (stripD (jsTrim v)) = some (y, r1) →
      digits2 r1 = some (mo, r2) → digits2 r2 = some (d, r3) →
      digits2 r3 = some (h, r4) → digits2 r4 = some (mi, r5) →
      digits2 r5 = some (s, c :: rest) →
      (c = 43 ∨ c = 45) → tzTail rest = some (hh, mm) →
      parsePdfDate (some v) =
        pdfDateFromParts y mo d h mi s (some (c = 45, hh, mm))) ∧
    (∀ v y mo d h mi s r1 r2 r3 r4 r5 c rest,
      digits4 (stripD (jsTrim v)) = some (y, r1) →
      digits2 r1 = some (mo, r2) → digits2 r2 = some (d, r3) →
      digits2 r3 = some (h, r4) → digits2 r4 = some (mi, r5) →
      digits2 r5 = some (s, c :: rest) →
      ((c ≠ 43 ∧ c ≠ 45) ∨ ((c = 43 ∨ c = 45) ∧ tzTail rest = none)) →
      parsePdfDate (some v) = pdfDateFromParts y mo d h mi s none) ∧
    (∀ v y mo d r1 r2 r3,
      digits4 (stripD (jsTrim v)) = some (y, r1) →
      digits2 r1 = some (mo, r2) → digits2 r2 = some (d, r3) →
      ¬(1 ≤ mo ∧ mo ≤ 12 ∧ 1 ≤ d ∧ d ≤ daysInMonth y mo) →
      parsePdfDate (some v) = none) := by
  refine ⟨rfl, ?_, ?_, ?_, ?_, ?_, ?_, ?_⟩
  · intro v h
    simp only [parsePdfDate]
    by_cases hv : v = []
    · rw [if_pos hv]
    · rw [if_neg hv]
      by_cases ht : jsTrim v = []
      · rw [if_pos ht]
      · rw [if_neg ht]
        simp only [h]
  · intro v y h
    rw [parsePdfDate_year v y [] h]
    constructor
    · rfl
    · simp [pdfTail, digits2, pdfDateFromParts, daysInMonth]
  · intro v y mo d r1 r2 h h2 h3
    rw [parsePdfDate_year v y r1 h]
    simp only [pdfTail, h2, h3]
    simp only [digits2]
  · intro v y mo d h mi s r1 r2 r3 r4 r5 hy h2 h3 h4 h5 h6
    rw [parsePdfDate_year v y r1 hy]
    simp only [pdfTail, h2, h3, h4, h5, h6]
  · intro v y mo d h mi s r1 r2 r3 r4 r5 c rest hh mm hy h2 h3 h4 h5 h6
      hc htz
    rw [parsePdfDate_year v y r1 hy]
    simp only [pdfTail, h2, h3, h4, h5, h6]
    rw [if_pos hc, htz]
  · intro v y mo d h mi s r1 r2 r3 r4 r5 c rest hy h2 h3 h4 h5 h6 hm
    rw [parsePdfDate_year v y r1 hy]
    simp only [pdfTail, h2, h3, h4, h5, h6]
    rcases hm with ⟨hc43, hc45⟩ | ⟨hc, htz⟩
    · rw [if_neg (by tauto)]
    · rw [if_pos hc, htz]
  · intro v y mo d r1 r2 r3 hy h2 h3 hbad
    rw [parsePdfDate_year v y r1 hy]
    simp only [pdfTail, h2, h3]
    exact pdfDateFromParts_bad_date _ _ _ _ _ _ _ hbad

/-- C10, counterexample to the claimed null condition: `" 2023"` does not
begin with a 4-digit year (it begins with a space, and has no `D:`
prefix), yet `parsePdfDate` accepts it, because the implementation trims
the string before matching. -/
theorem c10_counterexample :
    (parsePdfDate (some (asc " 2023"))).isSome = true ∧
    isDigit ((asc " 2023").getD 0 0) = false ∧
    (asc "D:").isPrefixOf (asc " 2023") = false := by decide

theorem c10_parse_contract_witness :
    digits4 (stripD (jsTrim (asc "D:1999"))) = some (1999, []) ∧
    (parsePdfDate (some (asc "D:1999")) =
      pdfDateFromParts 1999 1 1 0 0 0 none ∧
     (parsePdfDate (some (asc "D:1999"))).isSome = true) ∧
    parsePdfDate (some (asc "D:20230215103045+05" ++ [39] ++ asc "30")) =
      pdfDateFromParts 2023 2 15 10 30 45 (some (false, 5, 30)) ∧
    parsePdfDate (some (asc "19991231235959")) =
      pdfDateFromParts 1999 12 31 23 59 59 none ∧
    parsePdfDate (some (asc "20230101000000+9")) =
      pdfDateFromParts 2023 1 1 0 0 0 none ∧
    parsePdfDate (some (asc "20231301")) = none := by
  refine ⟨by decide,
    c10_parse_contract.2.2.1 (asc "D:1999") 1999 (by decide),
    ?_, ?_, ?_, ?_⟩
  · exact c10_parse_contract.2.2.2.2.2.1
      (asc "D:20230215103045+05" ++ [39] ++ asc "30") 2023 2 15 10 30 45
      (asc "0215103045+05" ++ [39] ++ asc "30")
      (asc "15103045+05" ++ [39] ++ asc "30")
      (asc "103045+05" ++ [39] ++ asc "30")
      (asc "3045+05" ++ [39] ++ asc "30")
      (asc "45+05" ++ [39] ++ asc "30")
      43 (asc "05" ++ [39] ++ asc "30") 5 30
      (by decide) (by decide) (by decide) (by decide) (by decide)
      (by decide) (by decide) (by decide)
  · exact c10_parse_contract.2.2.2.2.1
      (asc "19991231235959") 1999 12 31 23 59 59
      (asc "1231235959") (asc "31235959") (asc "235959") (asc "5959")
      (asc "59")
      (by decide) (by decide) (by decide) (by decide) (by decide)
      (by decide)
  · exact c10_parse_contract.2.2.2.2.2.2.1
      (asc "20230101000000+9") 2023 1 1 0 0 0
      (asc "0101000000+9") (asc "01000000+9") (asc "000000+9")
      (asc "0000+9") (asc "00+9") 43 (asc "9")
      (by decide) (by decide) (by decide) (by decide) (by decide)
      (by decide) (by decide)
  · exact c10_parse_contract.2.2.2.2.2.2.2
      (asc "20231301") 2023 13 1 (asc "1301") (asc "01") []
      (by decide) (by decide) (by decide) (by decide)

end JiRenamer